import Mathlib

/-!
CLI-Calculator: tokenizer, recursive-descent parser and evaluator.

Shallow embedding of `src/ASTFunctions.h` and of the loop body of `main` in
`src/calculator.c`.

Conventions of the embedding.

* A C string is the list of its characters before the terminating NUL.  A
  character of the list stands for one `char`; the `<ctype.h>` classifiers are
  those of the "C" locale (the program never calls `setlocale`), so a character
  outside ASCII is in no class.
* `exit(1)` and a read outside the token array are outcomes of their own
  (`Run.fail`).  The loops and the recursive descent take a fuel argument;
  `Run.outOfFuel` is the outcome of a run that was given too little, and the
  entry points `tokenise` and `parse` are shown to give enough.
* `double` is modelled exactly (`F64`).  The sixteen functions of
  `MathFunctions.h` are a parameter (`MathLib`) of `evaluate`; `mathFunctions` is
  the library of the program, embedded from `src/MathFunctions.h` with the
  functions of `<math.h>` it calls.
-/

namespace Calc

/-! ## Data model -/

/-- A token (`char *` in the source): the characters of a C string. -/
abbrev Token := List Char

/-- Outcome of a run of a loop or of the recursive descent. -/
inductive Run (ε α : Type) where
  | ok (a : α)
  | fail (e : ε)
  | outOfFuel
  deriving DecidableEq, Repr

/-- Sequencing of two steps of a run: the second runs on the result of the first,
a failure of the first ends the run. -/
def Run.bind {ε α β : Type} (r : Run ε α) (f : α → Run ε β) : Run ε β :=
  match r with
  | .ok a => f a
  | .fail e => .fail e
  | .outOfFuel => .outOfFuel

/-- The tokens of a list of string literals. -/
def toks (l : List String) : List Token := l.map String.toList

/-! ## Character classes (`<ctype.h>`, "C" locale) and `strchr` -/

/-- The classifier `isspace`: space, `\t`, `\n`, `\v`, `\f`, `\r`. -/
def isspace (c : Char) : Bool :=
  c == ' ' || c == '\t' || c == '\n' || c == '\x0b' || c == '\x0c' || c == '\r'

/-- The classifier `isdigit`: `0` to `9`. -/
def isdigit (c : Char) : Bool := decide ('0'.toNat ≤ c.toNat) && decide (c.toNat ≤ '9'.toNat)

/-- The classifier `isalpha`: `a` to `z` and `A` to `Z`. -/
def isalpha (c : Char) : Bool :=
  (decide ('a'.toNat ≤ c.toNat) && decide (c.toNat ≤ 'z'.toNat)) ||
  (decide ('A'.toNat ≤ c.toNat) && decide (c.toNat ≤ 'Z'.toNat))

/-- The test `strchr(s, c) != NULL`: `c` occurs in `s`, the terminating NUL of `s` included. -/
def strchr (s : List Char) (c : Char) : Bool := c == '\x00' || s.contains c

/-! ## Tokenizer (`tokenise`) -/

/-- The two ways `tokenise` calls `exit(1)`. -/
inductive LexError where
  | unexpectedChar (c : Char)
  | multipleDots
  deriving DecidableEq, Repr

/-- The branch of the `if` chain of `tokenise` that emitted a token. -/
inductive Rule where
  | number
  | identifier
  | operator
  deriving DecidableEq, Repr

/-- A token together with the branch that emitted it and the index `start` of
its first character in the expression. -/
structure Lexeme where
  rule : Rule
  start : Nat
  text : Token
  deriving DecidableEq, Repr

/-- The inner loop of the number branch,
`while (isdigit(expression[i]) || expression[i] == '.')`, run on the characters
from index `i` on with the current `dotCount`: the characters it steps over and
the characters left, or the `exit(1)` on a second decimal point. -/
def scanNumber : List Char → Nat → Run LexError (List Char × List Char)
  | [], _ => .ok ([], [])
  | c :: cs, dotCount =>
    if isdigit c || c == '.' then
      if c == '.' then
        if dotCount + 1 > 1 then .fail .multipleDots
        else
          match scanNumber cs (dotCount + 1) with
          | .ok (num, rest) => .ok (c :: num, rest)
          | .fail e => .fail e
          | .outOfFuel => .outOfFuel
      else
        match scanNumber cs dotCount with
        | .ok (num, rest) => .ok (c :: num, rest)
        | .fail e => .fail e
        | .outOfFuel => .outOfFuel
    else .ok ([], c :: cs)

/-- The character `expression[k]`; the terminating NUL from the end on. -/
def charAt (expression : List Char) (k : Nat) : Char := expression.getD k '\x00'

/-- The condition of the number branch at index `i`, where `c = expression[i]`. -/
def startsNumber (expression : List Char) (i : Nat) (c : Char) : Bool :=
  isdigit c || c == '.' ||
    (c == '-' && (i == 0 || charAt expression (i - 1) == '(' ||
      strchr "+-*/^".toList (charAt expression (i - 1))))

/-- The condition of the identifier loop. -/
def identChar (d : Char) : Bool := isalpha d || isdigit d || d == '_'

/-- The main loop of `tokenise`, `while (expression[i] != 0)`: `rest` holds the
characters of `expression` from index `i` on, the result lists the tokens emitted
from there on. -/
def tokeniseLoop (expression : List Char) : Nat → Nat → List Char → Run LexError (List Lexeme)
  | _, _, [] => .ok []
  | 0, _, _ :: _ => .outOfFuel
  | fuel + 1, i, c :: cs =>
    if c == '\x00' then .ok []
    else if isspace c then tokeniseLoop expression fuel (i + 1) cs
    else if startsNumber expression i c then
      match scanNumber (if c == '-' then cs else c :: cs) 0 with
      | .ok (digits, rest) =>
        let num := if c == '-' then c :: digits else digits
        match tokeniseLoop expression fuel (i + num.length) rest with
        | .ok lexemes => .ok (⟨.number, i, num⟩ :: lexemes)
        | .fail e => .fail e
        | .outOfFuel => .outOfFuel
      | .fail e => .fail e
      | .outOfFuel => .outOfFuel
    else if isalpha c || c == '_' then
      let id := (c :: cs).takeWhile identChar
      match tokeniseLoop expression fuel (i + id.length) ((c :: cs).dropWhile identChar) with
      | .ok lexemes => .ok (⟨.identifier, i, id⟩ :: lexemes)
      | .fail e => .fail e
      | .outOfFuel => .outOfFuel
    else if strchr "+-*/^(),".toList c then
      match tokeniseLoop expression fuel (i + 1) cs with
      | .ok lexemes => .ok (⟨.operator, i, [c]⟩ :: lexemes)
      | .fail e => .fail e
      | .outOfFuel => .outOfFuel
    else .fail (.unexpectedChar c)

/-- The run of `tokenise` on `expression`, every token with its branch and start
index.  Each turn of the main loop steps over at least one character, so the
length of the expression is fuel enough. -/
def tokeniseLexemes (expression : List Char) : Run LexError (List Lexeme) :=
  tokeniseLoop expression expression.length 0 expression

/-- The token array (`char **`, with `*numTokens` its length) that `tokenise`
returns. -/
def tokenise (expression : List Char) : Run LexError (List Token) :=
  match tokeniseLexemes expression with
  | .ok lexemes => .ok (lexemes.map Lexeme.text)
  | .fail e => .fail e
  | .outOfFuel => .outOfFuel

/-! ## Syntax tree -/

/-- An `ASTNode *`: `NULL`, or a node with its `value`, `left` and `right`. -/
inductive ASTNode where
  | null
  | node (value : Token) (left right : ASTNode)
  deriving DecidableEq, Repr

/-- The function `createNode`. -/
def createNode (value : Token) (left right : ASTNode) : ASTNode := .node value left right

/-! ## Parser

The `Parser` of the source is the token array `tokens` (with `numTokens` its
length) and the cursor `pos`; the functions below take the cursor and return the
cursor they leave. -/

/-- The ways a run of the parser ends without a tree: `consume` printing
"Syntax error: Expected .., got .." and calling `exit(1)` (`got` is `none` when
the cursor is at the end of the array, where the message reads
`tokens[numTokens]`), or a read of `tokens[index]` outside the array whose value
the parser goes on to use. -/
inductive ParseFault where
  | syntaxError (expected : Token) (got : Option Token)
  | outOfBounds (index : Int)
  deriving DecidableEq, Repr

/-- Result of a parsing function: the tree and the cursor after it. -/
abbrev PResult := Run ParseFault (ASTNode × Nat)

/-- The sixteen function identifiers of the `strcmp` chains. -/
def functionNames : List Token :=
  toks ["sin", "cos", "tan", "ln", "exp", "sinh", "cosh", "tanh", "asin", "acos", "atan",
    "asinh", "acosh", "atanh", "pow", "log_base"]

/-- The function `match`: whether the current token is `expected`, and the cursor after the call. -/
def matchTok (tokens : List Token) (pos : Nat) (expected : Token) : Bool × Nat :=
  if pos < tokens.length && tokens[pos]? == some expected then (true, pos + 1) else (false, pos)

/-- The function `previous`: `tokens[pos - 1]`, `none` outside the array. -/
def previous (tokens : List Token) (pos : Nat) : Option Token :=
  if pos = 0 then none else tokens[pos - 1]?

/-- The function `consume`: the cursor after the expected token, or the syntax error. -/
def consume (tokens : List Token) (pos : Nat) (expected : Token) : Run ParseFault Nat :=
  match matchTok tokens pos expected with
  | (true, pos1) => .ok pos1
  | (false, _) => .fail (.syntaxError expected tokens[pos]?)

/-- The function `consumeNumber`: it reads `tokens[pos]` without a bounds check. -/
def consumeNumber (tokens : List Token) (pos : Nat) : Run ParseFault (Token × Nat) :=
  match tokens[pos]? with
  | some num => .ok (num, pos + 1)
  | none => .fail (.outOfBounds pos)

/-- The function `implicitMultiplication`; `prev[0]` of an empty token is its NUL. -/
def implicitMultiplication (tokens : List Token) (pos : Nat) : Run ParseFault Bool :=
  if pos < tokens.length then
    match previous tokens pos, tokens[pos]? with
    | some prev, some curr =>
      .ok ((isdigit (prev.headD '\x00') || prev == ")".toList) &&
           (isdigit (curr.headD '\x00') || curr == "(".toList || functionNames.contains curr))
    | _, _ => .fail (.outOfBounds ((pos : Int) - 1))
  else .ok false

/-- The condition of the loop of `parseExpression`,
`match(parser, "+") || match(parser, "-")`, with the cursor after it. -/
def exprCond (tokens : List Token) (pos : Nat) : Bool × Nat :=
  match matchTok tokens pos "+".toList with
  | (true, pos1) => (true, pos1)
  | (false, pos1) => matchTok tokens pos1 "-".toList

/-- The condition of the loop of `parseTerm`,
`match(parser, "*") || match(parser, "/") || implicitMultiplication(parser)`. -/
def termCond (tokens : List Token) (pos : Nat) : Run ParseFault (Bool × Nat) :=
  match matchTok tokens pos "*".toList with
  | (true, pos1) => .ok (true, pos1)
  | (false, pos1) =>
    match matchTok tokens pos1 "/".toList with
    | (true, pos2) => .ok (true, pos2)
    | (false, pos2) => (implicitMultiplication tokens pos2).bind fun b => .ok (b, pos2)

/-- The call of `previous` where the source uses its value: a read outside the array is a
fault. -/
def previousTok (tokens : List Token) (pos : Nat) : Run ParseFault Token :=
  match previous tokens pos with
  | some op => .ok op
  | none => .fail (.outOfBounds ((pos : Int) - 1))

/-- The operator of a turn of the loop of `parseTerm`,
`implicitMultiplication(parser) ? "*" : previous(parser)`. -/
def termOp (tokens : List Token) (pos : Nat) : Run ParseFault Token :=
  (implicitMultiplication tokens pos).bind fun b =>
    if b then .ok "*".toList else previousTok tokens pos

/-- The function identifier under the cursor, if the cursor is inside the array
and its token is one of the sixteen names (the first `if` of `parseFactor`). -/
def functionAt (tokens : List Token) (pos : Nat) : Option Token :=
  if pos < tokens.length then
    match tokens[pos]? with
    | some token => if functionNames.contains token then some token else none
    | none => none
  else none

mutual
/-- The function `parseExpression`: a term, then the loop on `+` and `-`. -/
def parseExpression (fuel : Nat) (tokens : List Token) (pos : Nat) : PResult :=
  match fuel with
  | 0 => .outOfFuel
  | fuel + 1 =>
    (parseTerm fuel tokens pos).bind fun (node, pos1) =>
      parseExpressionLoop fuel tokens node pos1
termination_by structural fuel
/-- The `while` loop of `parseExpression`, entered with the tree `node` so far. -/
def parseExpressionLoop (fuel : Nat) (tokens : List Token) (node : ASTNode) (pos : Nat) :
    PResult :=
  match fuel with
  | 0 => .outOfFuel
  | fuel + 1 =>
    match exprCond tokens pos with
    | (true, pos1) =>
      (previousTok tokens pos1).bind fun op =>
      (parseTerm fuel tokens pos1).bind fun (right, pos2) =>
        parseExpressionLoop fuel tokens (createNode op node right) pos2
    | (false, pos1) => .ok (node, pos1)
termination_by structural fuel
/-- The function `parseTerm`: an exponentiation, then the loop on `*`, `/` and implicit
multiplication. -/
def parseTerm (fuel : Nat) (tokens : List Token) (pos : Nat) : PResult :=
  match fuel with
  | 0 => .outOfFuel
  | fuel + 1 =>
    (parseExponentiation fuel tokens pos).bind fun (node, pos1) =>
      parseTermLoop fuel tokens node pos1
termination_by structural fuel
/-- The `while` loop of `parseTerm`. -/
def parseTermLoop (fuel : Nat) (tokens : List Token) (node : ASTNode) (pos : Nat) : PResult :=
  match fuel with
  | 0 => .outOfFuel
  | fuel + 1 =>
    (termCond tokens pos).bind fun (go, pos1) =>
      if go then
        (termOp tokens pos1).bind fun op =>
        (parseExponentiation fuel tokens pos1).bind fun (right, pos2) =>
          parseTermLoop fuel tokens (createNode op node right) pos2
      else .ok (node, pos1)
termination_by structural fuel
/-- The function `parseExponentiation`: a factor, then the loop on `^`. -/
def parseExponentiation (fuel : Nat) (tokens : List Token) (pos : Nat) : PResult :=
  match fuel with
  | 0 => .outOfFuel
  | fuel + 1 =>
    (parseFactor fuel tokens pos).bind fun (node, pos1) =>
      parseExponentiationLoop fuel tokens node pos1
termination_by structural fuel
/-- The `while` loop of `parseExponentiation`. -/
def parseExponentiationLoop (fuel : Nat) (tokens : List Token) (node : ASTNode) (pos : Nat) :
    PResult :=
  match fuel with
  | 0 => .outOfFuel
  | fuel + 1 =>
    match matchTok tokens pos "^".toList with
    | (true, pos1) =>
      (previousTok tokens pos1).bind fun op =>
      (parseFactor fuel tokens pos1).bind fun (right, pos2) =>
        parseExponentiationLoop fuel tokens (createNode op node right) pos2
    | (false, pos1) => .ok (node, pos1)
termination_by structural fuel
/-- The function `parseFactor`: a function call, a parenthesised expression, or a number. -/
def parseFactor (fuel : Nat) (tokens : List Token) (pos : Nat) : PResult :=
  match fuel with
  | 0 => .outOfFuel
  | fuel + 1 =>
    match functionAt tokens pos with
    | some token =>
      (consume tokens (pos + 1) "(".toList).bind fun pos1 =>
      (parseExpression fuel tokens pos1).bind fun (arg, pos2) =>
        if token == "pow".toList || token == "log_base".toList then
          (consume tokens pos2 ",".toList).bind fun pos3 =>
          (parseExpression fuel tokens pos3).bind fun (arg2, pos4) =>
          (consume tokens pos4 ")".toList).bind fun pos5 =>
            .ok (createNode token arg arg2, pos5)
        else
          (consume tokens pos2 ")".toList).bind fun pos3 =>
            .ok (createNode token arg .null, pos3)
    | none =>
      match matchTok tokens pos "(".toList with
      | (true, pos1) =>
        (parseExpression fuel tokens pos1).bind fun (node, pos2) =>
        (consume tokens pos2 ")".toList).bind fun pos3 =>
          .ok (node, pos3)
      | (false, pos1) =>
        (consumeNumber tokens pos1).bind fun (num, pos2) =>
          .ok (createNode num .null .null, pos2)
termination_by structural fuel
end

/-- Fuel for a run of the parser on `n` tokens: every call and every turn of a
loop takes one unit, and seven of them lie between two reads of a new token. -/
def parseFuel (n : Nat) : Nat := 8 * n + 8

/-- The call of `main`: `Parser parser = {tokens, 0, numTokens}` and
`parseExpression(&parser)`; the tree and the final cursor. -/
def parse (tokens : List Token) : PResult :=
  parseExpression (parseFuel tokens.length) tokens 0

/-! ## Predicates for the statements about the tokenizer -/

/-- The characters `tokenise` has a branch for: whitespace, a digit, `.`, a
letter, `_`, or one of `+ - * / ^ ( ) ,`. -/
def allowedChar (c : Char) : Bool :=
  isspace c || isdigit c || c == '.' || isalpha c || c == '_' || "+-*/^(),".toList.contains c

/-- A number literal with more than one decimal point: two decimal points of `s`
with nothing but digits between them. -/
def twoDotLiteral (s : List Char) : Prop :=
  ∃ pre mid post, s = pre ++ '.' :: (mid ++ '.' :: post) ∧ ∀ d ∈ mid, isdigit d = true

/-- A decimal point reached over digits only. -/
def dotAfterDigits (s : List Char) : Prop :=
  ∃ mid post, s = mid ++ '.' :: post ∧ ∀ d ∈ mid, isdigit d = true

/-- Scan for a second decimal point in a run of digits and points; `seen` tells
whether the run read so far has a point. -/
def twoDotsFrom : Bool → List Char → Bool
  | _, [] => false
  | seen, c :: cs =>
    if c == '.' then seen || twoDotsFrom true cs
    else if isdigit c then twoDotsFrom seen cs
    else twoDotsFrom false cs

/-- The inputs on which the main loop ends in `exit(1)`. -/
def badInput (s : List Char) : Prop :=
  (∃ c ∈ s, allowedChar c = false) ∨ twoDotsFrom false s = true

/-- The places where `tokenise` fuses a `-` into a number: index 0, or right
after `(` or one of `+ - * / ^`. -/
def fusingPosition (expression : List Char) (i : Nat) : Prop :=
  i = 0 ∨ ∃ p ∈ "(+-*/^".toList, expression[i - 1]? = some p

/-! ## Notions for the statements about the parser -/

/-- A run with more fuel ends as the run with less, unless that one ran out. -/
def Run.le {ε α : Type} (r r' : Run ε α) : Prop := r = .outOfFuel ∨ r = r'

/-- The operator tokens are no operands of an implicit multiplication. -/
def isOperatorToken (t : Token) : Prop :=
  t = "+".toList ∨ t = "-".toList ∨ t = "*".toList ∨ t = "/".toList ∨ t = "^".toList

/-- A token at which every loop of the parser stops: no operator, no `(`, no
function identifier and no token that starts with a digit (`)` and `,` are such
tokens). -/
def stopsParse (d : Token) : Prop :=
  ¬isOperatorToken d ∧ isdigit (d.headD '\x00') = false ∧ d ≠ "(".toList ∧
    functionNames.contains d = false

/-- A number token that starts with a digit. -/
def digitLeading (t : Token) : Prop := isdigit (t.headD '\x00') = true

instance (t : Token) : Decidable (digitLeading t) :=
  inferInstanceAs (Decidable (isdigit (t.headD '\x00') = true))

/-- A leaf: the node `createNode` makes of a number token. -/
def leaf (t : Token) : ASTNode := createNode t .null .null

/-- The two-argument function identifiers. -/
def twoArgument (f : Token) : Prop := f = "pow".toList ∨ f = "log_base".toList

instance (f : Token) : Decidable (twoArgument f) :=
  inferInstanceAs (Decidable (f = "pow".toList ∨ f = "log_base".toList))

/-- An IEEE 754 binary64 value: a NaN, an infinity, or the finite value
`(-1)^neg * m * 2^e`.  The values built by `F64.round` are canonical: `m < 2^53`,
`-1074 ≤ e ≤ 971`, and `2^52 ≤ m` unless `e = -1074`. -/
inductive F64 where
  | nan
  | inf (neg : Bool)
  | fin (neg : Bool) (m : Nat) (e : Int)
  deriving DecidableEq, Repr

namespace F64

/-- The quotient `num / den` times `2^k`, as numerator and denominator. -/
def scale (num den : Nat) (k : Int) : Nat × Nat :=
  if 0 ≤ k then (num * 2 ^ k.toNat, den) else (num, den * 2 ^ (-k).toNat)

/-- Halve `n` until it is 0, at most `fuel` times, and count. -/
def bitsAux : Nat → Nat → Nat
  | 0, _ => 0
  | fuel + 1, n => if n = 0 then 0 else bitsAux fuel (n / 2) + 1

/-- Number of bits of `n`: the least `b` with `n < 2^b`. -/
def bits (n : Nat) : Nat := bitsAux n n

/-- Round the real `num / den ≥ 0` (`den > 0`), taken with the sign `neg`, to the
nearest double, ties to even; beyond the largest double the result is the
infinity. -/
def round (neg : Bool) (num den : Nat) : F64 :=
  if num = 0 then .fin neg 0 (-1074)
  else
    let lg : Int := (bits num : Int) - (bits den : Int)
    -- `2^(lg-1) < num/den < 2^(lg+1)`; `k` is the floor of its binary logarithm
    let s := scale num den (-lg)
    let k : Int := if s.2 ≤ s.1 then lg else lg - 1
    let e : Int := max (k - 52) (-1074)
    let t := scale num den (-e)
    let q := t.1 / t.2
    let r := t.1 % t.2
    let q1 := if t.2 < 2 * r ∨ (2 * r = t.2 ∧ q % 2 = 1) then q + 1 else q
    let m := if q1 = 2 ^ 53 then 2 ^ 52 else q1
    let e1 := if q1 = 2 ^ 53 then e + 1 else e
    if 971 < e1 then .inf neg else .fin neg m e1

/-- The double `0.0`. -/
def zero : F64 := .fin false 0 (-1074)

/-- The double nearest to the integer `i`. -/
def ofInt (i : Int) : F64 := round (decide (i < 0)) i.natAbs 1

/-- The negation `-x`. -/
def neg : F64 → F64
  | .nan => .nan
  | .inf s => .inf (!s)
  | .fin s m e => .fin (!s) m e

/-- The sign bit `signbit(x)`; the sign of a NaN is not modelled. -/
def signbit : F64 → Bool
  | .nan => false
  | .inf s => s
  | .fin s _ _ => s

/-- The sum `x + y`. -/
def add : F64 → F64 → F64
  | .nan, _ => .nan
  | _, .nan => .nan
  | .inf s, .inf t => if s = t then .inf s else .nan
  | .inf s, .fin _ _ _ => .inf s
  | .fin _ _ _, .inf t => .inf t
  | .fin s m e, .fin t n f =>
    let g := min e f
    let a : Int := (if s then -1 else 1) * (m * 2 ^ (e - g).toNat : Nat)
    let b : Int := (if t then -1 else 1) * (n * 2 ^ (f - g).toNat : Nat)
    let c := a + b
    if c = 0 then .fin (s && t) 0 (-1074)
    else
      let r := scale c.natAbs 1 g
      round (decide (c < 0)) r.1 r.2

/-- The difference `x - y`. -/
def sub (x y : F64) : F64 := add x (neg y)

/-- The product `x * y`. -/
def mul : F64 → F64 → F64
  | .nan, _ => .nan
  | _, .nan => .nan
  | .inf s, .inf t => .inf (xor s t)
  | .inf s, .fin t n _ => if n = 0 then .nan else .inf (xor s t)
  | .fin s m _, .inf t => if m = 0 then .nan else .inf (xor s t)
  | .fin s m e, .fin t n f =>
    let r := scale (m * n) 1 (e + f)
    round (xor s t) r.1 r.2

/-- The quotient `x / y`. -/
def div : F64 → F64 → F64
  | .nan, _ => .nan
  | _, .nan => .nan
  | .inf _, .inf _ => .nan
  | .inf s, .fin t _ _ => .inf (xor s t)
  | .fin s _ _, .inf t => .fin (xor s t) 0 (-1074)
  | .fin s m e, .fin t n f =>
    if n = 0 then (if m = 0 then .nan else .inf (xor s t))
    else
      let r := scale m n (e - f)
      round (xor s t) r.1 r.2

/-- The comparison `x == y`: `-0.0 == 0.0`, and a NaN equals nothing. -/
def eq : F64 → F64 → Bool
  | .nan, _ => false
  | _, .nan => false
  | .inf s, .inf t => s == t
  | .inf _, .fin _ _ _ => false
  | .fin _ _ _, .inf _ => false
  | .fin s m e, .fin t n f => (m == 0 && n == 0) || (s == t && m == n && e == f)

end F64

/-! ## `atof`

`atof(s)` is `strtod(s, NULL)` in the "C" locale: leading whitespace, an optional
sign, then `inf`/`infinity` or `nan` in any case, a hexadecimal or a decimal
number; the longest such prefix is converted (correctly rounded) and the rest of
the string is ignored; `0.0` when there is none. -/

/-- Value of a string of decimal digits. -/
def digitsValue (ds : List Char) : Nat :=
  ds.foldl (fun n d => 10 * n + (d.toNat - '0'.toNat)) 0

/-- The classifier `isxdigit`. -/
def isxdigit (c : Char) : Bool :=
  isdigit c || (decide ('a'.toNat ≤ c.toNat) && decide (c.toNat ≤ 'f'.toNat)) ||
    (decide ('A'.toNat ≤ c.toNat) && decide (c.toNat ≤ 'F'.toNat))

/-- Value of a hexadecimal digit. -/
def hexDigitValue (c : Char) : Nat :=
  if isdigit c then c.toNat - '0'.toNat
  else if decide ('a'.toNat ≤ c.toNat) then c.toNat - 'a'.toNat + 10
  else c.toNat - 'A'.toNat + 10

/-- Value of a string of hexadecimal digits. -/
def hexValue (ds : List Char) : Nat := ds.foldl (fun n d => 16 * n + hexDigitValue d) 0

/-- The function `tolower` on letters. -/
def lower (c : Char) : Char :=
  if decide ('A'.toNat ≤ c.toNat) && decide (c.toNat ≤ 'Z'.toNat) then Char.ofNat (c.toNat + 32)
  else c

/-- Whether `s` starts with the lower-case word `w`, in any case. -/
def startsWithWord (w s : List Char) : Bool := (s.take w.length).map lower == w

/-- The exponent part after the mantissa: the letter `mark` (in either case), an
optional sign and at least one decimal digit; 0 when the part is absent or
incomplete. -/
def exponentPart (mark : Char) (s : List Char) : Int :=
  match s with
  | c :: r =>
    if lower c == mark then
      match r with
      | '+' :: ds => if (ds.takeWhile isdigit).isEmpty then 0 else digitsValue (ds.takeWhile isdigit)
      | '-' :: ds =>
        if (ds.takeWhile isdigit).isEmpty then 0 else -(digitsValue (ds.takeWhile isdigit) : Int)
      | ds => if (ds.takeWhile isdigit).isEmpty then 0 else digitsValue (ds.takeWhile isdigit)
    else 0
  | [] => 0

/-- The digits before and after an optional point at the start of `s`, for the
digit class `p`, and the characters that follow them. -/
def mantissa (p : Char → Bool) (s : List Char) : List Char × List Char × List Char :=
  let whole := s.takeWhile p
  match s.dropWhile p with
  | '.' :: r => (whole, r.takeWhile p, r.dropWhile p)
  | r => (whole, [], r)

/-- The unsigned number at the start of `s`, with the sign `neg` to apply. -/
def atofUnsigned (neg : Bool) (s : List Char) : F64 :=
  if startsWithWord "inf".toList s then .inf neg
  else if startsWithWord "nan".toList s then .nan
  else
    let hex := mantissa isxdigit (s.drop 2)
    if startsWithWord "0x".toList s && !(hex.1.isEmpty && hex.2.1.isEmpty) then
      let r := F64.scale (hexValue (hex.1 ++ hex.2.1)) 1
        (exponentPart 'p' hex.2.2 - 4 * (hex.2.1.length : Int))
      F64.round neg r.1 r.2
    else
      let dec := mantissa isdigit s
      if dec.1.isEmpty && dec.2.1.isEmpty then F64.zero
      else
        let n := digitsValue (dec.1 ++ dec.2.1)
        let x : Int := exponentPart 'e' dec.2.2 - (dec.2.1.length : Int)
        if 0 ≤ x then F64.round neg (n * 10 ^ x.toNat) 1 else F64.round neg n (10 ^ (-x).toNat)

/-- The function `atof`. -/
def atof (s : Token) : F64 :=
  match s.dropWhile isspace with
  | '+' :: r => atofUnsigned false r
  | '-' :: r => atofUnsigned true r
  | r => atofUnsigned false r

/-! ## Evaluator (`evaluate`) -/

/-- The functions of `MathFunctions.h` that `evaluate` calls.  They are a
parameter of the evaluator: what is proved of `evaluate` below holds whatever
these sixteen functions compute. -/
structure MathLib where
  customSIN : F64 → F64
  customCOS : F64 → F64
  customTAN : F64 → F64
  customLN : F64 → F64
  customEXP : F64 → F64
  customSINH : F64 → F64
  customCOSH : F64 → F64
  customTANH : F64 → F64
  customASIN : F64 → F64
  customACOS : F64 → F64
  customATAN : F64 → F64
  customASINH : F64 → F64
  customACOSH : F64 → F64
  customATANH : F64 → F64
  customPOW : F64 → F64 → F64
  customLogBase : F64 → F64 → F64

/-- The one-argument function that the `strcmp` chain of `evaluate` selects for
the node value, in the order of the chain. -/
def unaryFunction (M : MathLib) (value : Token) : Option (F64 → F64) :=
  if value == "sin".toList then some M.customSIN
  else if value == "cos".toList then some M.customCOS
  else if value == "tan".toList then some M.customTAN
  else if value == "ln".toList then some M.customLN
  else if value == "exp".toList then some M.customEXP
  else if value == "sinh".toList then some M.customSINH
  else if value == "cosh".toList then some M.customCOSH
  else if value == "tanh".toList then some M.customTANH
  else if value == "asin".toList then some M.customASIN
  else if value == "acos".toList then some M.customACOS
  else if value == "atan".toList then some M.customATAN
  else if value == "asinh".toList then some M.customASINH
  else if value == "acosh".toList then some M.customACOSH
  else if value == "atanh".toList then some M.customATANH
  else none

/-- The operator part of `evaluate`: `result` starts as `0.0`, the operator
sets it, and a negative zero is replaced by `0`. -/
def applyOperator (M : MathLib) (value : Token) (left_val right_val : F64) : F64 :=
  let result :=
    if value == "+".toList then F64.add left_val right_val
    else if value == "-".toList then F64.sub left_val right_val
    else if value == "*".toList then F64.mul left_val right_val
    else if value == "/".toList then F64.div left_val right_val
    else if value == "^".toList then M.customPOW left_val right_val
    else F64.zero
  if F64.eq result F64.zero && F64.signbit result then F64.zero else result

/-- The function `evaluate`; `none` is the dereference of a `NULL` node. -/
def evaluate (M : MathLib) : ASTNode → Option F64
  | .null => none
  | .node value .null .null => some (atof value)
  | .node value left right =>
    match unaryFunction M value with
    | some f => (evaluate M left).bind fun arg => some (f arg)
    | none =>
      if value == "pow".toList then
        (evaluate M left).bind fun base =>
        (evaluate M right).bind fun exponent => some (M.customPOW base exponent)
      else if value == "log_base".toList then
        (evaluate M left).bind fun a =>
        (evaluate M right).bind fun b => some (M.customLogBase a b)
      else
        (evaluate M left).bind fun left_val =>
        (evaluate M right).bind fun right_val => some (applyOperator M value left_val right_val)

/-! ## The loop body of `main` -/

/-- What one turn of the loop of `main` does with the expression it read. -/
inductive Outcome where
  | result (x : F64)
  | lexError (e : LexError)
  | parseFault (e : ParseFault)
  | invalidExpression
  | nullDereference
  | outOfFuel
  deriving DecidableEq, Repr

/-- One turn of the loop of `main`: `tokenise`, `parseExpression` from cursor 0,
and `evaluate` when the tree is not `NULL`. -/
def calculate (M : MathLib) (expression : List Char) : Outcome :=
  match tokenise expression with
  | .fail e => .lexError e
  | .outOfFuel => .outOfFuel
  | .ok tokens =>
    match parse tokens with
    | .fail e => .parseFault e
    | .outOfFuel => .outOfFuel
    | .ok (.null, _) => .invalidExpression
    | .ok (ast, _) =>
      match evaluate M ast with
      | some x => .result x
      | none => .nullDereference


/-! ## More of `<math.h>` on doubles

Comparisons, `fabs`, `fmod`, `round`, `ldexp`, `frexp`, `sqrt` and the
conversions between `double` and `int`.  Every function is exact or correctly
rounded, as IEEE 754 and the C library specify. -/

/-- What the C standard leaves undefined and the hardware decides: the `int` that
the conversion of a NaN, of an infinity or of a double outside the range of `int`
gives.  It is a parameter of the math library; what is proved below holds for
every such value. -/
structure Platform where
  castOutOfRange : F64 → Int

namespace F64

/-- The integer `(-1)^s * m * 2^(e - g)`, for `g ≤ e`. -/
def signedInt (s : Bool) (m : Nat) (e g : Int) : Int :=
  (if s then -1 else 1) * (m * 2 ^ (e - g).toNat : Nat)

/-- The comparison `x < y`; false when one side is a NaN. -/
def lt : F64 → F64 → Bool
  | .nan, _ => false
  | _, .nan => false
  | .inf s, .inf t => s && !t
  | .inf s, .fin _ _ _ => s
  | .fin _ _ _, .inf t => !t
  | .fin s m e, .fin t n f =>
    decide (signedInt s m e (min e f) < signedInt t n f (min e f))

/-- The comparison `x <= y`; false when one side is a NaN. -/
def le : F64 → F64 → Bool
  | .nan, _ => false
  | _, .nan => false
  | .inf s, .inf t => s || !t
  | .inf s, .fin _ _ _ => s
  | .fin _ _ _, .inf t => !t
  | .fin s m e, .fin t n f =>
    decide (signedInt s m e (min e f) ≤ signedInt t n f (min e f))

/-- The absolute value `fabs(x)`. -/
def fabs : F64 → F64
  | .nan => .nan
  | .inf _ => .inf false
  | .fin _ m e => .fin false m e

/-- The remainder `fmod(x, y)`: `x - n * y` for the integer `n` that is `x / y`
rounded toward zero; it has the sign of `x` and is exact. -/
def fmod : F64 → F64 → F64
  | .nan, _ => .nan
  | _, .nan => .nan
  | .inf _, _ => .nan
  | .fin s m e, .inf _ => .fin s m e
  | .fin s m e, .fin _ n f =>
    if n = 0 then .nan
    else
      let g := min e f
      let r := scale ((m * 2 ^ (e - g).toNat) % (n * 2 ^ (f - g).toNat)) 1 g
      round s r.1 r.2

/-- The function `round`: the nearest integer, halfway cases away from zero. -/
def roundHalfAway : F64 → F64
  | .fin s m e =>
    if 0 ≤ e then .fin s m e
    else
      let d := 2 ^ (-e).toNat
      round s (if d ≤ 2 * (m % d) then m / d + 1 else m / d) 1
  | x => x

/-- The function `ldexp(x, n)`: `x * 2^n`, rounded. -/
def ldexp : F64 → Int → F64
  | .fin s m e, n =>
    let r := scale m 1 (e + n)
    round s r.1 r.2
  | x, _ => x

/-- The function `frexp(x, &exp)`: the fraction in `[0.5, 1)` and the exponent.
For a zero, a NaN or an infinity the value itself comes back; the exponent that C
leaves unspecified for a NaN or an infinity is the 0 that glibc stores. -/
def frexp : F64 → F64 × Int
  | .fin s m e => if m = 0 then (.fin s m e, 0) else (round s m (2 ^ bits m), e + bits m)
  | x => (x, 0)

/-- The greatest `r` with `r * r ≤ n` among the sums of `acc` and powers of two
below `2^k`. -/
def isqrtAux : Nat → Nat → Nat → Nat
  | 0, _, acc => acc
  | k + 1, n, acc => isqrtAux k n (if (acc + 2 ^ k) * (acc + 2 ^ k) ≤ n then acc + 2 ^ k else acc)

/-- The integer square root of `n`. -/
def isqrt (n : Nat) : Nat := isqrtAux (bits n / 2 + 1) n 0

/-- The function `sqrt`, correctly rounded: the mantissa is shifted to at least
110 bits with an even exponent, and what the integer square root leaves out is
kept as one sticky bit. -/
def sqrt : F64 → F64
  | .nan => .nan
  | .inf s => if s then .nan else .inf false
  | .fin s m e =>
    if m = 0 then .fin s m e
    else if s then .nan
    else
      let j : Int := if (e - 112) % 2 = 0 then 112 else 113
      let n := m * 2 ^ j.toNat
      let r := isqrt n
      let t := scale (2 * r + (if r * r = n then 0 else 1)) 2 ((e - j) / 2)
      round false t.1 t.2

/-- The value of a finite double rounded toward zero to an integer. -/
def trunc : F64 → Option Int
  | .fin s m e =>
    some ((if s then -1 else 1) * (if 0 ≤ e then m * 2 ^ e.toNat else m / 2 ^ (-e).toNat : Nat))
  | _ => none

/-- The conversion `(int)x`: the value rounded toward zero when an `int` (32
bits) holds it, else what the platform gives. -/
def toInt (P : Platform) (x : F64) : Int :=
  match trunc x with
  | some i => if -2 ^ 31 ≤ i ∧ i < 2 ^ 31 then i else P.castOutOfRange x
  | none => P.castOutOfRange x

/-- The rational value of a finite double (0 for a NaN or an infinity). -/
def toRat : F64 → ℚ
  | .fin s m e => (if s then -1 else 1) * (m : ℚ) * (2 : ℚ) ^ e
  | _ => 0

/-- A finite double. -/
def isFinite : F64 → Bool
  | .fin _ _ _ => true
  | _ => false

/-- A zero, of either sign. -/
def isZero : F64 → Bool
  | .fin _ m _ => m == 0
  | _ => false

end F64

/-- A floating constant of the source, converted as the compiler does (correctly
rounded); a leading `-` is the negation of the constant. -/
def lit (s : String) : F64 := atof s.toList

/-! ## The math library (`MathFunctions.h`)

Every `double` operation is rounded on its own (no fused multiply-add, no
extended precision). -/

/-- The constant `PI`. -/
def PI : F64 := lit "3.14159265358979323846"

/-- The constant `TWO_PI`. -/
def TWO_PI : F64 := F64.mul (lit "2.0") PI

/-- The constant `HALF_PI`. -/
def HALF_PI : F64 := F64.mul (lit "0.5") PI

/-- The constant `LN2`. -/
def LN2 : F64 := lit "0.6931471805599453"

/-- The function `reduceAngle`: the reduced angle and `*quadrant`. -/
def reduceAngle (P : Platform) (x : F64) : F64 × Int :=
  let x := F64.fmod x TWO_PI
  let x := if F64.lt x F64.zero then F64.add x TWO_PI else x
  let quadrant := (F64.toInt P (F64.div x HALF_PI)).tmod 4
  let reducedX := F64.fmod x PI
  let reducedX := if quadrant = 1 ∨ quadrant = 3 then F64.sub PI reducedX else reducedX
  let reducedX := if 2 ≤ quadrant then F64.neg reducedX else reducedX
  (reducedX, quadrant)

/-- The function `customSIN`. -/
def customSIN (P : Platform) (x : F64) : F64 :=
  let x := (reduceAngle P x).1
  let c1 := lit "-1.66666666666666324348e-01"
  let c2 := lit "8.33333333332248946124e-03"
  let c3 := lit "-1.98412698298579493134e-04"
  let c4 := lit "2.75573137070700676789e-06"
  let c5 := lit "-2.50507602534068634195e-08"
  let c6 := lit "1.58969099521155010221e-10"
  let x2 := F64.mul x x
  F64.mul x (F64.add (lit "1.0") (F64.mul x2 (F64.add c1 (F64.mul x2 (F64.add c2
    (F64.mul x2 (F64.add c3 (F64.mul x2 (F64.add c4 (F64.mul x2 (F64.add c5
      (F64.mul x2 c6))))))))))))

/-- The function `customCOS`. -/
def customCOS (P : Platform) (x : F64) : F64 :=
  let quadrant := (reduceAngle P x).2
  let x := (reduceAngle P x).1
  let c1 := lit "-0.5"
  let c2 := lit "4.16666666666666019037e-02"
  let c3 := lit "-1.38888888888741095749e-03"
  let c4 := lit "2.48015872894767294178e-05"
  let c5 := lit "-2.75573143513906633035e-07"
  let c6 := lit "2.08757232129817482790e-09"
  let x2 := F64.mul x x
  let result := F64.add (lit "1.0") (F64.mul x2 (F64.add c1 (F64.mul x2 (F64.add c2
    (F64.mul x2 (F64.add c3 (F64.mul x2 (F64.add c4 (F64.mul x2 (F64.add c5
      (F64.mul x2 c6)))))))))))
  if quadrant = 1 ∨ quadrant = 2 then F64.neg result else result

/-- The function `customTAN`. -/
def customTAN (P : Platform) (x : F64) : F64 :=
  let cos_val := customCOS P x
  if F64.lt (F64.fabs cos_val) (lit "1e-10") then .inf false
  else F64.div (customSIN P x) cos_val

/-- The function `customEXP`. -/
def customEXP (P : Platform) (x : F64) : F64 :=
  if F64.lt (lit "709.78") x then .inf false
  else if F64.lt x (lit "-745.13") then lit "0.0"
  else
    let ln2 := lit "0.6931471805599453"
    let n := F64.toInt P (F64.roundHalfAway (F64.div x ln2))
    let r := F64.sub x (F64.mul (F64.ofInt n) ln2)
    let c1 := lit "1.0"
    let c2 := lit "1.0"
    let c3 := lit "0.5"
    let c4 := lit "0.16666666666666666"
    let c5 := lit "0.041666666666666664"
    let c6 := lit "0.008333333333333333"
    let c7 := lit "0.001388888888888889"
    let c8 := lit "0.0001984126984126984"
    let c9 := lit "0.0000248015873015873"
    let c10 := lit "0.00000275573192239859"
    let exp_r := F64.add c1 (F64.mul r (F64.add c2 (F64.mul r (F64.add c3 (F64.mul r
      (F64.add c4 (F64.mul r (F64.add c5 (F64.mul r (F64.add c6 (F64.mul r (F64.add c7
        (F64.mul r (F64.add c8 (F64.mul r (F64.add c9 (F64.mul r c10)))))))))))))))))
    F64.ldexp exp_r n

/-- The function `customLN`. -/
def customLN (x : F64) : F64 :=
  if F64.le x (lit "0.0") then .nan
  else
    let m := (F64.frexp x).1
    let exp := (F64.frexp x).2
    let m := F64.mul m (lit "2.0")
    let exp := exp - 1
    let z := F64.div (F64.sub m (F64.ofInt 1)) (F64.add m (F64.ofInt 1))
    let z2 := F64.mul z z
    let c1 := lit "2.0"
    let c2 := lit "0.6666666666666735"
    let c3 := lit "0.3999999999940942"
    let c4 := lit "0.2857142874366239"
    let c5 := lit "0.2222219843214979"
    let c6 := lit "0.1818357216161805"
    let c7 := lit "0.1531383769920937"
    let c8 := lit "0.1479819860511659"
    let lnM := F64.mul z (F64.add c1 (F64.mul z2 (F64.add c2 (F64.mul z2 (F64.add c3
      (F64.mul z2 (F64.add c4 (F64.mul z2 (F64.add c5 (F64.mul z2 (F64.add c6
        (F64.mul z2 (F64.add c7 (F64.mul z2 c8))))))))))))))
    F64.add lnM (F64.mul (F64.ofInt exp) LN2)

/-- The function `customSINH`. -/
def customSINH (P : Platform) (x : F64) : F64 :=
  let ex := customEXP P x
  let e_minus_x := customEXP P (F64.neg x)
  F64.div (F64.sub ex e_minus_x) (lit "2.0")

/-- The function `customCOSH`. -/
def customCOSH (P : Platform) (x : F64) : F64 :=
  let ex := customEXP P x
  let e_minus_x := customEXP P (F64.neg x)
  F64.div (F64.add ex e_minus_x) (lit "2.0")

/-- The function `customTANH`. -/
def customTANH (P : Platform) (x : F64) : F64 :=
  let ex := customEXP P x
  let e_minus_x := customEXP P (F64.neg x)
  F64.div (F64.sub ex e_minus_x) (F64.add ex e_minus_x)

/-- The polynomial of `customASIN`, for an argument in `[0, 1]`. -/
def asinPolynomial (x : F64) : F64 :=
  let c1 := lit "1.0"
  let c2 := lit "0.16666666666666666"
  let c3 := lit "0.075"
  let c4 := lit "0.04464285714285714"
  let c5 := lit "0.03038194444444444"
  let c6 := lit "0.02237215909090909"
  let c7 := lit "0.01735276442307692"
  let x2 := F64.mul x x
  F64.mul x (F64.add c1 (F64.mul x2 (F64.add c2 (F64.mul x2 (F64.add c3 (F64.mul x2
    (F64.add c4 (F64.mul x2 (F64.add c5 (F64.mul x2 (F64.add c6 (F64.mul x2 c7))))))))))))

/-- The function `customASIN` with a bound `calls` on the nesting of its calls
of itself; `none` when the bound is reached. -/
def customASINAux : Nat → F64 → Option F64
  | 0, _ => none
  | calls + 1, x =>
    if F64.lt x (lit "-1.0") || F64.lt (lit "1.0") x then some .nan
    else if F64.lt x (F64.ofInt 0) then (customASINAux calls (F64.neg x)).map F64.neg
    else some (asinPolynomial x)

/-- The function `customASIN`.  The call of itself has the argument `-x` with
`x < 0`, which is not below 0 again, so two levels are all there are
(`customASINAux_enough`: the bound is never reached). -/
def customASIN (x : F64) : F64 := (customASINAux 2 x).getD .nan

/-- The function `customACOS`. -/
def customACOS (x : F64) : F64 := F64.sub HALF_PI (customASIN x)

/-- The polynomial of `customATAN`, for an argument in `[0, 1]`. -/
def atanPolynomial (x : F64) : F64 :=
  let c1 := lit "1.0"
  let c2 := lit "-0.3333333333333333"
  let c3 := lit "0.2"
  let c4 := lit "-0.14285714285714285"
  let c5 := lit "0.1111111111111111"
  let c6 := lit "-0.09090909090909091"
  let c7 := lit "0.07692307692307693"
  let x2 := F64.mul x x
  F64.mul x (F64.add c1 (F64.mul x2 (F64.add c2 (F64.mul x2 (F64.add c3 (F64.mul x2
    (F64.add c4 (F64.mul x2 (F64.add c5 (F64.mul x2 (F64.add c6 (F64.mul x2 c7))))))))))))

/-- The function `customATAN` with a bound `calls` on the nesting of its calls
of itself; `none` when the bound is reached. -/
def customATANAux : Nat → F64 → Option F64
  | 0, _ => none
  | calls + 1, x =>
    if F64.lt x (F64.ofInt 0) then (customATANAux calls (F64.neg x)).map F64.neg
    else if F64.lt (lit "1.0") x then
      (customATANAux calls (F64.div (lit "1.0") x)).map (F64.sub HALF_PI)
    else some (atanPolynomial x)

/-- The function `customATAN`.  A negative argument is negated once, an argument
above 1 is inverted once (to a value in `[0, 1]`), so three levels are all there
are (`customATANAux_enough`: the bound is never reached). -/
def customATAN (x : F64) : F64 := (customATANAux 3 x).getD .nan

/-- The function `customASINH`. -/
def customASINH (x : F64) : F64 :=
  customLN (F64.add x (F64.sqrt (F64.add (F64.mul x x) (F64.ofInt 1))))

/-- The function `customACOSH`. -/
def customACOSH (x : F64) : F64 :=
  if F64.lt x (lit "1.0") then .nan
  else customLN (F64.add x (F64.sqrt (F64.sub (F64.mul x x) (F64.ofInt 1))))

/-- The function `customATANH`. -/
def customATANH (x : F64) : F64 :=
  if F64.le x (lit "-1.0") || F64.le (lit "1.0") x then .nan
  else F64.mul (lit "0.5")
    (customLN (F64.div (F64.add (F64.ofInt 1) x) (F64.sub (F64.ofInt 1) x)))

/-- The function `customPOW`. -/
def customPOW (P : Platform) (a b : F64) : F64 :=
  if F64.eq a (lit "0.0") && F64.lt (F64.ofInt 0) b then lit "0.0"
  else if F64.lt a (lit "0.0") && !(F64.eq b (F64.ofInt (F64.toInt P b))) then .nan
  else customEXP P (F64.mul b (customLN a))

/-- The function `customLogBase`. -/
def customLogBase (a b : F64) : F64 :=
  if F64.le a (lit "0.0") || F64.le b (lit "0.0") || F64.eq b (lit "1.0") then .nan
  else F64.div (customLN b) (customLN a)

/-- The math library of the program on the platform `P`, as `evaluate` calls it. -/
def mathFunctions (P : Platform) : MathLib where
  customSIN := customSIN P
  customCOS := customCOS P
  customTAN := customTAN P
  customLN := customLN
  customEXP := customEXP P
  customSINH := customSINH P
  customCOSH := customCOSH P
  customTANH := customTANH P
  customASIN := customASIN
  customACOS := customACOS
  customATAN := customATAN
  customASINH := customASINH
  customACOSH := customACOSH
  customATANH := customATANH
  customPOW := customPOW P
  customLogBase := customLogBase

/-! ## Notions for the statements about trees, tokens and values -/

/-- The test of `evaluate` for a negative zero: `result == 0.0 && signbit(result)`. -/
def negativeZero (x : F64) : Bool := F64.eq x F64.zero && F64.signbit x

/-- A finite double at most `tol` away from the rational `v`. -/
def closeTo (x : F64) (v tol : ℚ) : Prop := F64.isFinite x = true ∧ |F64.toRat x - v| ≤ tol

/-- The fourteen one-argument function identifiers. -/
def oneArgument (f : Token) : Prop := functionNames.contains f = true ∧ ¬twoArgument f

/-- A tree that `evaluate` reads without a missing child: a leaf whose text is no
function identifier, a one-argument function with a left child only, or a
two-argument function or an operator with both children. -/
def wellFormed : ASTNode → Prop
  | .null => False
  | .node value left right =>
    (left = .null ∧ right = .null ∧ functionNames.contains value = false) ∨
    (oneArgument value ∧ wellFormed left ∧ right = .null) ∨
    ((twoArgument value ∨ isOperatorToken value) ∧ wellFormed left ∧ wellFormed right)

instance (t : Token) : Decidable (isOperatorToken t) :=
  inferInstanceAs (Decidable (t = "+".toList ∨ t = "-".toList ∨ t = "*".toList ∨
    t = "/".toList ∨ t = "^".toList))

instance (f : Token) : Decidable (oneArgument f) :=
  inferInstanceAs (Decidable (functionNames.contains f = true ∧ ¬twoArgument f))

/-- Well-formedness is decidable. -/
def wellFormedDecidable : (t : ASTNode) → Decidable (wellFormed t)
  | .null => isFalse (fun h => h)
  | .node value left right =>
    have := wellFormedDecidable left
    have := wellFormedDecidable right
    inferInstanceAs (Decidable (
      (left = .null ∧ right = .null ∧ functionNames.contains value = false) ∨
      (oneArgument value ∧ wellFormed left ∧ right = .null) ∨
      ((twoArgument value ∨ isOperatorToken value) ∧ wellFormed left ∧ wellFormed right)))

instance (t : ASTNode) : Decidable (wellFormed t) := wellFormedDecidable t

/-- Number of nodes on the longest path from the root to a leaf. -/
def depth : ASTNode → Nat
  | .null => 0
  | .node _ left right => 1 + max (depth left) (depth right)

/-- A token with at least one digit. -/
def hasDigit (t : Token) : Bool := t.any isdigit
/-! ## Tokenizer: failures and the fusion of the minus sign -/

theorem isdigit_ne_dot {c : Char} (h : isdigit c = true) : c ≠ '.' := by
  rintro rfl; revert h; decide

theorem scanNumber_dot (cs : List Char) (k : Nat) :
    scanNumber ('.' :: cs) k =
      if k + 1 > 1 then .fail .multipleDots
      else match scanNumber cs (k + 1) with
        | .ok (num, rest) => .ok ('.' :: num, rest)
        | .fail e => .fail e
        | .outOfFuel => .outOfFuel := by
  rw [scanNumber]
  simp

theorem scanNumber_digit {c : Char} (h : isdigit c = true) (cs : List Char) (k : Nat) :
    scanNumber (c :: cs) k =
      match scanNumber cs k with
        | .ok (num, rest) => .ok (c :: num, rest)
        | .fail e => .fail e
        | .outOfFuel => .outOfFuel := by
  rw [scanNumber]
  have h2 : (c == '.') = false := by simpa using isdigit_ne_dot h
  simp only [h, Bool.true_or, if_true, h2, Bool.false_eq_true, if_false]

theorem scanNumber_other {c : Char} (h : isdigit c = false) (h2 : c ≠ '.') (cs : List Char)
    (k : Nat) : scanNumber (c :: cs) k = .ok ([], c :: cs) := by
  rw [scanNumber]
  have h2 : (c == '.') = false := by simpa using h2
  simp [h, h2]

theorem scanNumber_ne_outOfFuel (cs : List Char) (k : Nat) : scanNumber cs k ≠ .outOfFuel := by
  induction cs generalizing k with
  | nil => simp [scanNumber]
  | cons c cs ih =>
    by_cases hd : c = '.'
    · subst hd
      rw [scanNumber_dot]
      split
      · simp
      · have := ih (k + 1)
        cases hs : scanNumber cs (k + 1) <;> simp_all
    · by_cases hdig : isdigit c = true
      · rw [scanNumber_digit hdig]
        have := ih k
        cases hs : scanNumber cs k <;> simp_all
      · rw [scanNumber_other (by simpa using hdig) hd]
        simp

theorem scanNumber_fail (cs : List Char) (k : Nat) (e : LexError)
    (h : scanNumber cs k = .fail e) : e = .multipleDots ∧ (k ≤ 1 → twoDotsFrom (decide (k = 1)) cs = true) := by
  induction cs generalizing k with
  | nil => simp [scanNumber] at h
  | cons c cs ih =>
    by_cases hd : c = '.'
    · subst hd
      rw [scanNumber_dot] at h
      split at h
      · refine ⟨by simpa using h.symm, fun hk => ?_⟩
        have : k = 1 := by omega
        subst this
        simp [twoDotsFrom]
      · cases hs : scanNumber cs (k + 1) with
        | ok p => rw [hs] at h; simp at h
        | outOfFuel => rw [hs] at h; simp at h
        | fail e' =>
          rw [hs] at h
          simp only [Run.fail.injEq] at h
          subst h
          have := ih (k + 1) hs
          refine ⟨this.1, fun hk => ?_⟩
          have hk0 : k = 0 := by omega
          subst hk0
          have := this.2 (by omega)
          simpa [twoDotsFrom] using this
    · by_cases hdig : isdigit c = true
      · rw [scanNumber_digit hdig] at h
        cases hs : scanNumber cs k with
        | ok p => rw [hs] at h; simp at h
        | outOfFuel => rw [hs] at h; simp at h
        | fail e' =>
          rw [hs] at h
          simp only [Run.fail.injEq] at h
          subst h
          have := ih k hs
          refine ⟨this.1, fun hk => ?_⟩
          have := this.2 hk
          simpa [twoDotsFrom, hd, hdig] using this
      · rw [scanNumber_other (by simpa using hdig) hd] at h
        simp at h

theorem scanNumber_ok (cs : List Char) (k : Nat) (num rest : List Char)
    (h : scanNumber cs k = .ok (num, rest)) :
    cs = num ++ rest ∧ (∀ d ∈ num, isdigit d = true ∨ d = '.') ∧
      (k ≤ 1 → twoDotsFrom (decide (k = 1)) cs = twoDotsFrom false rest) ∧
      (∀ c cs', cs = c :: cs' → (isdigit c || c == '.') = true → num ≠ []) := by
  induction cs generalizing k num with
  | nil =>
    simp [scanNumber] at h
    obtain ⟨rfl, rfl⟩ := h
    simp [twoDotsFrom]
  | cons c cs ih =>
    by_cases hd : c = '.'
    · subst hd
      rw [scanNumber_dot] at h
      split at h
      · simp at h
      · cases hs : scanNumber cs (k + 1) with
        | fail e' => rw [hs] at h; simp at h
        | outOfFuel => rw [hs] at h; simp at h
        | ok p =>
          obtain ⟨num', rest'⟩ := p
          rw [hs] at h
          simp only [Run.ok.injEq, Prod.mk.injEq] at h
          obtain ⟨rfl, rfl⟩ := h
          obtain ⟨h1, h2, h3, -⟩ := ih (k + 1) num' hs
          refine ⟨by rw [h1]; rfl, ?_, ?_, by simp⟩
          · intro d hd
            rcases List.mem_cons.1 hd with rfl | hd
            · exact Or.inr rfl
            · exact h2 d hd
          · intro hk
            have hk0 : k = 0 := by omega
            subst hk0
            have := h3 (by omega)
            simpa [twoDotsFrom] using this
    · by_cases hdig : isdigit c = true
      · rw [scanNumber_digit hdig] at h
        cases hs : scanNumber cs k with
        | fail e' => rw [hs] at h; simp at h
        | outOfFuel => rw [hs] at h; simp at h
        | ok p =>
          obtain ⟨num', rest'⟩ := p
          rw [hs] at h
          simp only [Run.ok.injEq, Prod.mk.injEq] at h
          obtain ⟨rfl, rfl⟩ := h
          obtain ⟨h1, h2, h3, -⟩ := ih k num' hs
          refine ⟨by rw [h1]; rfl, ?_, ?_, by simp⟩
          · intro d hd
            rcases List.mem_cons.1 hd with rfl | hd
            · exact Or.inl hdig
            · exact h2 d hd
          · intro hk
            have := h3 hk
            simpa [twoDotsFrom, hd, hdig] using this
      · rw [scanNumber_other (by simpa using hdig) hd] at h
        simp only [Run.ok.injEq, Prod.mk.injEq] at h
        obtain ⟨rfl, rfl⟩ := h
        refine ⟨rfl, by simp, ?_, ?_⟩
        · intro _
          simp [twoDotsFrom, hd, hdig]
        · intro c' cs' hc
          simp only [List.cons.injEq] at hc
          obtain ⟨rfl, rfl⟩ := hc
          simp [hdig, hd]
theorem badInput_cons {c : Char} (cs : List Char) (ha : allowedChar c = true) (hd : c ≠ '.')
    (hdig : isdigit c = false) : badInput (c :: cs) ↔ badInput cs := by
  simp [badInput, twoDotsFrom, ha, hd, hdig]

theorem twoDotsFrom_append_of_no_dot (l r : List Char) (h : ∀ d ∈ l, d ≠ '.') :
    twoDotsFrom false (l ++ r) = twoDotsFrom false r := by
  induction l with
  | nil => rfl
  | cons c l ih =>
    have hc : c ≠ '.' := h c (List.mem_cons_self _ _)
    have := ih (fun d hd => h d (List.mem_cons_of_mem _ hd))
    simp [twoDotsFrom, hc, this]

theorem badInput_append (l r : List Char) (ha : ∀ d ∈ l, allowedChar d = true)
    (ht : twoDotsFrom false (l ++ r) = twoDotsFrom false r) :
    badInput (l ++ r) ↔ badInput r := by
  unfold badInput
  rw [ht]
  constructor
  · rintro (⟨c, hc, hbad⟩ | h)
    · rcases List.mem_append.1 hc with hc | hc
      · rw [ha c hc] at hbad; simp at hbad
      · exact Or.inl ⟨c, hc, hbad⟩
    · exact Or.inr h
  · rintro (⟨c, hc, hbad⟩ | h)
    · exact Or.inl ⟨c, List.mem_append_right _ hc, hbad⟩
    · exact Or.inr h

theorem isspace_props {c : Char} (h : isspace c = true) :
    allowedChar c = true ∧ c ≠ '.' ∧ isdigit c = false := by
  simp only [isspace, Bool.or_eq_true, beq_iff_eq] at h
  rcases h with ((((rfl | rfl) | rfl) | rfl) | rfl) | rfl <;> decide

theorem operator_props {c : Char} (h : "+-*/^(),".toList.contains c = true) :
    allowedChar c = true ∧ c ≠ '.' ∧ isdigit c = false := by
  simp only [String.toList, List.contains_eq_any_beq, List.any_cons, List.any_nil, Bool.or_false, Bool.or_eq_true, beq_iff_eq] at h
  rcases h with h | h | h | h | h | h | h | h <;> subst h <;> decide

theorem identChar_props {c : Char} (h : identChar c = true) :
    allowedChar c = true ∧ c ≠ '.' := by
  refine ⟨?_, ?_⟩
  · simp only [identChar, Bool.or_eq_true, beq_iff_eq] at h
    simp only [allowedChar, Bool.or_eq_true, beq_iff_eq]
    tauto
  · rintro rfl
    revert h; decide

theorem isalpha_not_isdigit {c : Char} (h : isalpha c = true) : isdigit c = false := by
  simp only [isalpha, isdigit, Bool.or_eq_true, Bool.and_eq_true, decide_eq_true_eq] at h
  simp only [isdigit, Bool.and_eq_false_iff, decide_eq_false_iff_not]
  have h0 : '0'.toNat = 48 := rfl
  have h9 : '9'.toNat = 57 := rfl
  have ha : 'a'.toNat = 97 := rfl
  have hz : 'z'.toNat = 122 := rfl
  have hA : 'A'.toNat = 65 := rfl
  have hZ : 'Z'.toNat = 90 := rfl
  omega

theorem emit_fail_iff (r : Run LexError (List Lexeme)) (x : Lexeme) (P : Prop)
    (h : r ≠ .outOfFuel ∧ ((∃ e, r = .fail e) ↔ P)) :
    (match r with
      | .ok lexemes => Run.ok (x :: lexemes)
      | .fail e => .fail e
      | .outOfFuel => .outOfFuel) ≠ .outOfFuel ∧
    ((∃ e, (match r with
      | .ok lexemes => Run.ok (x :: lexemes)
      | .fail e => .fail e
      | .outOfFuel => .outOfFuel) = Run.fail e) ↔ P) := by
  cases r <;> simp_all

theorem minus_props : allowedChar '-' = true ∧ '-' ≠ '.' ∧ isdigit '-' = false := by decide

theorem tokeniseLoop_fail_iff (expression : List Char) (fuel : Nat) :
    ∀ (i : Nat) (rest : List Char), rest.length ≤ fuel → (∀ c ∈ rest, c ≠ '\x00') →
      tokeniseLoop expression fuel i rest ≠ .outOfFuel ∧
      ((∃ e, tokeniseLoop expression fuel i rest = .fail e) ↔ badInput rest) := by
  induction fuel with
  | zero =>
    intro i rest hlen _
    have : rest = [] := List.length_eq_zero.1 (Nat.le_zero.1 hlen)
    subst this
    simp [tokeniseLoop, badInput, twoDotsFrom]
  | succ fuel ih =>
    intro i rest hlen hnul
    cases rest with
    | nil => simp [tokeniseLoop, badInput, twoDotsFrom]
    | cons c cs =>
      have hlen' : cs.length ≤ fuel := by simpa using hlen
      have hnul' : ∀ d ∈ cs, d ≠ '\x00' := fun d hd => hnul d (List.mem_cons_of_mem _ hd)
      have hc0 : (c == '\x00') = false := by simpa using hnul c (List.mem_cons_self _ _)
      rw [tokeniseLoop]
      simp only [hc0, Bool.false_eq_true, if_false]
      by_cases hsp : isspace c = true
      · obtain ⟨h1, h2, h3⟩ := isspace_props hsp
        simp only [hsp, if_true]
        rw [badInput_cons cs h1 h2 h3]
        exact ih (i + 1) cs hlen' hnul'
      simp only [hsp, Bool.false_eq_true, if_false]
      by_cases hnum : startsNumber expression i c = true
      · simp only [hnum, if_true]
        -- the characters the inner loop runs on
        have key : ∀ (run : List Char) (pre : List Char), c :: cs = pre ++ run →
            (∀ d ∈ pre, allowedChar d = true) →
            twoDotsFrom false (pre ++ run) = twoDotsFrom false run →
            (run = c :: cs → (isdigit c || c == '.') = true) →
            ∀ (f : List Char → List Char),
            (match scanNumber run 0 with
              | .ok (digits, rest) =>
                match tokeniseLoop expression fuel (i + (f digits).length) rest with
                | .ok lexemes => Run.ok (Lexeme.mk .number i (f digits) :: lexemes)
                | .fail e => .fail e
                | .outOfFuel => .outOfFuel
              | .fail e => .fail e
              | .outOfFuel => .outOfFuel) ≠ .outOfFuel ∧
            ((∃ e, (match scanNumber run 0 with
              | .ok (digits, rest) =>
                match tokeniseLoop expression fuel (i + (f digits).length) rest with
                | .ok lexemes => Run.ok (Lexeme.mk .number i (f digits) :: lexemes)
                | .fail e => .fail e
                | .outOfFuel => .outOfFuel
              | .fail e => .fail e
              | .outOfFuel => .outOfFuel) = Run.fail e) ↔ badInput (c :: cs)) := by
          intro run pre hrun hpre htd hfirst f
          cases hs : scanNumber run 0 with
          | outOfFuel => exact absurd hs (scanNumber_ne_outOfFuel _ _)
          | fail e =>
            have h2 := (scanNumber_fail run 0 e hs).2 (by omega)
            simp only [ne_eq, reduceCtorEq, not_false_eq_true, Run.fail.injEq, exists_eq', true_iff,
              true_and]
            rw [hrun]
            right
            rw [htd]
            simpa using h2
          | ok p =>
            obtain ⟨digits, rest⟩ := p
            obtain ⟨h1, h2, h3, h4⟩ := scanNumber_ok run 0 digits rest hs
            have h3' := h3 (by omega)
            simp only [zero_ne_one, decide_False] at h3'
            have hrest : rest.length ≤ fuel := by
              have hl : (c :: cs).length = pre.length + digits.length + rest.length := by
                rw [hrun, h1]; simp [Nat.add_assoc]
              simp only [List.length_cons] at hl
              by_cases hp : pre = []
              · subst hp
                have := h4 c cs (by simpa using hrun.symm) (hfirst (by simpa using hrun.symm))
                have : 0 < digits.length := List.length_pos.2 this
                omega
              · have : 0 < pre.length := List.length_pos.2 hp
                omega
            have hnulr : ∀ d ∈ rest, d ≠ '\x00' := by
              intro d hd
              apply hnul d
              rw [hrun, h1]
              simp [hd]
            have hbad : badInput (c :: cs) ↔ badInput rest := by
              rw [hrun, badInput_append pre run hpre htd, h1]
              apply badInput_append
              · intro d hd
                rcases h2 d hd with h | h
                · simp [allowedChar, h]
                · simp [allowedChar, h]
              · rw [← h1]; exact h3'
            rw [hbad]
            exact emit_fail_iff _ _ _ (ih _ rest hrest hnulr)
        by_cases hm : c = '-'
        · subst hm
          have := key cs ['-'] rfl (by simp; decide) (by simp [twoDotsFrom]) (by
            intro h
            have := congrArg List.length h
            simp at this) (fun digits => '-' :: digits)
          simpa using this
        · have hm' : (c == '-') = false := by simpa using hm
          have hdd : (isdigit c || c == '.') = true := by
            simp only [startsNumber, hm', Bool.false_and, Bool.or_false] at hnum
            exact hnum
          have := key (c :: cs) [] rfl (by simp) rfl (fun _ => hdd) (fun digits => digits)
          simpa [hm'] using this
      simp only [hnum, Bool.false_eq_true, if_false]
      have hnd : isdigit c = false ∧ c ≠ '.' := by
        simp only [startsNumber, Bool.or_eq_true, not_or, Bool.not_eq_true] at hnum
        exact ⟨hnum.1.1, by simpa using hnum.1.2⟩
      by_cases hid : (isalpha c || c == '_') = true
      · simp only [hid, if_true]
        have hic : identChar c = true := by
          simp only [identChar, Bool.or_eq_true, beq_iff_eq] at hid ⊢
          tauto
        have hsplit : c :: cs = (c :: cs).takeWhile identChar ++ (c :: cs).dropWhile identChar :=
          (List.takeWhile_append_dropWhile _ _).symm
        have hmem : ∀ d ∈ (c :: cs).takeWhile identChar, identChar d = true :=
          fun d hd => List.mem_takeWhile_imp hd
        have hbad : badInput (c :: cs) ↔ badInput ((c :: cs).dropWhile identChar) := by
          conv_lhs => rw [hsplit]
          apply badInput_append
          · exact fun d hd => (identChar_props (hmem d hd)).1
          · exact twoDotsFrom_append_of_no_dot _ _ (fun d hd => (identChar_props (hmem d hd)).2)
        rw [hbad]
        apply emit_fail_iff
        apply ih
        · rw [List.dropWhile_cons_of_pos hic]
          exact le_trans (List.Sublist.length_le (List.dropWhile_sublist _)) hlen'
        · intro d hd
          exact hnul d ((List.dropWhile_sublist _).subset hd)
      simp only [hid, Bool.false_eq_true, if_false]
      have hs0 : strchr "+-*/^(),".toList c = "+-*/^(),".toList.contains c := by
        simp [strchr, hc0]
      by_cases hop : strchr "+-*/^(),".toList c = true
      · simp only [hop, if_true]
        obtain ⟨h1, h2, h3⟩ := operator_props (hs0 ▸ hop)
        rw [badInput_cons cs h1 h2 h3]
        exact emit_fail_iff _ _ _ (ih (i + 1) cs hlen' hnul')
      · simp only [hop, Bool.false_eq_true, if_false]
        refine ⟨by simp, ?_⟩
        simp only [Run.fail.injEq, exists_eq', true_iff]
        left
        refine ⟨c, List.mem_cons_self _ _, ?_⟩
        rw [hs0] at hop
        simp only [Bool.or_eq_true, not_or, Bool.not_eq_true, beq_eq_false_iff_ne, ne_eq] at hid
        simp only [allowedChar, Bool.or_eq_false_iff, beq_eq_false_iff_ne, ne_eq]
        simp only [Bool.not_eq_true] at hop hsp
        exact ⟨⟨⟨⟨⟨hsp, hnd.1⟩, hnd.2⟩, hid.1⟩, hid.2⟩, hop⟩

theorem dotAfterDigits_cons (c : Char) (cs : List Char) :
    dotAfterDigits (c :: cs) ↔ c = '.' ∨ (isdigit c = true ∧ dotAfterDigits cs) := by
  constructor
  · rintro ⟨mid, post, h, hm⟩
    cases mid with
    | nil =>
      simp only [List.nil_append, List.cons.injEq] at h
      exact Or.inl h.1
    | cons m mid =>
      simp only [List.cons_append, List.cons.injEq] at h
      obtain ⟨rfl, rfl⟩ := h
      exact Or.inr ⟨hm _ (List.mem_cons_self _ _), mid, post, rfl,
        fun d hd => hm d (List.mem_cons_of_mem _ hd)⟩
  · rintro (rfl | ⟨hd, mid, post, rfl, hm⟩)
    · exact ⟨[], cs, rfl, by simp⟩
    · refine ⟨c :: mid, post, rfl, ?_⟩
      intro d hd'
      rcases List.mem_cons.1 hd' with rfl | h
      · exact hd
      · exact hm d h

theorem twoDotLiteral_iff (s : List Char) :
    twoDotLiteral s ↔ ∃ pre rest, s = pre ++ '.' :: rest ∧ dotAfterDigits rest := by
  constructor
  · rintro ⟨pre, mid, post, h, hm⟩
    exact ⟨pre, mid ++ '.' :: post, h, mid, post, rfl, hm⟩
  · rintro ⟨pre, rest, h, mid, post, rfl, hm⟩
    exact ⟨pre, mid, post, h, hm⟩

theorem twoDotLiteral_cons (c : Char) (cs : List Char) :
    twoDotLiteral (c :: cs) ↔ (c = '.' ∧ dotAfterDigits cs) ∨ twoDotLiteral cs := by
  rw [twoDotLiteral_iff, twoDotLiteral_iff]
  constructor
  · rintro ⟨pre, rest, h, hr⟩
    cases pre with
    | nil =>
      simp only [List.nil_append, List.cons.injEq] at h
      obtain ⟨rfl, rfl⟩ := h
      exact Or.inl ⟨rfl, hr⟩
    | cons p pre =>
      simp only [List.cons_append, List.cons.injEq] at h
      obtain ⟨rfl, rfl⟩ := h
      exact Or.inr ⟨pre, rest, rfl, hr⟩
  · rintro (⟨rfl, hr⟩ | ⟨pre, rest, rfl, hr⟩)
    · exact ⟨[], cs, rfl, hr⟩
    · exact ⟨c :: pre, rest, rfl, hr⟩

theorem twoDotsFrom_iff (s : List Char) (seen : Bool) :
    twoDotsFrom seen s = true ↔ (seen = true ∧ dotAfterDigits s) ∨ twoDotLiteral s := by
  induction s generalizing seen with
  | nil =>
    simp only [twoDotsFrom, Bool.false_eq_true, false_iff, not_or, not_and]
    refine ⟨fun _ => ?_, ?_⟩
    · rintro ⟨mid, post, h, -⟩
      simp at h
    · rw [twoDotLiteral_iff]
      rintro ⟨pre, rest, h, -⟩
      simp at h
  | cons c cs ih =>
    rw [dotAfterDigits_cons, twoDotLiteral_cons]
    by_cases hd : c = '.'
    · subst hd
      simp only [twoDotsFrom, beq_self_eq_true, if_true, Bool.or_eq_true, ih true, true_and,
        true_or, and_true]
    · by_cases hdig : isdigit c = true
      · simp only [twoDotsFrom, beq_iff_eq, hd, if_false, hdig, if_true, ih seen, false_or,
          true_and, false_and]
      · simp only [twoDotsFrom, beq_iff_eq, hd, if_false, hdig, Bool.false_eq_true, ih false,
          false_and, false_or, or_false, and_false]

theorem badInput_iff (s : List Char) :
    badInput s ↔ ((∃ c ∈ s, allowedChar c = false) ∨ twoDotLiteral s) := by
  unfold badInput
  rw [twoDotsFrom_iff]
  simp

theorem emit_ok (r : Run LexError (List Lexeme)) (x : Lexeme) (lexemes : List Lexeme)
    (h : (match r with
      | .ok ls => Run.ok (x :: ls)
      | .fail e => .fail e
      | .outOfFuel => .outOfFuel) = Run.ok lexemes) :
    ∃ ls, r = .ok ls ∧ lexemes = x :: ls := by
  cases r with
  | ok ls => exact ⟨ls, rfl, by simpa using h.symm⟩
  | fail e => simp at h
  | outOfFuel => simp at h

theorem getElem?_of_drop_eq {expression : List Char} {i : Nat} {pre rest : List Char}
    (h : expression.drop i = pre ++ rest) :
    expression.drop (i + pre.length) = rest ∧
    ∀ k, i ≤ k → k < i + pre.length → expression[k]? = pre[k - i]? := by
  constructor
  · rw [← List.drop_drop, h]
    simp
  · intro k hk hk2
    have : expression[k]? = (expression.drop i)[k - i]? := by
      rw [List.getElem?_drop]
      congr 1
      omega
    rw [this, h, List.getElem?_append_left (by omega)]

theorem tokeniseLoop_minus (expression : List Char) (fuel : Nat) :
    ∀ (i : Nat) (rest : List Char) (lexemes : List Lexeme),
      expression.drop i = rest → (∀ c ∈ expression, c ≠ '\x00') →
      tokeniseLoop expression fuel i rest = .ok lexemes →
      (∀ k, i ≤ k → expression[k]? = some '-' →
        (startsNumber expression k '-' = true →
          ∃ digits, Lexeme.mk .number k ('-' :: digits) ∈ lexemes) ∧
        (startsNumber expression k '-' = false → Lexeme.mk .operator k ['-'] ∈ lexemes)) ∧
      (∀ l ∈ lexemes, l.rule = .number → l.text.head? = some '-' →
        startsNumber expression l.start '-' = true) := by
  induction fuel with
  | zero =>
    intro i rest lexemes hdrop hnul h
    cases rest with
    | nil =>
      simp only [tokeniseLoop, Run.ok.injEq] at h
      subst h
      refine ⟨fun k hk hk2 => ?_, by simp⟩
      have : expression.length ≤ i := List.drop_eq_nil_iff.1 hdrop
      have : k < expression.length := by
        by_contra hc
        rw [List.getElem?_eq_none (by omega)] at hk2
        simp at hk2
      omega
    | cons c cs => simp [tokeniseLoop] at h
  | succ fuel ih =>
    intro i rest lexemes hdrop hnul h
    cases rest with
    | nil =>
      simp only [tokeniseLoop, Run.ok.injEq] at h
      subst h
      refine ⟨fun k hk hk2 => ?_, by simp⟩
      have : expression.length ≤ i := List.drop_eq_nil_iff.1 hdrop
      have : k < expression.length := by
        by_contra hc
        rw [List.getElem?_eq_none (by omega)] at hk2
        simp at hk2
      omega
    | cons c cs =>
      have hci : expression[i]? = some c := by
        have := congrArg (fun l => l[0]?) hdrop
        simpa [List.getElem?_drop] using this
      have hc0 : (c == '\x00') = false := by
        have : c ∈ expression := List.getElem?_mem hci
        simpa using hnul c this
      rw [tokeniseLoop] at h
      simp only [hc0, Bool.false_eq_true, if_false] at h
      -- one turn of the loop that emits the lexeme `pre`
      have step : ∀ (rule : Rule) (pre rest' : List Char) (ls : List Lexeme),
          expression.drop i = pre ++ rest' →
          tokeniseLoop expression fuel (i + pre.length) rest' = .ok ls →
          lexemes = Lexeme.mk rule i pre :: ls →
          (∀ j, 0 < j → pre[j]? ≠ some '-') →
          (pre[0]? = some '-' →
            (startsNumber expression i '-' = true → rule = .number ∧ ∃ digits, pre = '-' :: digits) ∧
            (startsNumber expression i '-' = false → rule = .operator ∧ pre = ['-'])) →
          (rule = .number → pre.head? = some '-' → startsNumber expression i '-' = true) →
          (∀ k, i ≤ k → expression[k]? = some '-' →
            (startsNumber expression k '-' = true →
              ∃ digits, Lexeme.mk .number k ('-' :: digits) ∈ lexemes) ∧
            (startsNumber expression k '-' = false → Lexeme.mk .operator k ['-'] ∈ lexemes)) ∧
          (∀ l ∈ lexemes, l.rule = .number → l.text.head? = some '-' →
            startsNumber expression l.start '-' = true) := by
        intro rule pre rest' ls hpre hrec hlex H1 H2 H3
        obtain ⟨hd', hget⟩ := getElem?_of_drop_eq hpre
        obtain ⟨ih1, ih2⟩ := ih (i + pre.length) rest' ls hd' hnul hrec
        subst hlex
        refine ⟨fun k hk hk2 => ?_, ?_⟩
        · by_cases hlt : k < i + pre.length
          · have hkk := hget k hk hlt
            rw [hk2] at hkk
            by_cases hki : k = i
            · subst hki
              simp only [Nat.sub_self] at hkk
              obtain ⟨h2a, h2b⟩ := H2 hkk.symm
              constructor
              · intro hs
                obtain ⟨hr, digits, hp⟩ := h2a hs
                exact ⟨digits, by rw [hr, hp]; exact List.mem_cons_self _ _⟩
              · intro hs
                obtain ⟨hr, hp⟩ := h2b hs
                rw [hr, hp]; exact List.mem_cons_self _ _
            · exact absurd hkk.symm (H1 (k - i) (by omega))
          · obtain ⟨h1a, h1b⟩ := ih1 k (by omega) hk2
            constructor
            · intro hs
              obtain ⟨digits, hm⟩ := h1a hs
              exact ⟨digits, List.mem_cons_of_mem _ hm⟩
            · intro hs
              exact List.mem_cons_of_mem _ (h1b hs)
        · intro l hl
          rcases List.mem_cons.1 hl with rfl | hl
          · exact H3
          · exact ih2 l hl
      by_cases hsp : isspace c = true
      · simp only [hsp, if_true] at h
        have hpre : expression.drop i = [c] ++ cs := by simpa using hdrop
        obtain ⟨hd', hget⟩ := getElem?_of_drop_eq hpre
        obtain ⟨ih1, ih2⟩ := ih (i + 1) cs lexemes hd' hnul h
        refine ⟨fun k hk hk2 => ?_, ih2⟩
        by_cases hki : k = i
        · subst hki
          rw [hci] at hk2
          simp only [Option.some.injEq] at hk2
          subst hk2
          exact absurd hsp (by decide)
        · exact ih1 k (by omega) hk2
      simp only [hsp, Bool.false_eq_true, if_false] at h
      by_cases hnum : startsNumber expression i c = true
      · simp only [hnum, if_true] at h
        by_cases hm : c = '-'
        · subst hm
          simp only [beq_self_eq_true, if_true] at h
          cases hs : scanNumber cs 0 with
          | outOfFuel => rw [hs] at h; simp at h
          | fail e => rw [hs] at h; simp at h
          | ok p =>
            obtain ⟨digits, rest'⟩ := p
            rw [hs] at h
            obtain ⟨h1, h2, -, -⟩ := scanNumber_ok cs 0 digits rest' hs
            obtain ⟨ls, hrec, hlex⟩ := emit_ok _ _ _ h
            refine step .number ('-' :: digits) rest' ls (by rw [hdrop, h1]; rfl) hrec hlex ?_ ?_ ?_
            · intro j hj hc
              obtain ⟨j', rfl⟩ : ∃ j', j = j' + 1 := ⟨j - 1, by omega⟩
              simp only [List.getElem?_cons_succ] at hc
              rcases h2 _ (List.getElem?_mem hc) with hh | hh
              · revert hh; decide
              · revert hh; decide
            · intro _
              exact ⟨fun _ => ⟨rfl, digits, rfl⟩, fun hf => by rw [hnum] at hf; simp at hf⟩
            · intro _ _
              exact hnum
        · have hm' : (c == '-') = false := by simpa using hm
          simp only [hm', Bool.false_eq_true, if_false] at h
          cases hs : scanNumber (c :: cs) 0 with
          | outOfFuel => rw [hs] at h; simp at h
          | fail e => rw [hs] at h; simp at h
          | ok p =>
            obtain ⟨digits, rest'⟩ := p
            rw [hs] at h
            obtain ⟨h1, h2, -, -⟩ := scanNumber_ok (c :: cs) 0 digits rest' hs
            obtain ⟨ls, hrec, hlex⟩ := emit_ok _ _ _ h
            have hno : ∀ j : Nat, digits[j]? ≠ some '-' := by
              intro j hc
              rcases h2 _ (List.getElem?_mem hc) with hh | hh
              · revert hh; decide
              · revert hh; decide
            refine step .number digits rest' ls (by rw [hdrop, h1]) hrec hlex
              (fun j _ => hno j) (fun hc => absurd hc (hno 0)) ?_
            intro _ hc
            rw [List.head?_eq_getElem?] at hc
            exact absurd hc (hno 0)
      simp only [hnum, Bool.false_eq_true, if_false] at h
      by_cases hid : (isalpha c || c == '_') = true
      · simp only [hid, if_true] at h
        obtain ⟨ls, hrec, hlex⟩ := emit_ok _ _ _ h
        have hno : ∀ j : Nat, ((c :: cs).takeWhile identChar)[j]? ≠ some '-' := by
          intro j hc
          have := List.mem_takeWhile_imp (List.getElem?_mem hc)
          revert this; decide
        refine step .identifier ((c :: cs).takeWhile identChar) ((c :: cs).dropWhile identChar) ls
          (by rw [hdrop]; exact (List.takeWhile_append_dropWhile _ _).symm) hrec hlex
          (fun j _ => hno j) (fun hc => absurd hc (hno 0)) (by simp)
      simp only [hid, Bool.false_eq_true, if_false] at h
      by_cases hop : strchr "+-*/^(),".toList c = true
      · simp only [hop, if_true] at h
        obtain ⟨ls, hrec, hlex⟩ := emit_ok _ _ _ h
        refine step .operator [c] cs ls (by simpa using hdrop) hrec hlex ?_ ?_ (by simp)
        · intro j hj
          obtain ⟨j', rfl⟩ : ∃ j', j = j' + 1 := ⟨j - 1, by omega⟩
          simp
        · intro hc
          simp only [List.getElem?_cons_zero, Option.some.injEq] at hc
          subst hc
          exact ⟨fun hf => by rw [hf] at hnum; simp at hnum, fun _ => ⟨rfl, rfl⟩⟩
      · simp only [hop, Bool.false_eq_true, if_false] at h
        simp at h

theorem startsNumber_minus_iff (expression : List Char) (i : Nat)
    (hnul : ∀ c ∈ expression, c ≠ '\x00') (hi : expression[i]? = some '-') :
    startsNumber expression i '-' = true ↔ fusingPosition expression i := by
  have hlt : i < expression.length := by
    by_contra hc
    rw [List.getElem?_eq_none (by omega)] at hi
    simp at hi
  unfold fusingPosition
  by_cases h0 : i = 0
  · subst h0
    simp [startsNumber]
  · have hlt' : i - 1 < expression.length := by omega
    have hget : expression[i - 1]? = some (expression[i - 1]) := List.getElem?_eq_getElem hlt'
    have hch : charAt expression (i - 1) = expression[i - 1] := by
      simp [charAt, List.getD, hget]
    have hne : expression[i - 1] ≠ '\x00' := hnul _ (List.getElem_mem _)
    have hd : isdigit '-' = false := by decide
    simp only [startsNumber, hd, hch, strchr, hget, h0, false_or, Option.some.injEq,
      exists_eq_right', Bool.false_or, beq_self_eq_true, Bool.true_and, Bool.or_eq_true,
      beq_iff_eq, hne, decide_False, Bool.false_eq_true, List.contains_eq_any_beq]
    simp [String.toList]


/-! ## The tokens cover the expression -/

theorem isdigit_not_isspace {c : Char} (h : isdigit c = true) : isspace c = false := by
  cases hs : isspace c with
  | false => rfl
  | true => rw [(isspace_props hs).2.2] at h; exact absurd h (by decide)

theorem identChar_not_isspace {c : Char} (h : identChar c = true) : isspace c = false := by
  cases hs : isspace c with
  | false => rfl
  | true =>
    exfalso
    simp only [isspace, Bool.or_eq_true, beq_iff_eq] at hs
    rcases hs with ((((rfl | rfl) | rfl) | rfl) | rfl) | rfl <;> exact absurd h (by decide)

theorem filter_not_isspace_eq (l : List Char) (h : ∀ d ∈ l, isspace d = false) :
    l.filter (fun c => !isspace c) = l := by
  rw [List.filter_eq_self]
  intro d hd
  simp [h d hd]

theorem startsNumber_first {expression : List Char} {i : Nat} {c : Char}
    (h : startsNumber expression i c = true) (hc : (c == '-') = false) :
    (isdigit c || c == '.') = true := by
  simp only [startsNumber, hc, Bool.false_and, Bool.or_false] at h
  exact h

theorem tokeniseLoop_texts (expression : List Char) (fuel : Nat) :
    ∀ (i : Nat) (rest : List Char) (lexemes : List Lexeme),
      (∀ c ∈ rest, c ≠ '\x00') →
      tokeniseLoop expression fuel i rest = .ok lexemes →
      (∀ l ∈ lexemes, l.text ≠ []) ∧
      (lexemes.map Lexeme.text).flatten = rest.filter (fun c => !isspace c) := by
  induction fuel with
  | zero =>
    intro i rest lexemes hnul h
    cases rest with
    | nil =>
      simp only [tokeniseLoop, Run.ok.injEq] at h
      subst h
      simp
    | cons c cs => simp [tokeniseLoop] at h
  | succ fuel ih =>
    intro i rest lexemes hnul h
    cases rest with
    | nil =>
      simp only [tokeniseLoop, Run.ok.injEq] at h
      subst h
      simp
    | cons c cs =>
      have hc0 : (c == '\x00') = false := by simpa using hnul c (List.mem_cons_self _ _)
      have hnul' : ∀ d ∈ cs, d ≠ '\x00' := fun d hd => hnul d (List.mem_cons_of_mem _ hd)
      rw [tokeniseLoop] at h
      simp only [hc0, Bool.false_eq_true, if_false] at h
      -- one turn of the loop that emits the token `pre`
      have step : ∀ (rule : Rule) (pre rest' : List Char),
          c :: cs = pre ++ rest' → pre ≠ [] → (∀ d ∈ pre, isspace d = false) →
          (match tokeniseLoop expression fuel (i + pre.length) rest' with
            | .ok ls => Run.ok (Lexeme.mk rule i pre :: ls)
            | .fail e => .fail e
            | .outOfFuel => .outOfFuel) = Run.ok lexemes →
          (∀ l ∈ lexemes, l.text ≠ []) ∧
          (lexemes.map Lexeme.text).flatten = (c :: cs).filter (fun c => !isspace c) := by
        intro rule pre rest' hsplit hne hsp hrun
        obtain ⟨ls, hls, rfl⟩ := emit_ok _ _ _ hrun
        have hnul2 : ∀ d ∈ rest', d ≠ '\x00' := by
          intro d hd
          apply hnul
          rw [hsplit]
          exact List.mem_append_right _ hd
        obtain ⟨ih1, ih2⟩ := ih _ _ _ hnul2 hls
        constructor
        · intro l hl
          rcases List.mem_cons.1 hl with rfl | hl
          · exact hne
          · exact ih1 l hl
        · rw [hsplit, List.filter_append, filter_not_isspace_eq pre hsp, ← ih2]
          simp
      by_cases hsp : isspace c = true
      · simp only [hsp, if_true] at h
        obtain ⟨ih1, ih2⟩ := ih _ _ _ hnul' h
        refine ⟨ih1, ?_⟩
        rw [ih2, List.filter_cons]
        simp [hsp]
      simp only [hsp, Bool.false_eq_true, if_false] at h
      have hsp' : isspace c = false := by simpa using hsp
      by_cases hnum : startsNumber expression i c = true
      · simp only [hnum, if_true] at h
        cases hs : scanNumber (if (c == '-') = true then cs else c :: cs) 0 with
        | outOfFuel => rw [hs] at h; simp at h
        | fail e => rw [hs] at h; simp at h
        | ok p =>
          obtain ⟨digits, rest'⟩ := p
          rw [hs] at h
          obtain ⟨h1, h2, -, h4⟩ := scanNumber_ok _ 0 digits rest' hs
          have hd : ∀ d ∈ digits, isspace d = false := by
            intro d hd
            rcases h2 d hd with h | rfl
            · exact isdigit_not_isspace h
            · rfl
          by_cases hm : (c == '-') = true
          · simp only [hm, if_true] at h h1
            refine step .number (c :: digits) rest' (by rw [h1]; rfl) (by simp) ?_ h
            intro d hd'
            rcases List.mem_cons.1 hd' with rfl | hd'
            · exact hsp'
            · exact hd d hd'
          · simp only [hm, Bool.false_eq_true, if_false] at h h1 h4
            refine step .number digits rest' h1 ?_ hd h
            exact h4 c cs rfl (startsNumber_first hnum (by simpa using hm))
      simp only [hnum, Bool.false_eq_true, if_false] at h
      by_cases hid : (isalpha c || c == '_') = true
      · simp only [hid, if_true] at h
        have hic : identChar c = true := by
          simp only [Bool.or_eq_true, beq_iff_eq] at hid
          simp only [identChar, Bool.or_eq_true, beq_iff_eq]
          tauto
        refine step .identifier _ _ (List.takeWhile_append_dropWhile _ _).symm ?_ ?_ h
        · simp [List.takeWhile_cons, hic]
        · intro d hd
          exact identChar_not_isspace (List.mem_takeWhile_imp hd)
      simp only [hid, Bool.false_eq_true, if_false] at h
      by_cases hop : strchr "+-*/^(),".toList c = true
      · simp only [hop, if_true] at h
        refine step .operator [c] cs rfl (by simp) ?_ h
        intro d hd
        rw [List.mem_singleton.1 hd]
        exact hsp'
      · simp only [hop, Bool.false_eq_true, if_false] at h
        simp at h

theorem tokenise_eq_ok (expression : List Char) (tokens : List Token) :
    tokenise expression = .ok tokens ↔
      ∃ lexemes, tokeniseLexemes expression = .ok lexemes ∧ tokens = lexemes.map Lexeme.text := by
  unfold tokenise
  cases tokeniseLexemes expression with
  | ok ls =>
    simp only [Run.ok.injEq, exists_eq_left']
    exact eq_comm
  | fail e => simp
  | outOfFuel => simp
/-! ## Parser: fuel, one-step characterisations, cursor bounds and framing -/

theorem Run.bind_eq_ok {ε α β : Type} {r : Run ε α} {f : α → Run ε β} {b : β} :
    r.bind f = .ok b ↔ ∃ a, r = .ok a ∧ f a = .ok b := by
  cases r <;> simp [Run.bind]

@[simp] theorem Run.bind_ok {ε α β : Type} (a : α) (f : α → Run ε β) :
    (Run.ok a : Run ε α).bind f = f a := rfl

@[simp] theorem Run.bind_fail {ε α β : Type} (e : ε) (f : α → Run ε β) :
    (Run.fail e : Run ε α).bind f = .fail e := rfl

@[simp] theorem Run.bind_outOfFuel {ε α β : Type} (f : α → Run ε β) :
    (Run.outOfFuel : Run ε α).bind f = .outOfFuel := rfl

theorem Run.le_refl {ε α : Type} (r : Run ε α) : r.le r := Or.inr rfl

theorem Run.outOfFuel_le {ε α : Type} (r : Run ε α) : (Run.outOfFuel : Run ε α).le r := Or.inl rfl

theorem Run.bind_le {ε α β : Type} {r r' : Run ε α} {f f' : α → Run ε β}
    (h : r.le r') (hf : ∀ a, (f a).le (f' a)) : (r.bind f).le (r'.bind f') := by
  rcases h with rfl | rfl
  · exact Or.inl rfl
  · cases r with
    | ok a => exact hf a
    | fail e => exact Or.inr rfl
    | outOfFuel => exact Or.inl rfl

theorem parse_mono_step (n : Nat) :
    (∀ ts p, (parseExpression n ts p).le (parseExpression (n + 1) ts p)) ∧
    (∀ ts e p, (parseExpressionLoop n ts e p).le (parseExpressionLoop (n + 1) ts e p)) ∧
    (∀ ts p, (parseTerm n ts p).le (parseTerm (n + 1) ts p)) ∧
    (∀ ts e p, (parseTermLoop n ts e p).le (parseTermLoop (n + 1) ts e p)) ∧
    (∀ ts p, (parseExponentiation n ts p).le (parseExponentiation (n + 1) ts p)) ∧
    (∀ ts e p, (parseExponentiationLoop n ts e p).le (parseExponentiationLoop (n + 1) ts e p)) ∧
    (∀ ts p, (parseFactor n ts p).le (parseFactor (n + 1) ts p)) := by
  induction n with
  | zero =>
    refine ⟨?_, ?_, ?_, ?_, ?_, ?_, ?_⟩ <;> intros <;> exact Run.outOfFuel_le _
  | succ n ih =>
    obtain ⟨ihE, ihEL, ihT, ihTL, ihX, ihXL, ihF⟩ := ih
    refine ⟨?_, ?_, ?_, ?_, ?_, ?_, ?_⟩
    · intro ts p
      rw [parseExpression, parseExpression]
      exact Run.bind_le (ihT _ _) (fun a => ihEL _ _ _)
    · intro ts e p
      rw [parseExpressionLoop, parseExpressionLoop]
      split
      · exact Run.bind_le (Run.le_refl _) (fun op =>
          Run.bind_le (ihT _ _) (fun a => ihEL _ _ _))
      · exact Run.le_refl _
    · intro ts p
      rw [parseTerm, parseTerm]
      exact Run.bind_le (ihX _ _) (fun a => ihTL _ _ _)
    · intro ts e p
      rw [parseTermLoop, parseTermLoop]
      refine Run.bind_le (Run.le_refl _) (fun a => ?_)
      obtain ⟨go, pos1⟩ := a
      dsimp only
      split
      · exact Run.bind_le (Run.le_refl _) (fun op =>
          Run.bind_le (ihX _ _) (fun a => ihTL _ _ _))
      · exact Run.le_refl _
    · intro ts p
      rw [parseExponentiation, parseExponentiation]
      exact Run.bind_le (ihF _ _) (fun a => ihXL _ _ _)
    · intro ts e p
      rw [parseExponentiationLoop, parseExponentiationLoop]
      split
      · exact Run.bind_le (Run.le_refl _) (fun op =>
          Run.bind_le (ihF _ _) (fun a => ihXL _ _ _))
      · exact Run.le_refl _
    · intro ts p
      rw [parseFactor, parseFactor]
      split
      · refine Run.bind_le (Run.le_refl _) (fun p1 => Run.bind_le (ihE _ _) (fun a => ?_))
        obtain ⟨arg, pos2⟩ := a
        dsimp only
        split
        · exact Run.bind_le (Run.le_refl _) (fun p3 => Run.bind_le (ihE _ _) (fun a =>
            Run.le_refl _))
        · exact Run.le_refl _
      · split
        · exact Run.bind_le (ihE _ _) (fun a => Run.le_refl _)
        · exact Run.le_refl _
theorem parse_mono_add (n k : Nat) :
    (∀ ts p, (parseExpression n ts p).le (parseExpression (n + k) ts p)) ∧
    (∀ ts p, (parseFactor n ts p).le (parseFactor (n + k) ts p)) := by
  induction k with
  | zero => exact ⟨fun _ _ => Run.le_refl _, fun _ _ => Run.le_refl _⟩
  | succ k ih =>
    obtain ⟨hE, _, _, _, _, _, hF⟩ := parse_mono_step (n + k)
    refine ⟨fun ts p => ?_, fun ts p => ?_⟩
    · rcases ih.1 ts p with h | h
      · exact Or.inl h
      · rw [h]; exact hE ts p
    · rcases ih.2 ts p with h | h
      · exact Or.inl h
      · rw [h]; exact hF ts p

theorem parseExpression_mono {n m : Nat} (hnm : n ≤ m) {ts : List Token} {p : Nat} {r : PResult}
    (h : parseExpression n ts p = r) (hr : r ≠ .outOfFuel) : parseExpression m ts p = r := by
  obtain ⟨k, rfl⟩ := Nat.exists_eq_add_of_le hnm
  rcases (parse_mono_add n k).1 ts p with h' | h'
  · rw [h] at h'; exact absurd h' hr
  · rw [← h', h]

theorem matchTok_eq (ts : List Token) (p : Nat) (t : Token) :
    matchTok ts p t = if ts[p]? = some t then (true, p + 1) else (false, p) := by
  unfold matchTok
  by_cases h : ts[p]? = some t
  · have hlt : p < ts.length := by
      by_contra hc
      rw [List.getElem?_eq_none (by omega)] at h
      simp at h
    simp [h, hlt]
  · simp [h]

theorem consume_eq_ok (ts : List Token) (p q : Nat) (t : Token) :
    consume ts p t = .ok q ↔ ts[p]? = some t ∧ q = p + 1 := by
  unfold consume
  rw [matchTok_eq]
  by_cases h : ts[p]? = some t
  · simp [h, eq_comm]
  · simp [h]

theorem consume_of_ne (ts : List Token) (p : Nat) (t : Token) (h : ts[p]? ≠ some t) :
    consume ts p t = .fail (.syntaxError t ts[p]?) := by
  unfold consume
  rw [matchTok_eq]
  simp [h]

theorem consumeNumber_eq_ok (ts : List Token) (p q : Nat) (t : Token) :
    consumeNumber ts p = .ok (t, q) ↔ ts[p]? = some t ∧ q = p + 1 := by
  unfold consumeNumber
  cases h : ts[p]? <;> simp [eq_comm]

theorem previous_succ (ts : List Token) (p : Nat) : previous ts (p + 1) = ts[p]? := by
  simp [previous]

theorem previousTok_succ (ts : List Token) (p : Nat) (t : Token) (h : ts[p]? = some t) :
    previousTok ts (p + 1) = .ok t := by
  simp [previousTok, previous_succ, h]

theorem getElem?_lt {ts : List Token} {p : Nat} {t : Token} (h : ts[p]? = some t) :
    p < ts.length := by
  by_contra hc
  rw [List.getElem?_eq_none (by omega)] at h
  simp at h

theorem exprCond_eq (ts : List Token) (p : Nat) :
    exprCond ts p =
      if ts[p]? = some "+".toList ∨ ts[p]? = some "-".toList then (true, p + 1) else (false, p) := by
  unfold exprCond
  rw [matchTok_eq]
  by_cases h1 : ts[p]? = some "+".toList
  · simp [h1]
  · simp only [h1, if_false, false_or]
    rw [matchTok_eq]

theorem implicitMultiplication_eq (ts : List Token) (p : Nat) (prev curr : Token)
    (h1 : ts[p]? = some prev) (h2 : ts[p + 1]? = some curr) :
    implicitMultiplication ts (p + 1) =
      .ok ((isdigit (prev.headD '\x00') || prev == ")".toList) &&
           (isdigit (curr.headD '\x00') || curr == "(".toList || functionNames.contains curr)) := by
  unfold implicitMultiplication
  simp [getElem?_lt h2, previous_succ, h1, h2]

theorem implicitMultiplication_end (ts : List Token) (p : Nat) (h : ts[p]? = none) :
    implicitMultiplication ts p = .ok false := by
  unfold implicitMultiplication
  have : ¬ p < ts.length := by
    intro hc
    rw [List.getElem?_eq_getElem hc] at h
    simp at h
  simp [this]

theorem implicitMultiplication_after_op (ts : List Token) (p : Nat) (op : Token)
    (h1 : ts[p]? = some op) (hop : isOperatorToken op) :
    implicitMultiplication ts (p + 1) = .ok false := by
  cases h2 : ts[p + 1]? with
  | none => exact implicitMultiplication_end ts _ h2
  | some curr =>
    rw [implicitMultiplication_eq ts p op curr h1 h2]
    rcases hop with rfl | rfl | rfl | rfl | rfl <;>
      (simp only [Run.ok.injEq, Bool.and_eq_false_imp, Bool.or_eq_true]
       intro h
       exact absurd h (by decide))

theorem termOp_after_op (ts : List Token) (p : Nat) (op : Token)
    (h1 : ts[p]? = some op) (hop : isOperatorToken op) :
    termOp ts (p + 1) = .ok op := by
  unfold termOp
  rw [implicitMultiplication_after_op ts p op h1 hop]
  simp [previousTok_succ ts p op h1]

theorem termCond_eq (ts : List Token) (p : Nat) :
    termCond ts p =
      if ts[p]? = some "*".toList ∨ ts[p]? = some "/".toList then .ok (true, p + 1)
      else (implicitMultiplication ts p).bind fun b => .ok (b, p) := by
  unfold termCond
  rw [matchTok_eq]
  by_cases h1 : ts[p]? = some "*".toList
  · simp [h1]
  · simp only [h1, if_false, false_or]
    rw [matchTok_eq]
    by_cases h2 : ts[p]? = some "/".toList
    · rw [if_pos h2, if_pos h2]
    · rw [if_neg h2, if_neg h2]

theorem functionAt_eq_some (ts : List Token) (p : Nat) (f : Token) :
    functionAt ts p = some f ↔ ts[p]? = some f ∧ functionNames.contains f = true := by
  unfold functionAt
  by_cases hlt : p < ts.length
  · simp only [hlt, if_true, List.getElem?_eq_getElem hlt]
    by_cases hf : functionNames.contains ts[p] = true
    · simp only [hf, if_true, Option.some.injEq]
      constructor
      · rintro rfl; exact ⟨rfl, hf⟩
      · exact fun h => h.1
    · simp only [hf, Bool.false_eq_true, if_false, Option.some.injEq]
      constructor
      · intro h; simp at h
      · rintro ⟨rfl, h⟩; exact absurd h hf
  · simp only [hlt, if_false, List.getElem?_eq_none (Nat.le_of_not_lt hlt)]
    simp

theorem functionAt_eq_none (ts : List Token) (p : Nat) :
    functionAt ts p = none ↔ ∀ f, ts[p]? = some f → functionNames.contains f = false := by
  constructor
  · intro h f hf
    by_contra hc
    have := (functionAt_eq_some ts p f).2 ⟨hf, by simpa using hc⟩
    rw [h] at this
    simp at this
  · intro h
    cases hfa : functionAt ts p with
    | none => rfl
    | some f =>
      obtain ⟨h1, h2⟩ := (functionAt_eq_some ts p f).1 hfa
      rw [h f h1] at h2
      simp at h2
theorem parseExpression_succ (n : Nat) (ts : List Token) (p : Nat) (e : ASTNode) (q : Nat) :
    parseExpression (n + 1) ts p = .ok (e, q) ↔
      ∃ node p1, parseTerm n ts p = .ok (node, p1) ∧
        parseExpressionLoop n ts node p1 = .ok (e, q) := by
  rw [parseExpression, Run.bind_eq_ok]
  simp

theorem parseTerm_succ (n : Nat) (ts : List Token) (p : Nat) (e : ASTNode) (q : Nat) :
    parseTerm (n + 1) ts p = .ok (e, q) ↔
      ∃ node p1, parseExponentiation n ts p = .ok (node, p1) ∧
        parseTermLoop n ts node p1 = .ok (e, q) := by
  rw [parseTerm, Run.bind_eq_ok]
  simp

theorem parseExponentiation_succ (n : Nat) (ts : List Token) (p : Nat) (e : ASTNode) (q : Nat) :
    parseExponentiation (n + 1) ts p = .ok (e, q) ↔
      ∃ node p1, parseFactor n ts p = .ok (node, p1) ∧
        parseExponentiationLoop n ts node p1 = .ok (e, q) := by
  rw [parseExponentiation, Run.bind_eq_ok]
  simp

theorem parseExpressionLoop_succ (n : Nat) (ts : List Token) (node : ASTNode) (p : Nat)
    (e : ASTNode) (q : Nat) :
    parseExpressionLoop (n + 1) ts node p = .ok (e, q) ↔
      (∃ op right p2, ts[p]? = some op ∧ (op = "+".toList ∨ op = "-".toList) ∧
        parseTerm n ts (p + 1) = .ok (right, p2) ∧
        parseExpressionLoop n ts (createNode op node right) p2 = .ok (e, q)) ∨
      (ts[p]? ≠ some "+".toList ∧ ts[p]? ≠ some "-".toList ∧ e = node ∧ q = p) := by
  rw [parseExpressionLoop, exprCond_eq]
  by_cases h : ts[p]? = some "+".toList ∨ ts[p]? = some "-".toList
  · rw [if_pos h]
    obtain ⟨op, hop, hop'⟩ : ∃ op, ts[p]? = some op ∧ (op = "+".toList ∨ op = "-".toList) := by
      rcases h with h | h
      · exact ⟨_, h, Or.inl rfl⟩
      · exact ⟨_, h, Or.inr rfl⟩
    simp only [previousTok_succ ts p op hop, Run.bind_ok, Run.bind_eq_ok, Prod.exists]
    constructor
    · rintro ⟨right, p2, h1, h2⟩
      exact Or.inl ⟨op, right, p2, hop, hop', h1, h2⟩
    · rintro (⟨op', right, p2, h0, -, h1, h2⟩ | ⟨h1, h2, -⟩)
      · rw [hop] at h0
        simp only [Option.some.injEq] at h0
        subst h0
        exact ⟨right, p2, h1, h2⟩
      · rcases h with h | h
        · exact absurd h h1
        · exact absurd h h2
  · rw [if_neg h]
    simp only [Run.ok.injEq, Prod.mk.injEq]
    constructor
    · rintro ⟨rfl, rfl⟩
      exact Or.inr ⟨fun hc => h (Or.inl hc), fun hc => h (Or.inr hc), rfl, rfl⟩
    · rintro (⟨op, right, p2, h0, hop, -⟩ | ⟨-, -, rfl, rfl⟩)
      · exfalso
        apply h
        rcases hop with rfl | rfl
        · exact Or.inl h0
        · exact Or.inr h0
      · exact ⟨rfl, rfl⟩

theorem parseExponentiationLoop_succ (n : Nat) (ts : List Token) (node : ASTNode) (p : Nat)
    (e : ASTNode) (q : Nat) :
    parseExponentiationLoop (n + 1) ts node p = .ok (e, q) ↔
      (∃ right p2, ts[p]? = some "^".toList ∧
        parseFactor n ts (p + 1) = .ok (right, p2) ∧
        parseExponentiationLoop n ts (createNode "^".toList node right) p2 = .ok (e, q)) ∨
      (ts[p]? ≠ some "^".toList ∧ e = node ∧ q = p) := by
  rw [parseExponentiationLoop, matchTok_eq]
  by_cases h : ts[p]? = some "^".toList
  · rw [if_pos h]
    simp only [previousTok_succ ts p _ h, Run.bind_ok, Run.bind_eq_ok, Prod.exists]
    constructor
    · rintro ⟨right, p2, h1, h2⟩
      exact Or.inl ⟨right, p2, h, h1, h2⟩
    · rintro (⟨right, p2, -, h1, h2⟩ | ⟨h1, -⟩)
      · exact ⟨right, p2, h1, h2⟩
      · exact absurd h h1
  · rw [if_neg h]
    simp only [Run.ok.injEq, Prod.mk.injEq]
    constructor
    · rintro ⟨rfl, rfl⟩
      exact Or.inr ⟨h, rfl, rfl⟩
    · rintro (⟨right, p2, h0, -⟩ | ⟨-, rfl, rfl⟩)
      · exact absurd h0 h
      · exact ⟨rfl, rfl⟩

theorem parseTermLoop_succ (n : Nat) (ts : List Token) (node : ASTNode) (p : Nat)
    (e : ASTNode) (q : Nat) :
    parseTermLoop (n + 1) ts node p = .ok (e, q) ↔
      (∃ op right p2, ts[p]? = some op ∧ (op = "*".toList ∨ op = "/".toList) ∧
        parseExponentiation n ts (p + 1) = .ok (right, p2) ∧
        parseTermLoop n ts (createNode op node right) p2 = .ok (e, q)) ∨
      (ts[p]? ≠ some "*".toList ∧ ts[p]? ≠ some "/".toList ∧
        implicitMultiplication ts p = .ok true ∧
        ∃ right p2, parseExponentiation n ts p = .ok (right, p2) ∧
          parseTermLoop n ts (createNode "*".toList node right) p2 = .ok (e, q)) ∨
      (ts[p]? ≠ some "*".toList ∧ ts[p]? ≠ some "/".toList ∧
        implicitMultiplication ts p = .ok false ∧ e = node ∧ q = p) := by
  rw [parseTermLoop, termCond_eq]
  by_cases h : ts[p]? = some "*".toList ∨ ts[p]? = some "/".toList
  · rw [if_pos h]
    obtain ⟨op, hop, hop'⟩ : ∃ op, ts[p]? = some op ∧ (op = "*".toList ∨ op = "/".toList) := by
      rcases h with h | h
      · exact ⟨_, h, Or.inl rfl⟩
      · exact ⟨_, h, Or.inr rfl⟩
    have hop2 : isOperatorToken op := by
      rcases hop' with rfl | rfl
      · exact Or.inr (Or.inr (Or.inl rfl))
      · exact Or.inr (Or.inr (Or.inr (Or.inl rfl)))
    simp only [Run.bind_ok, if_true, termOp_after_op ts p op hop hop2, Run.bind_eq_ok,
      Prod.exists]
    constructor
    · rintro ⟨right, p2, h1, h2⟩
      exact Or.inl ⟨op, right, p2, hop, hop', h1, h2⟩
    · rintro (⟨op', right, p2, h0, -, h1, h2⟩ | ⟨h1, h2, -⟩ | ⟨h1, h2, -⟩)
      · rw [hop] at h0
        simp only [Option.some.injEq] at h0
        subst h0
        exact ⟨right, p2, h1, h2⟩
      · rcases h with h | h
        · exact absurd h h1
        · exact absurd h h2
      · rcases h with h | h
        · exact absurd h h1
        · exact absurd h h2
  · rw [if_neg h]
    have hn1 : ts[p]? ≠ some "*".toList := fun hc => h (Or.inl hc)
    have hn2 : ts[p]? ≠ some "/".toList := fun hc => h (Or.inr hc)
    have hnot : ∀ op, ts[p]? = some op → ¬(op = "*".toList ∨ op = "/".toList) := by
      rintro op h0 (rfl | rfl)
      · exact hn1 h0
      · exact hn2 h0
    cases him : implicitMultiplication ts p with
    | outOfFuel =>
      simp only [Run.bind_outOfFuel, reduceCtorEq, false_iff, not_or, not_exists, not_and]
      exact ⟨fun op right p2 h0 hop => absurd hop (hnot op h0), by simp, by simp⟩
    | fail err =>
      simp only [Run.bind_fail, reduceCtorEq, false_iff, not_or, not_exists, not_and]
      exact ⟨fun op right p2 h0 hop => absurd hop (hnot op h0), by simp, by simp⟩
    | ok b =>
      cases b with
      | true =>
        simp only [Run.bind_ok, if_true, termOp, him, Run.bind_eq_ok, Prod.exists]
        constructor
        · rintro ⟨right, p2, h1, h2⟩
          exact Or.inr (Or.inl ⟨hn1, hn2, trivial, right, p2, h1, h2⟩)
        · rintro (⟨op, right, p2, h0, hop, -⟩ | ⟨-, -, -, right, p2, h1, h2⟩ | ⟨-, -, hc, -⟩)
          · exact absurd hop (hnot op h0)
          · exact ⟨right, p2, h1, h2⟩
          · simp at hc
      | false =>
        simp only [Run.bind_ok, Bool.false_eq_true, if_false, Run.ok.injEq, Prod.mk.injEq]
        constructor
        · rintro ⟨rfl, rfl⟩
          exact Or.inr (Or.inr ⟨hn1, hn2, trivial, rfl, rfl⟩)
        · rintro (⟨op, right, p2, h0, hop, -⟩ | ⟨-, -, hc, -⟩ | ⟨-, -, -, rfl, rfl⟩)
          · exact absurd hop (hnot op h0)
          · simp at hc
          · exact ⟨rfl, rfl⟩
theorem paren_not_function : functionNames.contains "(".toList = false := by decide

theorem parseFactor_succ (n : Nat) (ts : List Token) (p : Nat) (e : ASTNode) (q : Nat) :
    parseFactor (n + 1) ts p = .ok (e, q) ↔
      (∃ f arg p2, ts[p]? = some f ∧ functionNames.contains f = true ∧
        ts[p + 1]? = some "(".toList ∧ parseExpression n ts (p + 2) = .ok (arg, p2) ∧
        (((f = "pow".toList ∨ f = "log_base".toList) ∧ ts[p2]? = some ",".toList ∧
            ∃ arg2 p4, parseExpression n ts (p2 + 1) = .ok (arg2, p4) ∧
              ts[p4]? = some ")".toList ∧ e = createNode f arg arg2 ∧ q = p4 + 1) ∨
          (¬(f = "pow".toList ∨ f = "log_base".toList) ∧ ts[p2]? = some ")".toList ∧
            e = createNode f arg .null ∧ q = p2 + 1))) ∨
      (ts[p]? = some "(".toList ∧ ∃ node p2, parseExpression n ts (p + 1) = .ok (node, p2) ∧
        ts[p2]? = some ")".toList ∧ e = node ∧ q = p2 + 1) ∨
      (∃ num, ts[p]? = some num ∧ functionNames.contains num = false ∧ num ≠ "(".toList ∧
        e = createNode num .null .null ∧ q = p + 1) := by
  rw [parseFactor]
  cases hfa : functionAt ts p with
  | some f =>
    obtain ⟨hf1, hf2⟩ := (functionAt_eq_some ts p f).1 hfa
    have hfne : f ≠ "(".toList := by
      rintro rfl
      rw [paren_not_function] at hf2
      simp at hf2
    simp only [Run.bind_eq_ok, consume_eq_ok, Prod.exists]
    constructor
    · rintro ⟨p1, ⟨h1, rfl⟩, arg, p2, h2, h3⟩
      refine Or.inl ⟨f, arg, p2, hf1, hf2, h1, h2, ?_⟩
      by_cases h2arg : (f == "pow".toList || f == "log_base".toList) = true
      · rw [if_pos h2arg] at h3
        simp only [Run.bind_eq_ok, consume_eq_ok, Prod.exists, Run.ok.injEq,
          Prod.mk.injEq] at h3
        obtain ⟨p3, ⟨h4, rfl⟩, arg2, p4, h5, p5, ⟨h6, rfl⟩, rfl, rfl⟩ := h3
        exact Or.inl ⟨by simpa using h2arg, h4, arg2, p4, h5, h6, rfl, rfl⟩
      · rw [if_neg h2arg] at h3
        simp only [Run.bind_eq_ok, consume_eq_ok, Run.ok.injEq, Prod.mk.injEq] at h3
        obtain ⟨p3, ⟨h4, rfl⟩, rfl, rfl⟩ := h3
        exact Or.inr ⟨by simpa using h2arg, h4, rfl, rfl⟩
    · rintro (⟨f', arg, p2, h0, -, h1, h2, h3⟩ | ⟨h0, -⟩ | ⟨num, h0, hc, -⟩)
      · rw [hf1] at h0
        simp only [Option.some.injEq] at h0
        subst h0
        refine ⟨p + 1 + 1, ⟨h1, rfl⟩, arg, p2, h2, ?_⟩
        rcases h3 with ⟨h2arg, h4, arg2, p4, h5, h6, rfl, rfl⟩ | ⟨h2arg, h4, rfl, rfl⟩
        · rw [if_pos (by simpa using h2arg)]
          simp only [Run.bind_eq_ok, consume_eq_ok, Prod.exists, Run.ok.injEq, Prod.mk.injEq]
          exact ⟨p2 + 1, ⟨h4, rfl⟩, arg2, p4, h5, p4 + 1, ⟨h6, rfl⟩, rfl, rfl⟩
        · rw [if_neg (by simpa using h2arg)]
          simp only [Run.bind_eq_ok, consume_eq_ok, Run.ok.injEq, Prod.mk.injEq]
          exact ⟨p2 + 1, ⟨h4, rfl⟩, trivial, rfl⟩
      · rw [hf1] at h0
        simp only [Option.some.injEq] at h0
        exact absurd h0 hfne
      · rw [hf1] at h0
        simp only [Option.some.injEq] at h0
        subst h0
        rw [hf2] at hc
        simp at hc
  | none =>
    have hnone := (functionAt_eq_none ts p).1 hfa
    have hnf : ∀ f, ts[p]? = some f → ¬ functionNames.contains f = true := by
      intro f hf hc
      rw [hnone f hf] at hc
      simp at hc
    dsimp only
    rw [matchTok_eq]
    by_cases hparen : ts[p]? = some "(".toList
    · rw [if_pos hparen]
      simp only [Run.bind_eq_ok, consume_eq_ok, Prod.exists, Run.ok.injEq, Prod.mk.injEq]
      constructor
      · rintro ⟨node, p2, h1, p3, ⟨h2, rfl⟩, rfl, rfl⟩
        exact Or.inr (Or.inl ⟨hparen, node, p2, h1, h2, rfl, rfl⟩)
      · rintro (⟨f, arg, p2, h0, hc, -⟩ | ⟨-, node, p2, h1, h2, rfl, rfl⟩ | ⟨num, h0, -, hc, -⟩)
        · exact absurd hc (hnf f h0)
        · exact ⟨_, p2, h1, p2 + 1, ⟨h2, rfl⟩, rfl, rfl⟩
        · rw [hparen] at h0
          simp only [Option.some.injEq] at h0
          exact absurd h0.symm hc
    · rw [if_neg hparen]
      simp only [Run.bind_eq_ok, consumeNumber_eq_ok, Prod.exists, Run.ok.injEq, Prod.mk.injEq]
      constructor
      · rintro ⟨num, p2, ⟨h1, rfl⟩, rfl, rfl⟩
        refine Or.inr (Or.inr ⟨num, h1, hnone num h1, ?_, rfl, rfl⟩)
        rintro rfl
        exact hparen h1
      · rintro (⟨f, arg, p2, h0, hc, -⟩ | ⟨hc, -⟩ | ⟨num, h0, -, -, rfl, rfl⟩)
        · exact absurd hc (hnf f h0)
        · exact absurd hc hparen
        · exact ⟨num, p + 1, ⟨h0, rfl⟩, rfl, rfl⟩
theorem parseExpression_zero (ts : List Token) (p : Nat) :
    parseExpression 0 ts p = .outOfFuel := by rw [parseExpression]

theorem parseExpressionLoop_zero (ts : List Token) (node : ASTNode) (p : Nat) :
    parseExpressionLoop 0 ts node p = .outOfFuel := by rw [parseExpressionLoop]

theorem parseTerm_zero (ts : List Token) (p : Nat) :
    parseTerm 0 ts p = .outOfFuel := by rw [parseTerm]

theorem parseTermLoop_zero (ts : List Token) (node : ASTNode) (p : Nat) :
    parseTermLoop 0 ts node p = .outOfFuel := by rw [parseTermLoop]

theorem parseExponentiation_zero (ts : List Token) (p : Nat) :
    parseExponentiation 0 ts p = .outOfFuel := by rw [parseExponentiation]

theorem parseExponentiationLoop_zero (ts : List Token) (node : ASTNode) (p : Nat) :
    parseExponentiationLoop 0 ts node p = .outOfFuel := by rw [parseExponentiationLoop]

theorem parseFactor_zero (ts : List Token) (p : Nat) :
    parseFactor 0 ts p = .outOfFuel := by rw [parseFactor]

theorem parse_bounds (n : Nat) :
    (∀ ts p e q, parseExpression n ts p = .ok (e, q) → p < q ∧ q ≤ ts.length) ∧
    (∀ ts node p e q, parseExpressionLoop n ts node p = .ok (e, q) →
      p ≤ q ∧ (p ≤ ts.length → q ≤ ts.length)) ∧
    (∀ ts p e q, parseTerm n ts p = .ok (e, q) → p < q ∧ q ≤ ts.length) ∧
    (∀ ts node p e q, parseTermLoop n ts node p = .ok (e, q) →
      p ≤ q ∧ (p ≤ ts.length → q ≤ ts.length)) ∧
    (∀ ts p e q, parseExponentiation n ts p = .ok (e, q) → p < q ∧ q ≤ ts.length) ∧
    (∀ ts node p e q, parseExponentiationLoop n ts node p = .ok (e, q) →
      p ≤ q ∧ (p ≤ ts.length → q ≤ ts.length)) ∧
    (∀ ts p e q, parseFactor n ts p = .ok (e, q) → p < q ∧ q ≤ ts.length) := by
  induction n with
  | zero =>
    refine ⟨?_, ?_, ?_, ?_, ?_, ?_, ?_⟩ <;> intros <;>
      simp_all [parseExpression_zero, parseExpressionLoop_zero, parseTerm_zero,
        parseTermLoop_zero, parseExponentiation_zero, parseExponentiationLoop_zero,
        parseFactor_zero]
  | succ n ih =>
    obtain ⟨ihE, ihEL, ihT, ihTL, ihX, ihXL, ihF⟩ := ih
    refine ⟨?_, ?_, ?_, ?_, ?_, ?_, ?_⟩
    · intro ts p e q h
      obtain ⟨node, p1, h1, h2⟩ := (parseExpression_succ n ts p e q).1 h
      have := ihT _ _ _ _ h1
      have := ihEL _ _ _ _ _ h2
      omega
    · intro ts node p e q h
      rcases (parseExpressionLoop_succ n ts node p e q).1 h with
        ⟨op, right, p2, h0, -, h1, h2⟩ | ⟨-, -, -, rfl⟩
      · have := ihT _ _ _ _ h1
        have := ihEL _ _ _ _ _ h2
        omega
      · exact ⟨le_refl _, id⟩
    · intro ts p e q h
      obtain ⟨node, p1, h1, h2⟩ := (parseTerm_succ n ts p e q).1 h
      have := ihX _ _ _ _ h1
      have := ihTL _ _ _ _ _ h2
      omega
    · intro ts node p e q h
      rcases (parseTermLoop_succ n ts node p e q).1 h with
        ⟨op, right, p2, h0, -, h1, h2⟩ | ⟨-, -, -, right, p2, h1, h2⟩ | ⟨-, -, -, -, rfl⟩
      · have := ihX _ _ _ _ h1
        have := ihTL _ _ _ _ _ h2
        omega
      · have := ihX _ _ _ _ h1
        have := ihTL _ _ _ _ _ h2
        omega
      · exact ⟨le_refl _, id⟩
    · intro ts p e q h
      obtain ⟨node, p1, h1, h2⟩ := (parseExponentiation_succ n ts p e q).1 h
      have := ihF _ _ _ _ h1
      have := ihXL _ _ _ _ _ h2
      omega
    · intro ts node p e q h
      rcases (parseExponentiationLoop_succ n ts node p e q).1 h with
        ⟨right, p2, h0, h1, h2⟩ | ⟨-, -, rfl⟩
      · have := ihF _ _ _ _ h1
        have := ihXL _ _ _ _ _ h2
        omega
      · exact ⟨le_refl _, id⟩
    · intro ts p e q h
      rcases (parseFactor_succ n ts p e q).1 h with
        ⟨f, arg, p2, h0, -, h1, h2, h3⟩ | ⟨h0, node, p2, h1, h2, -, rfl⟩ |
        ⟨num, h0, -, -, -, rfl⟩
      · have := ihE _ _ _ _ h2
        rcases h3 with ⟨-, h4, arg2, p4, h5, h6, -, rfl⟩ | ⟨-, h4, -, rfl⟩
        · have := ihE _ _ _ _ h5
          have := getElem?_lt h6
          omega
        · have := getElem?_lt h4
          omega
      · have := ihE _ _ _ _ h1
        have := getElem?_lt h2
        omega
      · have := getElem?_lt h0
        omega
theorem frame_get_lt (pre ts sfx : List Token) (p : Nat) (h : p < ts.length) :
    (pre ++ ts ++ sfx)[pre.length + p]? = ts[p]? := by
  rw [List.append_assoc, List.getElem?_append_right (by omega)]
  simp only [Nat.add_sub_cancel_left]
  rw [List.getElem?_append_left h]

theorem frame_get_end (pre ts sfx : List Token) :
    (pre ++ ts ++ sfx)[pre.length + ts.length]? = sfx.head? := by
  rw [List.getElem?_append_right (by simp)]
  simp [List.head?_eq_getElem?]

theorem frame_some (pre ts sfx : List Token) (p : Nat) (t : Token) (h : ts[p]? = some t) :
    (pre ++ ts ++ sfx)[pre.length + p]? = some t := by
  rw [frame_get_lt pre ts sfx p (getElem?_lt h), h]

theorem frame_ne (pre ts sfx : List Token) (p : Nat) (t : Token)
    (hd : ∀ d, sfx.head? = some d → d ≠ t) (hp : p ≤ ts.length) (h : ts[p]? ≠ some t) :
    (pre ++ ts ++ sfx)[pre.length + p]? ≠ some t := by
  rcases Nat.lt_or_eq_of_le hp with hlt | rfl
  · rw [frame_get_lt pre ts sfx p hlt]; exact h
  · rw [frame_get_end]
    intro hc
    exact hd t hc rfl

theorem stopsParse_ne_op {d : Token} (h : stopsParse d) (t : Token) (ht : isOperatorToken t) :
    d ≠ t := by
  rintro rfl
  exact h.1 ht

theorem frame_implicit (pre ts sfx : List Token) (hs : ∀ d, sfx.head? = some d → stopsParse d)
    (p : Nat) (b : Bool) (h1 : 1 ≤ p) (hp : p ≤ ts.length)
    (h : implicitMultiplication ts p = .ok b) :
    implicitMultiplication (pre ++ ts ++ sfx) (pre.length + p) = .ok b := by
  obtain ⟨p0, rfl⟩ : ∃ p0, p = p0 + 1 := ⟨p - 1, by omega⟩
  have hp0 : p0 < ts.length := by omega
  have hprev : ts[p0]? = some ts[p0] := List.getElem?_eq_getElem hp0
  have hprev' := frame_some pre ts sfx p0 _ hprev
  rcases Nat.lt_or_eq_of_le hp with hlt | heq
  · have hcurr : ts[p0 + 1]? = some ts[p0 + 1] := List.getElem?_eq_getElem hlt
    have hcurr' := frame_some pre ts sfx (p0 + 1) _ hcurr
    rw [implicitMultiplication_eq ts p0 _ _ hprev hcurr] at h
    rw [← Nat.add_assoc] at hcurr' ⊢
    rw [implicitMultiplication_eq _ _ _ _ hprev' hcurr']
    exact h
  · have hnone : ts[p0 + 1]? = none := List.getElem?_eq_none (by omega)
    rw [implicitMultiplication_end ts _ hnone] at h
    simp only [Run.ok.injEq] at h
    subst h
    have hend : (pre ++ ts ++ sfx)[pre.length + p0 + 1]? = sfx.head? := by
      rw [Nat.add_assoc, heq, frame_get_end]
    rw [← Nat.add_assoc]
    cases hh : sfx.head? with
    | none => exact implicitMultiplication_end _ _ (by rw [hend, hh])
    | some d =>
      obtain ⟨-, hd1, hd2, hd3⟩ := hs d hh
      rw [implicitMultiplication_eq _ _ _ d hprev' (by rw [hend, hh])]
      have hd2' : (d == "(".toList) = false := by simpa using hd2
      rw [hd1, hd2', hd3]
      simp

theorem parse_frame (pre sfx : List Token) (hs : ∀ d, sfx.head? = some d → stopsParse d)
    (n : Nat) :
    (∀ ts p e q, parseExpression n ts p = .ok (e, q) →
      parseExpression n (pre ++ ts ++ sfx) (pre.length + p) = .ok (e, pre.length + q)) ∧
    (∀ ts node p e q, p ≤ ts.length → parseExpressionLoop n ts node p = .ok (e, q) →
      parseExpressionLoop n (pre ++ ts ++ sfx) node (pre.length + p) =
        .ok (e, pre.length + q)) ∧
    (∀ ts p e q, parseTerm n ts p = .ok (e, q) →
      parseTerm n (pre ++ ts ++ sfx) (pre.length + p) = .ok (e, pre.length + q)) ∧
    (∀ ts node p e q, 1 ≤ p → p ≤ ts.length → parseTermLoop n ts node p = .ok (e, q) →
      parseTermLoop n (pre ++ ts ++ sfx) node (pre.length + p) = .ok (e, pre.length + q)) ∧
    (∀ ts p e q, parseExponentiation n ts p = .ok (e, q) →
      parseExponentiation n (pre ++ ts ++ sfx) (pre.length + p) = .ok (e, pre.length + q)) ∧
    (∀ ts node p e q, p ≤ ts.length → parseExponentiationLoop n ts node p = .ok (e, q) →
      parseExponentiationLoop n (pre ++ ts ++ sfx) node (pre.length + p) =
        .ok (e, pre.length + q)) ∧
    (∀ ts p e q, parseFactor n ts p = .ok (e, q) →
      parseFactor n (pre ++ ts ++ sfx) (pre.length + p) = .ok (e, pre.length + q)) := by
  have hop : ∀ t, isOperatorToken t → ∀ d, sfx.head? = some d → d ≠ t :=
    fun t ht d hd => stopsParse_ne_op (hs d hd) t ht
  have hplus := hop "+".toList (Or.inl rfl)
  have hminus := hop "-".toList (Or.inr (Or.inl rfl))
  have hmul := hop "*".toList (Or.inr (Or.inr (Or.inl rfl)))
  have hdiv := hop "/".toList (Or.inr (Or.inr (Or.inr (Or.inl rfl))))
  have hpow := hop "^".toList (Or.inr (Or.inr (Or.inr (Or.inr rfl))))
  induction n with
  | zero =>
    refine ⟨?_, ?_, ?_, ?_, ?_, ?_, ?_⟩ <;> intros <;>
      simp_all [parseExpression_zero, parseExpressionLoop_zero, parseTerm_zero,
        parseTermLoop_zero, parseExponentiation_zero, parseExponentiationLoop_zero,
        parseFactor_zero]
  | succ n ih =>
    obtain ⟨ihE, ihEL, ihT, ihTL, ihX, ihXL, ihF⟩ := ih
    obtain ⟨bE, bEL, bT, bTL, bX, bXL, bF⟩ := parse_bounds n
    refine ⟨?_, ?_, ?_, ?_, ?_, ?_, ?_⟩
    · intro ts p e q h
      obtain ⟨node, p1, h1, h2⟩ := (parseExpression_succ n ts p e q).1 h
      have := bT _ _ _ _ h1
      exact (parseExpression_succ _ _ _ _ _).2
        ⟨node, _, ihT _ _ _ _ h1, ihEL _ _ _ _ _ (by omega) h2⟩
    · intro ts node p e q hp h
      rcases (parseExpressionLoop_succ n ts node p e q).1 h with
        ⟨op, right, p2, h0, hop', h1, h2⟩ | ⟨hn1, hn2, rfl, rfl⟩
      · have := bT _ _ _ _ h1
        have h1' := ihT _ _ _ _ h1
        rw [← Nat.add_assoc] at h1'
        exact (parseExpressionLoop_succ _ _ _ _ _ _).2 (Or.inl
          ⟨op, right, _, frame_some pre ts sfx p op h0, hop', h1',
            ihEL _ _ _ _ _ (by omega) h2⟩)
      · exact (parseExpressionLoop_succ _ _ _ _ _ _).2 (Or.inr
          ⟨frame_ne pre ts sfx _ _ hplus hp hn1, frame_ne pre ts sfx _ _ hminus hp hn2,
            rfl, rfl⟩)
    · intro ts p e q h
      obtain ⟨node, p1, h1, h2⟩ := (parseTerm_succ n ts p e q).1 h
      have := bX _ _ _ _ h1
      exact (parseTerm_succ _ _ _ _ _).2
        ⟨node, _, ihX _ _ _ _ h1, ihTL _ _ _ _ _ (by omega) (by omega) h2⟩
    · intro ts node p e q hp1 hp h
      rcases (parseTermLoop_succ n ts node p e q).1 h with
        ⟨op, right, p2, h0, hop', h1, h2⟩ | ⟨hn1, hn2, him, right, p2, h1, h2⟩ |
        ⟨hn1, hn2, him, rfl, rfl⟩
      · have := bX _ _ _ _ h1
        have h1' := ihX _ _ _ _ h1
        rw [← Nat.add_assoc] at h1'
        exact (parseTermLoop_succ _ _ _ _ _ _).2 (Or.inl
          ⟨op, right, _, frame_some pre ts sfx p op h0, hop', h1',
            ihTL _ _ _ _ _ (by omega) (by omega) h2⟩)
      · have := bX _ _ _ _ h1
        exact (parseTermLoop_succ _ _ _ _ _ _).2 (Or.inr (Or.inl
          ⟨frame_ne pre ts sfx _ _ hmul hp hn1, frame_ne pre ts sfx _ _ hdiv hp hn2,
            frame_implicit pre ts sfx hs _ true hp1 hp him, right, _, ihX _ _ _ _ h1,
            ihTL _ _ _ _ _ (by omega) (by omega) h2⟩))
      · exact (parseTermLoop_succ _ _ _ _ _ _).2 (Or.inr (Or.inr
          ⟨frame_ne pre ts sfx _ _ hmul hp hn1, frame_ne pre ts sfx _ _ hdiv hp hn2,
            frame_implicit pre ts sfx hs _ false hp1 hp him, rfl, rfl⟩))
    · intro ts p e q h
      obtain ⟨node, p1, h1, h2⟩ := (parseExponentiation_succ n ts p e q).1 h
      have := bF _ _ _ _ h1
      exact (parseExponentiation_succ _ _ _ _ _).2
        ⟨node, _, ihF _ _ _ _ h1, ihXL _ _ _ _ _ (by omega) h2⟩
    · intro ts node p e q hp h
      rcases (parseExponentiationLoop_succ n ts node p e q).1 h with
        ⟨right, p2, h0, h1, h2⟩ | ⟨hn1, rfl, rfl⟩
      · have := bF _ _ _ _ h1
        have h1' := ihF _ _ _ _ h1
        rw [← Nat.add_assoc] at h1'
        exact (parseExponentiationLoop_succ _ _ _ _ _ _).2 (Or.inl
          ⟨right, _, frame_some pre ts sfx p _ h0, h1', ihXL _ _ _ _ _ (by omega) h2⟩)
      · exact (parseExponentiationLoop_succ _ _ _ _ _ _).2 (Or.inr
          ⟨frame_ne pre ts sfx _ _ hpow hp hn1, rfl, rfl⟩)
    · intro ts p e q h
      rcases (parseFactor_succ n ts p e q).1 h with
        ⟨f, arg, p2, h0, hf, h1, h2, h3⟩ | ⟨h0, node, p2, h1, h2, rfl, rfl⟩ |
        ⟨num, h0, hnf, hnp, rfl, rfl⟩
      · have h1' := frame_some pre ts sfx _ _ h1
        have h2' := ihE _ _ _ _ h2
        rw [← Nat.add_assoc] at h1' h2'
        refine (parseFactor_succ _ _ _ _ _).2 (Or.inl
          ⟨f, arg, _, frame_some pre ts sfx p f h0, hf, h1', h2', ?_⟩)
        rcases h3 with ⟨h2arg, h4, arg2, p4, h5, h6, rfl, rfl⟩ | ⟨h2arg, h4, rfl, rfl⟩
        · have h5' := ihE _ _ _ _ h5
          rw [← Nat.add_assoc] at h5'
          exact Or.inl ⟨h2arg, frame_some pre ts sfx _ _ h4, arg2, _, h5',
            frame_some pre ts sfx _ _ h6, rfl, rfl⟩
        · exact Or.inr ⟨h2arg, frame_some pre ts sfx _ _ h4, rfl, rfl⟩
      · have h1' := ihE _ _ _ _ h1
        rw [← Nat.add_assoc] at h1'
        exact (parseFactor_succ _ _ _ _ _).2 (Or.inr (Or.inl
          ⟨frame_some pre ts sfx p _ h0, _, _, h1', frame_some pre ts sfx _ _ h2, rfl, rfl⟩))
      · exact (parseFactor_succ _ _ _ _ _).2 (Or.inr (Or.inr
          ⟨num, frame_some pre ts sfx p _ h0, hnf, hnp, rfl, rfl⟩))

/-! ## Parser: stepping the loops on a known token -/

theorem digitLeading_facts {t : Token} (h : digitLeading t) :
    t ≠ "+".toList ∧ t ≠ "-".toList ∧ t ≠ "*".toList ∧ t ≠ "/".toList ∧ t ≠ "^".toList ∧
    t ≠ "(".toList ∧ t ≠ ")".toList ∧ t ≠ ",".toList ∧ functionNames.contains t = false := by
  unfold digitLeading at h
  refine ⟨?_, ?_, ?_, ?_, ?_, ?_, ?_, ?_, ?_⟩
  any_goals (rintro rfl; revert h; decide)
  cases hc : functionNames.contains t with
  | false => rfl
  | true =>
    exfalso
    simp only [functionNames, toks, List.map, List.contains_eq_any_beq, List.any_cons,
      List.any_nil, Bool.or_false, Bool.or_eq_true, beq_iff_eq] at hc
    rcases hc with hc | hc | hc | hc | hc | hc | hc | hc | hc | hc | hc | hc | hc | hc | hc | hc <;>
      (subst hc; revert h; decide)

theorem parseFactor_leaf (n : Nat) (ts : List Token) (p : Nat) (a : Token)
    (h : ts[p]? = some a) (ha : digitLeading a) :
    parseFactor (n + 1) ts p = .ok (leaf a, p + 1) := by
  obtain ⟨-, -, -, -, -, a6, -, -, a9⟩ := digitLeading_facts ha
  exact (parseFactor_succ n ts p _ _).2 (Or.inr (Or.inr ⟨a, h, a9, a6, rfl, rfl⟩))

theorem parseExponentiationLoop_exit (n : Nat) (ts : List Token) (node : ASTNode) (p : Nat)
    (h : ts[p]? ≠ some "^".toList) :
    parseExponentiationLoop (n + 1) ts node p = .ok (node, p) :=
  (parseExponentiationLoop_succ n ts node p _ _).2 (Or.inr ⟨h, rfl, rfl⟩)

theorem parseExponentiationLoop_step (n : Nat) (ts : List Token) (node : ASTNode) (p : Nat)
    (h : ts[p]? = some "^".toList) :
    parseExponentiationLoop (n + 1) ts node p =
      (parseFactor n ts (p + 1)).bind fun (right, pos2) =>
        parseExponentiationLoop n ts (createNode "^".toList node right) pos2 := by
  rw [parseExponentiationLoop, matchTok_eq, if_pos h]
  simp only [previousTok_succ ts p _ h, Run.bind_ok]

theorem parseTermLoop_exit (n : Nat) (ts : List Token) (node : ASTNode) (p : Nat)
    (h1 : ts[p]? ≠ some "*".toList) (h2 : ts[p]? ≠ some "/".toList)
    (h3 : implicitMultiplication ts p = .ok false) :
    parseTermLoop (n + 1) ts node p = .ok (node, p) :=
  (parseTermLoop_succ n ts node p _ _).2 (Or.inr (Or.inr ⟨h1, h2, h3, rfl, rfl⟩))

theorem parseTermLoop_step (n : Nat) (ts : List Token) (node : ASTNode) (p : Nat) (op : Token)
    (h : ts[p]? = some op) (hop : op = "*".toList ∨ op = "/".toList) :
    parseTermLoop (n + 1) ts node p =
      (parseExponentiation n ts (p + 1)).bind fun (right, pos2) =>
        parseTermLoop n ts (createNode op node right) pos2 := by
  have hc : ts[p]? = some "*".toList ∨ ts[p]? = some "/".toList := by
    rcases hop with rfl | rfl
    · exact Or.inl h
    · exact Or.inr h
  have hop2 : isOperatorToken op := by
    rcases hop with rfl | rfl
    · exact Or.inr (Or.inr (Or.inl rfl))
    · exact Or.inr (Or.inr (Or.inr (Or.inl rfl)))
  rw [parseTermLoop, termCond_eq, if_pos hc]
  simp only [Run.bind_ok, if_true, termOp_after_op ts p op h hop2]

theorem parseTermLoop_implicit (n : Nat) (ts : List Token) (node : ASTNode) (p : Nat)
    (h1 : ts[p]? ≠ some "*".toList) (h2 : ts[p]? ≠ some "/".toList)
    (h3 : implicitMultiplication ts p = .ok true) :
    parseTermLoop (n + 1) ts node p =
      (parseExponentiation n ts p).bind fun (right, pos2) =>
        parseTermLoop n ts (createNode "*".toList node right) pos2 := by
  have hc : ¬(ts[p]? = some "*".toList ∨ ts[p]? = some "/".toList) := by
    rintro (h | h)
    · exact h1 h
    · exact h2 h
  rw [parseTermLoop, termCond_eq, if_neg hc]
  simp only [h3, Run.bind_ok, if_true, termOp]

theorem parseExpressionLoop_exit (n : Nat) (ts : List Token) (node : ASTNode) (p : Nat)
    (h1 : ts[p]? ≠ some "+".toList) (h2 : ts[p]? ≠ some "-".toList) :
    parseExpressionLoop (n + 1) ts node p = .ok (node, p) :=
  (parseExpressionLoop_succ n ts node p _ _).2 (Or.inr ⟨h1, h2, rfl, rfl⟩)

theorem parseExpressionLoop_step (n : Nat) (ts : List Token) (node : ASTNode) (p : Nat)
    (op : Token) (h : ts[p]? = some op) (hop : op = "+".toList ∨ op = "-".toList) :
    parseExpressionLoop (n + 1) ts node p =
      (parseTerm n ts (p + 1)).bind fun (right, pos2) =>
        parseExpressionLoop n ts (createNode op node right) pos2 := by
  have hc : ts[p]? = some "+".toList ∨ ts[p]? = some "-".toList := by
    rcases hop with rfl | rfl
    · exact Or.inl h
    · exact Or.inr h
  rw [parseExpressionLoop, exprCond_eq, if_pos hc]
  simp only [previousTok_succ ts p op h, Run.bind_ok]

theorem parseExpression_unfold (n : Nat) (ts : List Token) (p : Nat) :
    parseExpression (n + 1) ts p =
      (parseTerm n ts p).bind fun (node, pos1) => parseExpressionLoop n ts node pos1 := by
  rw [parseExpression]

theorem parseTerm_unfold (n : Nat) (ts : List Token) (p : Nat) :
    parseTerm (n + 1) ts p =
      (parseExponentiation n ts p).bind fun (node, pos1) => parseTermLoop n ts node pos1 := by
  rw [parseTerm]

theorem parseExponentiation_unfold (n : Nat) (ts : List Token) (p : Nat) :
    parseExponentiation (n + 1) ts p =
      (parseFactor n ts p).bind fun (node, pos1) => parseExponentiationLoop n ts node pos1 := by
  rw [parseExponentiation]


theorem parseFactor_leaf_at (n : Nat) (ts : List Token) (p : Nat) (h : p < ts.length)
    (ha : digitLeading ts[p]) : parseFactor (n + 1) ts p = .ok (leaf ts[p], p + 1) :=
  parseFactor_leaf n ts p _ (List.getElem?_eq_getElem h) ha

theorem parseTermLoop_mul (n : Nat) (ts : List Token) (node : ASTNode) (p : Nat)
    (h : ts[p]? = some ['*']) :
    parseTermLoop (n + 1) ts node p =
      (parseExponentiation n ts (p + 1)).bind fun (right, pos2) =>
        parseTermLoop n ts (createNode ['*'] node right) pos2 :=
  parseTermLoop_step n ts node p _ h (Or.inl rfl)

theorem parseTermLoop_div (n : Nat) (ts : List Token) (node : ASTNode) (p : Nat)
    (h : ts[p]? = some ['/']) :
    parseTermLoop (n + 1) ts node p =
      (parseExponentiation n ts (p + 1)).bind fun (right, pos2) =>
        parseTermLoop n ts (createNode ['/'] node right) pos2 :=
  parseTermLoop_step n ts node p _ h (Or.inr rfl)

theorem parseExpressionLoop_plus (n : Nat) (ts : List Token) (node : ASTNode) (p : Nat)
    (h : ts[p]? = some ['+']) :
    parseExpressionLoop (n + 1) ts node p =
      (parseTerm n ts (p + 1)).bind fun (right, pos2) =>
        parseExpressionLoop n ts (createNode ['+'] node right) pos2 :=
  parseExpressionLoop_step n ts node p _ h (Or.inl rfl)

theorem parseExpressionLoop_minus (n : Nat) (ts : List Token) (node : ASTNode) (p : Nat)
    (h : ts[p]? = some ['-']) :
    parseExpressionLoop (n + 1) ts node p =
      (parseTerm n ts (p + 1)).bind fun (right, pos2) =>
        parseExpressionLoop n ts (createNode ['-'] node right) pos2 :=
  parseExpressionLoop_step n ts node p _ h (Or.inr rfl)

theorem parseExponentiationLoop_pow (n : Nat) (ts : List Token) (node : ASTNode) (p : Nat)
    (h : ts[p]? = some ['^']) :
    parseExponentiationLoop (n + 1) ts node p =
      (parseFactor n ts (p + 1)).bind fun (right, pos2) =>
        parseExponentiationLoop n ts (createNode ['^'] node right) pos2 :=
  parseExponentiationLoop_step n ts node p h

theorem parseExponentiationLoop_stop (n : Nat) (ts : List Token) (node : ASTNode) (p : Nat)
    (h : ts[p]? ≠ some ['^']) :
    parseExponentiationLoop (n + 1) ts node p = .ok (node, p) :=
  parseExponentiationLoop_exit n ts node p h

theorem parseTermLoop_stop (n : Nat) (ts : List Token) (node : ASTNode) (p : Nat)
    (h1 : ts[p]? ≠ some ['*']) (h2 : ts[p]? ≠ some ['/'])
    (h3 : implicitMultiplication ts p = .ok false) :
    parseTermLoop (n + 1) ts node p = .ok (node, p) :=
  parseTermLoop_exit n ts node p h1 h2 h3

theorem parseExpressionLoop_stop (n : Nat) (ts : List Token) (node : ASTNode) (p : Nat)
    (h1 : ts[p]? ≠ some ['+']) (h2 : ts[p]? ≠ some ['-']) :
    parseExpressionLoop (n + 1) ts node p = .ok (node, p) :=
  parseExpressionLoop_exit n ts node p h1 h2

theorem digitLeading_ne {t : Token} (h : digitLeading t) :
    t ≠ ['+'] ∧ t ≠ ['-'] ∧ t ≠ ['*'] ∧ t ≠ ['/'] ∧ t ≠ ['^'] ∧
    t ≠ ['('] ∧ t ≠ [')'] ∧ t ≠ [','] ∧ functionNames.contains t = false :=
  digitLeading_facts h


/-! ## Parser: function calls and parentheses around a parsed sequence -/

theorem parseFactor_call (m : Nat) (ts : List Token) (p : Nat) (f : Token)
    (h0 : ts[p]? = some f) (hf : functionNames.contains f = true) :
    parseFactor (m + 1) ts p =
      (consume ts (p + 1) "(".toList).bind fun pos1 =>
      (parseExpression m ts pos1).bind fun (arg, pos2) =>
        if f == "pow".toList || f == "log_base".toList then
          (consume ts pos2 ",".toList).bind fun pos3 =>
          (parseExpression m ts pos3).bind fun (arg2, pos4) =>
          (consume ts pos4 ")".toList).bind fun pos5 =>
            .ok (createNode f arg arg2, pos5)
        else
          (consume ts pos2 ")".toList).bind fun pos3 =>
            .ok (createNode f arg .null, pos3) := by
  rw [parseFactor, (functionAt_eq_some ts p f).2 ⟨h0, hf⟩]

theorem parseFactor_paren (m : Nat) (ts : List Token) (p : Nat)
    (h0 : ts[p]? = some "(".toList) :
    parseFactor (m + 1) ts p =
      (parseExpression m ts (p + 1)).bind fun (node, pos2) =>
      (consume ts pos2 ")".toList).bind fun pos3 => .ok (node, pos3) := by
  have hnone : functionAt ts p = none := by
    rw [functionAt_eq_none]
    intro f hf
    rw [h0] at hf
    simp only [Option.some.injEq] at hf
    subst hf
    exact paren_not_function
  rw [parseFactor, hnone]
  dsimp only
  rw [matchTok_eq, if_pos h0]

theorem consume_ok (ts : List Token) (p : Nat) (t : Token) (h : ts[p]? = some t) :
    consume ts p t = .ok (p + 1) :=
  (consume_eq_ok ts p (p + 1) t).2 ⟨h, rfl⟩

theorem parseExpression_of_factor_ok (m : Nat) (ts : List Token) (p : Nat) (x : ASTNode)
    (q : Nat) (h : parseFactor (m + 1) ts p = .ok (x, q)) (hq : ts[q]? = none) :
    parseExpression (m + 4) ts p = .ok (x, q) := by
  have hne : ∀ t : Token, ts[q]? ≠ some t := by
    intro t hc
    rw [hq] at hc
    simp at hc
  rw [parseExpression_unfold, parseTerm_unfold, parseExponentiation_unfold, h]
  simp only [Run.bind_ok]
  rw [parseExponentiationLoop_exit _ _ _ _ (hne _)]
  simp only [Run.bind_ok]
  rw [parseTermLoop_exit _ _ _ _ (hne _) (hne _) (implicitMultiplication_end ts q hq)]
  simp only [Run.bind_ok]
  rw [parseExpressionLoop_exit _ _ _ _ (hne _) (hne _)]

theorem parseExpression_of_factor_fail (m : Nat) (ts : List Token) (p : Nat) (err : ParseFault)
    (h : parseFactor (m + 1) ts p = .fail err) :
    parseExpression (m + 4) ts p = .fail err := by
  rw [parseExpression_unfold, parseTerm_unfold, parseExponentiation_unfold, h]
  simp only [Run.bind_fail]

theorem parse_of_le (m : Nat) (ts : List Token) (r : PResult)
    (h : parseExpression m ts 0 = r) (hr : r ≠ .outOfFuel) (hm : m ≤ parseFuel ts.length) :
    parse ts = r :=
  parseExpression_mono hm h hr

/-- A sequence that `parse` reads to its end, read inside a longer sequence:
after the tokens `pre`, before a token at which every loop stops or before the
end. -/
theorem parse_inside (pre args sfx : List Token) (e : ASTNode)
    (hs : ∀ d, sfx.head? = some d → stopsParse d)
    (h : parse args = .ok (e, args.length)) (m : Nat) (hm : parseFuel args.length ≤ m) :
    parseExpression m (pre ++ args ++ sfx) pre.length =
      .ok (e, pre.length + args.length) := by
  have := (parse_frame pre sfx hs (parseFuel args.length)).1 args 0 e args.length h
  exact parseExpression_mono hm this (by simp)

theorem stopsParse_close : stopsParse ")".toList := by
  unfold stopsParse isOperatorToken
  decide

theorem stopsParse_comma : stopsParse ",".toList := by
  unfold stopsParse isOperatorToken
  decide

theorem parseFactor_call_arg (m : Nat) (ts : List Token) (f : Token)
    (hf : functionNames.contains f = true) (h0 : ts[0]? = some f)
    (h1 : ts[1]? = some "(".toList) (e : ASTNode) (q : Nat)
    (hA : parseExpression m ts 2 = .ok (e, q)) :
    parseFactor (m + 1) ts 0 =
      if f == "pow".toList || f == "log_base".toList then
        (consume ts q ",".toList).bind fun pos3 =>
        (parseExpression m ts pos3).bind fun (arg2, pos4) =>
        (consume ts pos4 ")".toList).bind fun pos5 =>
          .ok (createNode f e arg2, pos5)
      else
        (consume ts q ")".toList).bind fun pos3 =>
          .ok (createNode f e .null, pos3) := by
  rw [parseFactor_call _ _ _ _ h0 hf, consume_ok _ _ _ h1]
  simp only [Run.bind_ok, Nat.zero_add, Nat.reduceAdd, hA]

theorem twoArgument_iff (f : Token) :
    (f == "pow".toList || f == "log_base".toList) = true ↔ twoArgument f := by
  simp [twoArgument]

/-- The call of a one-argument function around a parsed sequence, followed by
the tokens `sfx`. -/
theorem parseFactor_call_one (f : Token) (hf : functionNames.contains f = true)
    (h1f : ¬twoArgument f) (args sfx : List Token) (e : ASTNode)
    (hs : ∀ d, sfx.head? = some d → stopsParse d)
    (h : parse args = .ok (e, args.length)) :
    parseFactor (parseFuel args.length + 1) ([f, "(".toList] ++ args ++ sfx) 0 =
      (consume ([f, "(".toList] ++ args ++ sfx) (2 + args.length) ")".toList).bind fun pos3 =>
        .ok (createNode f e .null, pos3) := by
  have hA := parse_inside [f, "(".toList] args sfx e hs h (parseFuel args.length) (le_refl _)
  rw [parseFactor_call_arg _ _ f hf (by simp) (by simp) e _ hA,
    if_neg (fun hc => h1f ((twoArgument_iff f).1 hc))]
  rfl

/-- The call of a two-argument function up to its comma. -/
theorem parseFactor_call_two (f : Token) (hf : functionNames.contains f = true)
    (h2f : twoArgument f) (args sfx : List Token) (e : ASTNode) (m : Nat)
    (hm : parseFuel args.length ≤ m)
    (hs : ∀ d, sfx.head? = some d → stopsParse d)
    (h : parse args = .ok (e, args.length)) :
    parseFactor (m + 1) ([f, "(".toList] ++ args ++ sfx) 0 =
      (consume ([f, "(".toList] ++ args ++ sfx) (2 + args.length) ",".toList).bind fun pos3 =>
      (parseExpression m ([f, "(".toList] ++ args ++ sfx) pos3).bind fun (arg2, pos4) =>
      (consume ([f, "(".toList] ++ args ++ sfx) pos4 ")".toList).bind fun pos5 =>
        .ok (createNode f e arg2, pos5) := by
  have hA := parse_inside [f, "(".toList] args sfx e hs h m hm
  rw [parseFactor_call_arg _ _ f hf (by simp) (by simp) e _ hA,
    if_pos ((twoArgument_iff f).2 h2f)]
  rfl

theorem call_get_end (f : Token) (args sfx : List Token) :
    ([f, "(".toList] ++ args ++ sfx)[2 + args.length]? = sfx.head? :=
  frame_get_end [f, "(".toList] args sfx

/-! ## Parser: the fuel of `parse` is enough -/

theorem unaryFunction_operator (M : MathLib) {value : Token} (hop : isOperatorToken value) :
    unaryFunction M value = none ∧ (value == "pow".toList) = false ∧
      (value == "log_base".toList) = false := by
  rcases hop with rfl | rfl | rfl | rfl | rfl <;> exact ⟨rfl, rfl, rfl⟩

theorem evaluate_leaf (M : MathLib) (value : Token) :
    evaluate M (.node value .null .null) = some (atof value) := by
  rw [evaluate]

theorem evaluate_operator (M : MathLib) (value : Token) (left right : ASTNode)
    (hop : isOperatorToken value) (h : ¬(left = .null ∧ right = .null)) :
    evaluate M (.node value left right) =
      (evaluate M left).bind fun left_val =>
      (evaluate M right).bind fun right_val =>
        some (applyOperator M value left_val right_val) := by
  obtain ⟨h1, h2, h3⟩ := unaryFunction_operator M hop
  rw [evaluate, h1]
  · simp only [h2, h3, Bool.false_eq_true, if_false]
  · rintro rfl rfl
    exact h ⟨rfl, rfl⟩

theorem applyOperator_not_negativeZero (M : MathLib) (value : Token) (l r : F64) :
    negativeZero (applyOperator M value l r) = false := by
  unfold applyOperator
  generalize (if value == "+".toList then F64.add l r
    else if value == "-".toList then F64.sub l r
    else if value == "*".toList then F64.mul l r
    else if value == "/".toList then F64.div l r
    else if value == "^".toList then M.customPOW l r
    else F64.zero) = result
  by_cases h : (F64.eq result F64.zero && F64.signbit result) = true
  · simp only [h, if_true]
    rfl
  · simp only [h, if_false]
    simpa [negativeZero] using h

theorem atof_operator {value : Token} (hop : isOperatorToken value) : atof value = F64.zero := by
  rcases hop with rfl | rfl | rfl | rfl | rfl <;> rfl


/-- One turn of the loop of `main`, from the results of its three steps. -/
theorem calculate_of (M : MathLib) (expression : List Char) (tokens : List Token)
    (ast : ASTNode) (q : Nat) (x : F64) (h1 : tokenise expression = .ok tokens)
    (h2 : parse tokens = .ok (ast, q)) (h3 : evaluate M ast = some x) :
    calculate M expression = .result x := by
  cases ast with
  | null => simp [evaluate] at h3
  | node value left right => simp only [calculate, h1, h2, h3]

/-! ## Doubles: NaN and order -/

namespace F64

@[simp] theorem lt_nan_right (x : F64) : lt x .nan = false := by cases x <;> rfl

@[simp] theorem lt_nan_left (x : F64) : lt .nan x = false := by cases x <;> rfl

@[simp] theorem le_nan_right (x : F64) : le x .nan = false := by cases x <;> rfl

@[simp] theorem le_nan_left (x : F64) : le .nan x = false := by cases x <;> rfl

@[simp] theorem eq_nan_right (x : F64) : eq x .nan = false := by cases x <;> rfl

@[simp] theorem eq_nan_left (x : F64) : eq .nan x = false := by cases x <;> rfl

@[simp] theorem add_nan_right (x : F64) : add x .nan = .nan := by cases x <;> rfl

@[simp] theorem add_nan_left (x : F64) : add .nan x = .nan := by cases x <;> rfl

@[simp] theorem sub_nan_right (x : F64) : sub x .nan = .nan := by cases x <;> rfl

@[simp] theorem sub_nan_left (x : F64) : sub .nan x = .nan := by cases x <;> rfl

@[simp] theorem mul_nan_right (x : F64) : mul x .nan = .nan := by cases x <;> rfl

@[simp] theorem mul_nan_left (x : F64) : mul .nan x = .nan := by cases x <;> rfl

@[simp] theorem div_nan_right (x : F64) : div x .nan = .nan := by cases x <;> rfl

@[simp] theorem div_nan_left (x : F64) : div .nan x = .nan := by cases x <;> rfl

@[simp] theorem ldexp_nan (n : Int) : ldexp .nan n = .nan := rfl

@[simp] theorem roundHalfAway_nan : roundHalfAway .nan = .nan := rfl

theorem toInt_nan (P : Platform) : toInt P .nan = P.castOutOfRange .nan := rfl

theorem signedInt_true (m : Nat) (e g : Int) : signedInt true m e g = -signedInt false m e g := by
  simp [signedInt]

theorem signedInt_false_nonneg (m : Nat) (e g : Int) : 0 ≤ signedInt false m e g := by
  simp only [signedInt, Bool.false_eq_true, if_false, one_mul]
  exact Int.ofNat_nonneg _

theorem signedInt_zero (s : Bool) (e g : Int) : signedInt s 0 e g = 0 := by
  simp [signedInt]

theorem signedInt_false_pos {m : Nat} (hm : m ≠ 0) (e g : Int) : 0 < signedInt false m e g := by
  simp only [signedInt, Bool.false_eq_true, if_false, one_mul]
  have : 0 < m * 2 ^ (e - g).toNat := Nat.mul_pos (Nat.pos_of_ne_zero hm) (by positivity)
  exact_mod_cast this

/-- Negation reverses the order. -/
theorem lt_neg (x y : F64) : lt (neg x) (neg y) = lt y x := by
  cases x with
  | nan => cases y <;> rfl
  | inf s =>
    cases y with
    | nan => rfl
    | inf t => cases s <;> cases t <;> rfl
    | fin t n f => cases s <;> rfl
  | fin s m e =>
    cases y with
    | nan => rfl
    | inf t => cases t <;> rfl
    | fin t n f =>
      simp only [neg, lt, min_comm f e]
      cases s <;> cases t <;>
        simp only [Bool.not_true, Bool.not_false, signedInt_true, decide_eq_decide] <;>
        constructor <;> intro h <;> omega

/-- Negation reverses the order. -/
theorem le_neg (x y : F64) : le (neg x) (neg y) = le y x := by
  cases x with
  | nan => cases y <;> rfl
  | inf s =>
    cases y with
    | nan => rfl
    | inf t => cases s <;> cases t <;> rfl
    | fin t n f => cases s <;> rfl
  | fin s m e =>
    cases y with
    | nan => rfl
    | inf t => cases t <;> rfl
    | fin t n f =>
      simp only [neg, le, min_comm f e]
      cases s <;> cases t <;>
        simp only [Bool.not_true, Bool.not_false, signedInt_true, decide_eq_decide] <;>
        constructor <;> intro h <;> omega

theorem fabs_eq (x : F64) : fabs x = x ∨ (fabs x = neg x ∧ signbit x = true) := by
  cases x with
  | nan => exact Or.inl rfl
  | inf s => cases s; exact Or.inl rfl; exact Or.inr ⟨rfl, rfl⟩
  | fin s m e => cases s; exact Or.inl rfl; exact Or.inr ⟨rfl, rfl⟩

theorem neg_neg (x : F64) : neg (neg x) = x := by
  cases x <;> simp [neg]

/-- The test `1 < |x|` is the test `x < -1.0 || x > 1.0`. -/
theorem one_lt_fabs {x : F64} (h : lt (ofInt 1) (fabs x) = true) :
    lt x (lit "-1.0") = true ∨ lt (lit "1.0") x = true := by
  rcases fabs_eq x with hx | ⟨hx, -⟩
  · rw [hx] at h
    exact Or.inr h
  · rw [hx] at h
    left
    rw [← lt_neg]
    exact h

/-- The test `1 <= |x|` is the test `x <= -1.0 || x >= 1.0`. -/
theorem one_le_fabs {x : F64} (h : le (ofInt 1) (fabs x) = true) :
    le x (lit "-1.0") = true ∨ le (lit "1.0") x = true := by
  rcases fabs_eq x with hx | ⟨hx, -⟩
  · rw [hx] at h
    exact Or.inr h
  · rw [hx] at h
    left
    rw [← le_neg]
    exact h

/-- A double below `0.0` is the negative infinity or a finite negative value. -/
theorem lt_zero_cases {a : F64} (h : lt a (lit "0.0") = true) :
    a = .inf true ∨ ∃ m e, a = .fin true m e ∧ m ≠ 0 := by
  have hz : lit "0.0" = .fin false 0 (-1074) := rfl
  rw [hz] at h
  cases a with
  | nan => simp at h
  | inf s => cases s; simp [lt] at h; exact Or.inl rfl
  | fin s m e =>
    right
    cases s
    · exfalso
      have h0 := signedInt_false_nonneg m e (min e (-1074))
      simp only [lt, decide_eq_true_eq, signedInt_zero] at h
      omega
    · refine ⟨m, e, rfl, ?_⟩
      rintro rfl
      simp only [lt, decide_eq_true_eq, signedInt_zero] at h
      omega

end F64

/-! ## The math library: domain errors -/

theorem customASIN_domain {x : F64}
    (h : F64.lt x (lit "-1.0") = true ∨ F64.lt (lit "1.0") x = true) : customASIN x = .nan := by
  have h' : (F64.lt x (lit "-1.0") || F64.lt (lit "1.0") x) = true := by simpa using h
  simp [customASIN, customASINAux, h']

theorem customACOSH_domain {x : F64} (h : F64.lt x (lit "1.0") = true) : customACOSH x = .nan := by
  simp [customACOSH, h]

theorem customATANH_domain {x : F64}
    (h : F64.le x (lit "-1.0") = true ∨ F64.le (lit "1.0") x = true) : customATANH x = .nan := by
  have h' : (F64.le x (lit "-1.0") || F64.le (lit "1.0") x) = true := by simpa using h
  simp [customATANH, h']

theorem customLN_domain {x : F64} (h : F64.le x (lit "0.0") = true) : customLN x = .nan := by
  simp [customLN, h]

theorem customEXP_nan (P : Platform) : customEXP P .nan = .nan := by
  simp [customEXP]

theorem le_of_lt_zero {a : F64} (h : F64.lt a (lit "0.0") = true) :
    F64.le a (lit "0.0") = true ∧ F64.eq a (lit "0.0") = false := by
  have hz : lit "0.0" = .fin false 0 (-1074) := rfl
  rcases F64.lt_zero_cases h with rfl | ⟨m, e, rfl, hm⟩
  · exact ⟨rfl, rfl⟩
  · rw [hz]
    constructor
    · have h0 := F64.signedInt_false_nonneg m e (min e (-1074))
      simp only [F64.le, decide_eq_true_eq, F64.signedInt_zero, F64.signedInt_true]
      omega
    · simp [F64.eq, hm]

theorem customPOW_negative (P : Platform) (a b : F64) (h : F64.lt a (lit "0.0") = true) :
    customPOW P a b = .nan := by
  obtain ⟨h1, h2⟩ := le_of_lt_zero h
  unfold customPOW
  rw [h2, customLN_domain h1]
  simp only [Bool.false_and, Bool.false_eq_true, if_false, F64.mul_nan_right, customEXP_nan, ite_self]

/-! ## The math library at the sample points -/

set_option maxRecDepth 100000 in
set_option exponentiation.threshold 2000 in
theorem customSIN_zero (P : Platform) : customSIN P (F64.ofInt 0) = .fin false 0 (-1074) := by rfl

set_option maxRecDepth 100000 in
set_option exponentiation.threshold 2000 in
theorem customCOS_zero (P : Platform) :
    customCOS P (F64.ofInt 0) = .fin false 4503599627370496 (-52) := by rfl

set_option maxRecDepth 100000 in
set_option exponentiation.threshold 2000 in
theorem customLN_one : customLN (F64.ofInt 1) = .fin false 0 (-1074) := by rfl

set_option maxRecDepth 100000 in
set_option exponentiation.threshold 2000 in
theorem customEXP_zero (P : Platform) :
    customEXP P (F64.ofInt 0) = .fin false 4503599627370496 (-52) := by
  have h : F64.toInt P (F64.roundHalfAway (F64.div (F64.ofInt 0) (lit "0.6931471805599453")))
      = 0 := by rfl
  simp only [customEXP, h]
  rfl

set_option maxRecDepth 100000 in
set_option exponentiation.threshold 2000 in
theorem customPOW_two_ten (P : Platform) :
    customPOW P (F64.ofInt 2) (F64.ofInt 10) = .fin false 4503599627370496 (-42) := by
  have h0 : F64.mul (F64.ofInt 10) (customLN (F64.ofInt 2)) =
      .fin false 7804143460206699 (-50) := by rfl
  have h1 : (F64.eq (F64.ofInt 2) (lit "0.0") && F64.lt (F64.ofInt 0) (F64.ofInt 10)) = false := by
    rfl
  have h2 : F64.lt (F64.ofInt 2) (lit "0.0") = false := by rfl
  have h : F64.toInt P (F64.roundHalfAway (F64.div (.fin false 7804143460206699 (-50))
      (lit "0.6931471805599453"))) = 10 := by rfl
  simp only [customPOW, h0, h1, h2, customEXP, h, Bool.false_and, Bool.false_eq_true, if_false]
  rfl

set_option maxRecDepth 100000 in
set_option exponentiation.threshold 2000 in
theorem customLogBase_two_eight :
    customLogBase (F64.ofInt 2) (F64.ofInt 8) = .fin false 6755399441055744 (-51) := by rfl

theorem closeTo_fin (s : Bool) (m : Nat) (e : Int) (v tol : ℚ)
    (h : |(if s then -1 else 1) * (m : ℚ) * (2 : ℚ) ^ e - v| ≤ tol) :
    closeTo (.fin s m e) v tol := ⟨rfl, h⟩


set_option maxRecDepth 100000 in
set_option exponentiation.threshold 2000 in
theorem reduceAngle_one (P : Platform) :
    reduceAngle P (F64.ofInt 1) = (.fin false 4503599627370496 (-52), 0) := by
  have h : F64.toInt P (F64.div (F64.ofInt 1) HALF_PI) = 0 := by rfl
  have h1 : F64.fmod (F64.ofInt 1) TWO_PI = F64.ofInt 1 := by rfl
  have h2 : F64.lt (F64.ofInt 1) F64.zero = false := by rfl
  simp only [reduceAngle, h1, h2, h, Bool.false_eq_true, if_false]
  rfl


/-! ## Doubles: the order is that of the values; the recursion of the library ends -/

namespace F64

/-- The integer that the comparisons use is the value scaled by a power of two. -/
theorem signedInt_toRat (s : Bool) (m : Nat) (e g : Int) (h : g ≤ e) :
    ((signedInt s m e g : Int) : ℚ) * (2 : ℚ) ^ g = toRat (.fin s m e) := by
  have h2 : (2 : ℚ) ^ e = (2 : ℚ) ^ (e - g).toNat * (2 : ℚ) ^ g := by
    rw [← zpow_natCast, ← zpow_add₀ (by norm_num : (2 : ℚ) ≠ 0)]
    congr 1
    omega
  simp only [signedInt, toRat, h2]
  cases s <;> simp <;> ring

/-- The comparison `<` of finite doubles is the order of their values. -/
theorem lt_fin_iff (s : Bool) (m : Nat) (e : Int) (t : Bool) (n : Nat) (f : Int) :
    lt (.fin s m e) (.fin t n f) = true ↔ toRat (.fin s m e) < toRat (.fin t n f) := by
  rw [← signedInt_toRat s m e (min e f) (min_le_left _ _),
    ← signedInt_toRat t n f (min e f) (min_le_right _ _)]
  have hpos : (0 : ℚ) < (2 : ℚ) ^ (min e f) := by positivity
  simp only [lt, decide_eq_true_eq]
  rw [mul_lt_mul_right hpos]
  exact Int.cast_lt.symm

/-- The comparison `<=` of finite doubles is the order of their values. -/
theorem le_fin_iff (s : Bool) (m : Nat) (e : Int) (t : Bool) (n : Nat) (f : Int) :
    le (.fin s m e) (.fin t n f) = true ↔ toRat (.fin s m e) ≤ toRat (.fin t n f) := by
  rw [← signedInt_toRat s m e (min e f) (min_le_left _ _),
    ← signedInt_toRat t n f (min e f) (min_le_right _ _)]
  have hpos : (0 : ℚ) < (2 : ℚ) ^ (min e f) := by positivity
  simp only [le, decide_eq_true_eq]
  rw [mul_le_mul_right hpos]
  exact Int.cast_le.symm

theorem neg_not_lt_zero {x : F64} (h : lt x (ofInt 0) = true) : lt (neg x) (ofInt 0) = false := by
  have hz : ofInt 0 = lit "0.0" := rfl
  rw [hz] at h
  have hz2 : ofInt 0 = .fin false 0 (-1074) := rfl
  rcases lt_zero_cases h with rfl | ⟨m, e, rfl, -⟩
  · rfl
  · rw [hz2]
    have h0 := signedInt_false_nonneg m e (min e (-1074))
    simp only [neg, lt, Bool.not_true, signedInt_zero, decide_eq_false_iff_not]
    omega

end F64

/-- The nesting of calls of `customASIN` is at most two: every bound from 2 on
gives the result. -/
theorem customASINAux_enough (n : Nat) (x : F64) :
    customASINAux (n + 2) x = some (customASIN x) := by
  have key : ∀ k, customASINAux (k + 2) x = customASINAux 2 x ∧
      ∃ y, customASINAux 2 x = some y := by
    intro k
    simp only [customASINAux]
    by_cases h1 : (F64.lt x (lit "-1.0") || F64.lt (lit "1.0") x) = true
    · simp [h1]
    · simp only [h1, Bool.false_eq_true, if_false]
      by_cases h2 : F64.lt x (F64.ofInt 0) = true
      · simp only [h2, if_true]
        by_cases h3 : (F64.lt (F64.neg x) (lit "-1.0") || F64.lt (lit "1.0") (F64.neg x)) = true
        · simp [h3]
        · simp [h3, F64.neg_not_lt_zero h2]
      · simp [h2]
  obtain ⟨h1, y, h2⟩ := key n
  rw [h1, customASIN, h2]
  rfl

namespace F64

theorem bitsAux_spec (fuel : Nat) :
    ∀ n, n ≤ fuel → n < 2 ^ bitsAux fuel n ∧ (n ≠ 0 → 2 ^ (bitsAux fuel n - 1) ≤ n) := by
  induction fuel with
  | zero =>
    intro n hn
    have : n = 0 := by omega
    subst this
    simp [bitsAux]
  | succ fuel ih =>
    intro n hn
    by_cases h0 : n = 0
    · subst h0
      simp [bitsAux]
    · obtain ⟨h1, h2⟩ := ih (n / 2) (by omega)
      simp only [bitsAux, h0, if_false, Nat.add_sub_cancel]
      refine ⟨?_, fun _ => ?_⟩
      · rw [pow_succ]
        omega
      · by_cases h3 : n / 2 = 0
        · have hb : bitsAux fuel (n / 2) = 0 := by
            rw [h3]
            cases fuel <;> simp [bitsAux]
          rw [hb]
          simp
          omega
        · have h4 := h2 h3
          have hb : 1 ≤ bitsAux fuel (n / 2) := by
            by_contra hc
            have : bitsAux fuel (n / 2) = 0 := by omega
            rw [this] at h1
            simp at h1
            omega
          obtain ⟨b, hb'⟩ : ∃ b, bitsAux fuel (n / 2) = b + 1 := ⟨_, (Nat.sub_add_cancel hb).symm⟩
          rw [hb'] at h4 ⊢
          simp only [Nat.add_sub_cancel] at h4
          rw [pow_succ]
          omega

/-- The number of bits is monotone. -/
theorem bits_mono {a b : Nat} (h : a ≤ b) : bits a ≤ bits b := by
  by_cases h0 : a = 0
  · subst h0
    have : bits 0 = 0 := rfl
    omega
  · obtain ⟨-, h2⟩ := bitsAux_spec a a (le_refl _)
    obtain ⟨h3, -⟩ := bitsAux_spec b b (le_refl _)
    have h4 := h2 h0
    by_contra hc
    have h5 : bits b ≤ bits a - 1 := by omega
    have h6 : 2 ^ bits b ≤ 2 ^ (bits a - 1) := Nat.pow_le_pow_right (by norm_num) h5
    unfold bits at h6
    omega

theorem lt_zero_right (m : Nat) (e g : Int) (s : Bool) :
    lt (.fin false m e) (.fin s 0 g) = false := by
  have h0 := signedInt_false_nonneg m e (min e g)
  simp only [lt, decide_eq_false_iff_not, not_lt, signedInt_zero]
  exact h0

/-- A quotient below 1 rounds to a double that is not above `1.0` and not below
`0.0`. -/
theorem round_lt_one {num den : Nat} (h : num < den) :
    lt (lit "1.0") (round false num den) = false ∧
      lt (round false num den) (ofInt 0) = false := by
  have h1 : lit "1.0" = .fin false (2 ^ 52) (-52) := rfl
  have hz : ofInt 0 = .fin false 0 (-1074) := rfl
  rw [h1, hz]
  by_cases h0 : num = 0
  · subst h0
    simp only [round, if_true]
    exact ⟨lt_zero_right _ _ _ _, lt_zero_right _ _ _ _⟩
  have hlg : ((bits num : Int) - (bits den : Int)) ≤ 0 := by
    have := bits_mono (le_of_lt h)
    omega
  simp only [round, h0, if_false]
  generalize ((bits num : Int) - (bits den : Int)) = lg at hlg ⊢
  generalize hk : (if (scale num den (-lg)).2 ≤ (scale num den (-lg)).1 then lg else lg - 1) = k
  have hk0 : k ≤ 0 := by
    rw [← hk]
    split <;> omega
  generalize he : max (k - 52) (-1074) = e
  have he1 : e ≤ -52 := by rw [← he]; omega
  have he2 : -1074 ≤ e := by rw [← he]; omega
  obtain ⟨E, hE⟩ : ∃ E : Nat, -e = (E : Int) := ⟨(-e).toNat, by omega⟩
  have hE52 : 52 ≤ E := by omega
  have ht : scale num den (-e) = (num * 2 ^ E, den) := by
    simp only [scale, hE]
    simp
  rw [ht]
  simp only []
  have hq : num * 2 ^ E / den < 2 ^ E := by
    rw [Nat.div_lt_iff_lt_mul (by omega)]
    calc num * 2 ^ E < den * 2 ^ E := (Nat.mul_lt_mul_right (Nat.two_pow_pos E)).2 h
      _ = 2 ^ E * den := Nat.mul_comm _ _
  generalize hq1 : (if den < 2 * (num * 2 ^ E % den) ∨
      2 * (num * 2 ^ E % den) = den ∧ num * 2 ^ E / den % 2 = 1 then num * 2 ^ E / den + 1
      else num * 2 ^ E / den) = q1
  have hq1le : q1 ≤ 2 ^ E := by
    rw [← hq1]
    split <;> omega
  have hpow : (2 : Nat) ^ E = 2 ^ 52 * 2 ^ (E - 52) := by
    rw [← pow_add]
    congr 1
    omega
  by_cases h53 : q1 = 2 ^ 53
  · simp only [h53, if_true]
    have hE53 : 53 ≤ E := by
      by_contra hc
      have hE' : E = 52 := by omega
      rw [h53, hE'] at hq1le
      norm_num at hq1le
    have hne : ¬(971 < e + 1) := by omega
    simp only [hne, if_false]
    constructor
    · simp only [lt, decide_eq_false_iff_not, not_lt, signedInt, Bool.false_eq_true, if_false,
        one_mul]
      have hmin : min (-52 : Int) (e + 1) = e + 1 := by omega
      rw [hmin]
      have h2 : ((-52 : Int) - (e + 1)).toNat = E - 53 := by omega
      have h3 : ((e + 1 : Int) - (e + 1)).toNat = 0 := by omega
      rw [h2, h3]
      norm_num
      exact one_le_pow₀ (by norm_num)
    · have h0' := signedInt_false_nonneg (2 ^ 52) (e + 1) (min (e + 1) (-1074))
      simp only [lt, decide_eq_false_iff_not, not_lt, signedInt_zero]
      exact h0'
  · simp only [h53, if_false]
    have hne : ¬(971 < e) := by omega
    simp only [hne, if_false]
    constructor
    · simp only [lt, decide_eq_false_iff_not, not_lt, signedInt, Bool.false_eq_true, if_false,
        one_mul]
      have hmin : min (-52 : Int) e = e := by omega
      rw [hmin]
      have h2 : ((-52 : Int) - e).toNat = E - 52 := by omega
      have h3 : ((e : Int) - e).toNat = 0 := by omega
      rw [h2, h3, pow_zero, mul_one, ← hpow]
      exact_mod_cast hq1le
    · have h0' := signedInt_false_nonneg q1 e (min e (-1074))
      simp only [lt, decide_eq_false_iff_not, not_lt, signedInt_zero]
      exact h0'

/-- The inverse of a double above `1.0` is neither negative nor above `1.0`. -/
theorem inverse_of_gt_one {y : F64} (h : lt (lit "1.0") y = true) :
    lt (lit "1.0") (div (lit "1.0") y) = false ∧ lt (div (lit "1.0") y) (ofInt 0) = false := by
  have h1 : lit "1.0" = .fin false (2 ^ 52) (-52) := rfl
  cases y with
  | nan => simp at h
  | inf s =>
    cases s
    · have hd : div (lit "1.0") (.inf false) = .fin false 0 (-1074) := by rw [h1]; rfl
      rw [hd, h1]
      exact ⟨lt_zero_right _ _ _ _, rfl⟩
    · rw [h1] at h
      simp [lt] at h
  | fin s n f =>
    have hs : s = false := by
      cases s
      · rfl
      · exfalso
        rw [h1] at h
        have h0 := signedInt_false_nonneg n f (min (-52) f)
        have h0' := signedInt_false_nonneg (2 ^ 52) (-52) (min (-52) f)
        simp only [lt, decide_eq_true_eq, signedInt_true] at h
        omega
    subst hs
    have hn : n ≠ 0 := by
      rintro rfl
      rw [h1] at h
      have h0' := signedInt_false_nonneg (2 ^ 52) (-52) (min (-52) f)
      simp only [lt, decide_eq_true_eq, signedInt_zero] at h
      omega
    have hdiv : div (lit "1.0") (.fin false n f) =
        round false (scale (2 ^ 52) n (-52 - f)).1 (scale (2 ^ 52) n (-52 - f)).2 := by
      rw [h1]
      simp [div, hn]
    rw [hdiv]
    apply round_lt_one
    rw [h1] at h
    simp only [lt, decide_eq_true_eq, signedInt, Bool.false_eq_true, if_false, one_mul] at h
    simp only [scale]
    by_cases hf : 0 ≤ -52 - f
    · simp only [hf, if_true]
      have hmin : min (-52 : Int) f = f := by omega
      rw [hmin] at h
      have h3 : ((f : Int) - f).toNat = 0 := by omega
      have h4 : ((-52 : Int) - f).toNat = (-52 - f).toNat := rfl
      rw [h3, pow_zero, mul_one] at h
      exact_mod_cast h
    · simp only [hf, if_false]
      have hmin : min (-52 : Int) f = -52 := by omega
      rw [hmin] at h
      have h3 : ((-52 : Int) - -52).toNat = 0 := by omega
      have h4 : ((f : Int) - -52).toNat = (-(-52 - f)).toNat := by congr 1; omega
      rw [h3, h4, pow_zero, mul_one] at h
      exact_mod_cast h

end F64

/-- The nesting of calls of `customATAN` is at most three: every bound from 3 on
gives the result. -/
theorem customATANAux_enough (n : Nat) (x : F64) :
    customATANAux (n + 3) x = some (customATAN x) := by
  -- an argument in `[0, 1]` (or a NaN): no call
  have base : ∀ k z, F64.lt z (F64.ofInt 0) = false → F64.lt (lit "1.0") z = false →
      customATANAux (k + 1) z = some (atanPolynomial z) := by
    intro k z h1 h2
    simp [customATANAux, h1, h2]
  -- an argument that is not negative: at most one call
  have mid : ∀ k z, F64.lt z (F64.ofInt 0) = false →
      customATANAux (k + 2) z = customATANAux 2 z ∧ ∃ y, customATANAux 2 z = some y := by
    intro k z h1
    by_cases h2 : F64.lt (lit "1.0") z = true
    · obtain ⟨h3, h4⟩ := F64.inverse_of_gt_one h2
      have e1 : customATANAux (k + 2) z =
          (customATANAux (k + 1) (F64.div (lit "1.0") z)).map (F64.sub HALF_PI) := by
        rw [customATANAux]
        simp [h1, h2]
      have e2 : customATANAux 2 z =
          (customATANAux 1 (F64.div (lit "1.0") z)).map (F64.sub HALF_PI) := by
        rw [customATANAux]
        simp [h1, h2]
      rw [e1, e2, base k _ h4 h3, base 0 _ h4 h3]
      exact ⟨rfl, _, rfl⟩
    · have h2' : F64.lt (lit "1.0") z = false := by simpa using h2
      rw [base (k + 1) z h1 h2', base 1 z h1 h2']
      exact ⟨rfl, _, rfl⟩
  have key : customATANAux (n + 3) x = customATANAux 3 x ∧ ∃ y, customATANAux 3 x = some y := by
    by_cases h1 : F64.lt x (F64.ofInt 0) = true
    · have h2 := F64.neg_not_lt_zero h1
      have e1 : customATANAux (n + 3) x = (customATANAux (n + 2) (F64.neg x)).map F64.neg := by
        rw [customATANAux]
        simp [h1]
      have e2 : customATANAux 3 x = (customATANAux 2 (F64.neg x)).map F64.neg := by
        rw [customATANAux]
        simp [h1]
      obtain ⟨h3, y, h4⟩ := mid n _ h2
      rw [e1, e2, h3, h4]
      exact ⟨rfl, _, rfl⟩
    · have h1' : F64.lt x (F64.ofInt 0) = false := by simpa using h1
      obtain ⟨h3, y, h4⟩ := mid (n + 1) x h1'
      obtain ⟨h5, -⟩ := mid 1 x h1'
      rw [h3, h5, h4]
      exact ⟨rfl, _, rfl⟩
  obtain ⟨h1, y, h2⟩ := key
  rw [h1, customATAN, h2]
  rfl

/-! ## The trees of the parser -/

theorem wellFormed_leaf {num : Token} (h : functionNames.contains num = false) :
    wellFormed (createNode num .null .null) := by
  rw [createNode, wellFormed]
  exact Or.inl ⟨rfl, rfl, h⟩

theorem wellFormed_operator {op : Token} {left right : ASTNode} (hop : isOperatorToken op)
    (hl : wellFormed left) (hr : wellFormed right) : wellFormed (createNode op left right) := by
  rw [createNode, wellFormed]
  exact Or.inr (Or.inr ⟨Or.inr hop, hl, hr⟩)

theorem wellFormed_call_two {f : Token} {arg arg2 : ASTNode} (hf : twoArgument f)
    (hl : wellFormed arg) (hr : wellFormed arg2) : wellFormed (createNode f arg arg2) := by
  rw [createNode, wellFormed]
  exact Or.inr (Or.inr ⟨Or.inl hf, hl, hr⟩)

theorem wellFormed_call_one {f : Token} {arg : ASTNode} (hf : functionNames.contains f = true)
    (h2 : ¬twoArgument f) (hl : wellFormed arg) : wellFormed (createNode f arg .null) := by
  rw [createNode, wellFormed]
  exact Or.inr (Or.inl ⟨⟨hf, h2⟩, hl, rfl⟩)

theorem wellFormed_ne_null {t : ASTNode} (h : wellFormed t) : t ≠ .null := by
  rintro rfl
  simp [wellFormed] at h

theorem parse_wellFormed (n : Nat) :
    (∀ ts p e q, parseExpression n ts p = .ok (e, q) → wellFormed e) ∧
    (∀ ts node p e q, wellFormed node → parseExpressionLoop n ts node p = .ok (e, q) →
      wellFormed e) ∧
    (∀ ts p e q, parseTerm n ts p = .ok (e, q) → wellFormed e) ∧
    (∀ ts node p e q, wellFormed node → parseTermLoop n ts node p = .ok (e, q) →
      wellFormed e) ∧
    (∀ ts p e q, parseExponentiation n ts p = .ok (e, q) → wellFormed e) ∧
    (∀ ts node p e q, wellFormed node → parseExponentiationLoop n ts node p = .ok (e, q) →
      wellFormed e) ∧
    (∀ ts p e q, parseFactor n ts p = .ok (e, q) → wellFormed e) := by
  induction n with
  | zero =>
    refine ⟨?_, ?_, ?_, ?_, ?_, ?_, ?_⟩ <;> intros <;>
      simp_all [parseExpression_zero, parseExpressionLoop_zero, parseTerm_zero,
        parseTermLoop_zero, parseExponentiation_zero, parseExponentiationLoop_zero,
        parseFactor_zero]
  | succ n ih =>
    obtain ⟨ihE, ihEL, ihT, ihTL, ihX, ihXL, ihF⟩ := ih
    refine ⟨?_, ?_, ?_, ?_, ?_, ?_, ?_⟩
    · intro ts p e q h
      obtain ⟨node, p1, h1, h2⟩ := (parseExpression_succ n ts p e q).1 h
      exact ihEL _ _ _ _ _ (ihT _ _ _ _ h1) h2
    · intro ts node p e q hn h
      rcases (parseExpressionLoop_succ n ts node p e q).1 h with
        ⟨op, right, p2, -, hop, h1, h2⟩ | ⟨-, -, rfl, -⟩
      · refine ihEL _ _ _ _ _ (wellFormed_operator ?_ hn (ihT _ _ _ _ h1)) h2
        rcases hop with rfl | rfl
        · exact Or.inl rfl
        · exact Or.inr (Or.inl rfl)
      · exact hn
    · intro ts p e q h
      obtain ⟨node, p1, h1, h2⟩ := (parseTerm_succ n ts p e q).1 h
      exact ihTL _ _ _ _ _ (ihX _ _ _ _ h1) h2
    · intro ts node p e q hn h
      rcases (parseTermLoop_succ n ts node p e q).1 h with
        ⟨op, right, p2, -, hop, h1, h2⟩ | ⟨-, -, -, right, p2, h1, h2⟩ | ⟨-, -, -, rfl, -⟩
      · refine ihTL _ _ _ _ _ (wellFormed_operator ?_ hn (ihX _ _ _ _ h1)) h2
        rcases hop with rfl | rfl
        · exact Or.inr (Or.inr (Or.inl rfl))
        · exact Or.inr (Or.inr (Or.inr (Or.inl rfl)))
      · exact ihTL _ _ _ _ _
          (wellFormed_operator (Or.inr (Or.inr (Or.inl rfl))) hn (ihX _ _ _ _ h1)) h2
      · exact hn
    · intro ts p e q h
      obtain ⟨node, p1, h1, h2⟩ := (parseExponentiation_succ n ts p e q).1 h
      exact ihXL _ _ _ _ _ (ihF _ _ _ _ h1) h2
    · intro ts node p e q hn h
      rcases (parseExponentiationLoop_succ n ts node p e q).1 h with
        ⟨right, p2, -, h1, h2⟩ | ⟨-, rfl, -⟩
      · exact ihXL _ _ _ _ _
          (wellFormed_operator (Or.inr (Or.inr (Or.inr (Or.inr rfl)))) hn (ihF _ _ _ _ h1)) h2
      · exact hn
    · intro ts p e q h
      rcases (parseFactor_succ n ts p e q).1 h with
        ⟨f, arg, p2, -, hf, -, h1, h2⟩ | ⟨-, node, p2, h1, -, rfl, -⟩ | ⟨num, -, hnum, -, rfl, -⟩
      · rcases h2 with ⟨h2arg, -, arg2, p4, h3, -, rfl, -⟩ | ⟨h1arg, -, rfl, -⟩
        · exact wellFormed_call_two h2arg (ihE _ _ _ _ h1) (ihE _ _ _ _ h3)
        · exact wellFormed_call_one hf h1arg (ihE _ _ _ _ h1)
      · exact ihE _ _ _ _ h1
      · exact wellFormed_leaf hnum

theorem evaluate_node (M : MathLib) (value : Token) (left right : ASTNode)
    (h : ¬(left = .null ∧ right = .null)) :
    evaluate M (.node value left right) =
      match unaryFunction M value with
      | some f => (evaluate M left).bind fun arg => some (f arg)
      | none =>
        if value == "pow".toList then
          (evaluate M left).bind fun base =>
          (evaluate M right).bind fun exponent => some (M.customPOW base exponent)
        else if value == "log_base".toList then
          (evaluate M left).bind fun a =>
          (evaluate M right).bind fun b => some (M.customLogBase a b)
        else
          (evaluate M left).bind fun left_val =>
          (evaluate M right).bind fun right_val =>
            some (applyOperator M value left_val right_val) := by
  rw [evaluate]
  rintro rfl rfl
  exact h ⟨rfl, rfl⟩

theorem unaryFunction_oneArgument (M : MathLib) {value : Token} (h : oneArgument value) :
    ∃ f, unaryFunction M value = some f := by
  obtain ⟨h1, h2⟩ := h
  simp only [functionNames, toks, List.map_cons, List.map_nil, List.contains_eq_any_beq,
    List.any_cons, List.any_nil, Bool.or_false, Bool.or_eq_true, beq_iff_eq] at h1
  rcases h1 with h | h | h | h | h | h | h | h | h | h | h | h | h | h | h | h
  all_goals first
    | exact absurd (Or.inl h) h2
    | exact absurd (Or.inr h) h2
    | (subst h; exact ⟨_, rfl⟩)

theorem evaluate_wellFormed (M : MathLib) (t : ASTNode) (h : wellFormed t) :
    ∃ x, evaluate M t = some x := by
  induction t with
  | null => simp [wellFormed] at h
  | node value left right ihl ihr =>
    rw [wellFormed] at h
    rcases h with ⟨rfl, rfl, -⟩ | ⟨h1, hl, rfl⟩ | ⟨hv, hl, hr⟩
    · exact ⟨_, evaluate_leaf M value⟩
    · obtain ⟨a, ha⟩ := ihl hl
      obtain ⟨f, hf⟩ := unaryFunction_oneArgument M h1
      rw [evaluate_node M value left .null (fun hc => wellFormed_ne_null hl hc.1), hf, ha]
      exact ⟨_, rfl⟩
    · obtain ⟨a, ha⟩ := ihl hl
      obtain ⟨b, hb⟩ := ihr hr
      rw [evaluate_node M value left right (fun hc => wellFormed_ne_null hl hc.1), ha, hb]
      cases unaryFunction M value with
      | some f => exact ⟨_, rfl⟩
      | none =>
        simp only [Option.bind]
        split_ifs <;> exact ⟨_, rfl⟩

theorem depth_createNode (value : Token) (left right : ASTNode) :
    depth (createNode value left right) = 1 + max (depth left) (depth right) := rfl

theorem depth_leaf (value : Token) : depth (createNode value .null .null) = 1 := rfl

/-- The depth of a tree is at most the number of tokens the parser read for it:
a loop that starts at cursor `p` with a tree read from `p0 < p` on ends with a
tree no deeper than the cursor is away from `p0`. -/
theorem parse_depth (n : Nat) :
    (∀ ts p e q, parseExpression n ts p = .ok (e, q) → depth e ≤ q - p) ∧
    (∀ ts node p e q p0, p0 < p → depth node ≤ p - p0 →
      parseExpressionLoop n ts node p = .ok (e, q) → depth e ≤ q - p0) ∧
    (∀ ts p e q, parseTerm n ts p = .ok (e, q) → depth e ≤ q - p) ∧
    (∀ ts node p e q p0, p0 < p → depth node ≤ p - p0 →
      parseTermLoop n ts node p = .ok (e, q) → depth e ≤ q - p0) ∧
    (∀ ts p e q, parseExponentiation n ts p = .ok (e, q) → depth e ≤ q - p) ∧
    (∀ ts node p e q p0, p0 < p → depth node ≤ p - p0 →
      parseExponentiationLoop n ts node p = .ok (e, q) → depth e ≤ q - p0) ∧
    (∀ ts p e q, parseFactor n ts p = .ok (e, q) → depth e ≤ q - p) := by
  induction n with
  | zero =>
    refine ⟨?_, ?_, ?_, ?_, ?_, ?_, ?_⟩ <;> intros <;>
      simp_all [parseExpression_zero, parseExpressionLoop_zero, parseTerm_zero,
        parseTermLoop_zero, parseExponentiation_zero, parseExponentiationLoop_zero,
        parseFactor_zero]
  | succ n ih =>
    obtain ⟨ihE, ihEL, ihT, ihTL, ihX, ihXL, ihF⟩ := ih
    obtain ⟨bE, -, bT, -, bX, -, bF⟩ := parse_bounds n
    refine ⟨?_, ?_, ?_, ?_, ?_, ?_, ?_⟩
    · intro ts p e q h
      obtain ⟨node, p1, h1, h2⟩ := (parseExpression_succ n ts p e q).1 h
      exact ihEL _ _ _ _ _ p (bT _ _ _ _ h1).1 (ihT _ _ _ _ h1) h2
    · intro ts node p e q p0 hp hn h
      rcases (parseExpressionLoop_succ n ts node p e q).1 h with
        ⟨op, right, p2, -, -, h1, h2⟩ | ⟨-, -, rfl, rfl⟩
      · have hb := (bT _ _ _ _ h1).1
        have hd := ihT _ _ _ _ h1
        refine ihEL _ _ _ _ _ p0 (by omega) ?_ h2
        rw [depth_createNode]
        omega
      · exact hn
    · intro ts p e q h
      obtain ⟨node, p1, h1, h2⟩ := (parseTerm_succ n ts p e q).1 h
      exact ihTL _ _ _ _ _ p (bX _ _ _ _ h1).1 (ihX _ _ _ _ h1) h2
    · intro ts node p e q p0 hp hn h
      rcases (parseTermLoop_succ n ts node p e q).1 h with
        ⟨op, right, p2, -, -, h1, h2⟩ | ⟨-, -, -, right, p2, h1, h2⟩ | ⟨-, -, -, rfl, rfl⟩
      · have hb := (bX _ _ _ _ h1).1
        have hd := ihX _ _ _ _ h1
        refine ihTL _ _ _ _ _ p0 (by omega) ?_ h2
        rw [depth_createNode]
        omega
      · have hb := (bX _ _ _ _ h1).1
        have hd := ihX _ _ _ _ h1
        refine ihTL _ _ _ _ _ p0 (by omega) ?_ h2
        rw [depth_createNode]
        omega
      · exact hn
    · intro ts p e q h
      obtain ⟨node, p1, h1, h2⟩ := (parseExponentiation_succ n ts p e q).1 h
      exact ihXL _ _ _ _ _ p (bF _ _ _ _ h1).1 (ihF _ _ _ _ h1) h2
    · intro ts node p e q p0 hp hn h
      rcases (parseExponentiationLoop_succ n ts node p e q).1 h with
        ⟨right, p2, -, h1, h2⟩ | ⟨-, rfl, rfl⟩
      · have hb := (bF _ _ _ _ h1).1
        have hd := ihF _ _ _ _ h1
        refine ihXL _ _ _ _ _ p0 (by omega) ?_ h2
        rw [depth_createNode]
        omega
      · exact hn
    · intro ts p e q h
      rcases (parseFactor_succ n ts p e q).1 h with
        ⟨f, arg, p2, -, -, -, h1, h2⟩ | ⟨-, node, p2, h1, -, rfl, rfl⟩ | ⟨num, -, -, -, rfl, rfl⟩
      · have hb := (bE _ _ _ _ h1).1
        have hd := ihE _ _ _ _ h1
        rcases h2 with ⟨-, -, arg2, p4, h3, -, rfl, rfl⟩ | ⟨-, -, rfl, rfl⟩
        · have hb2 := (bE _ _ _ _ h3).1
          have hd2 := ihE _ _ _ _ h3
          rw [depth_createNode]
          omega
        · rw [depth_createNode]
          have : depth ASTNode.null = 0 := rfl
          omega
      · have hb := (bE _ _ _ _ h1).1
        have hd := ihE _ _ _ _ h1
        omega
      · rw [depth_leaf]
        omega
/-! ## Claims on the tokenizer -/

/-- C1: on a C string (no NUL inside), `tokenise` ends in a lex error exactly when
the string has a character that is not whitespace, a digit, `.`, a letter, `_`
or one of `+ - * / ^ ( ) ,`, or has a number literal with two decimal points;
on every other string it returns a token sequence.  The string `2 $ 3` fails on
the character `$`. -/
theorem tokenise_fails_iff (expression : List Char) (hnul : ∀ c ∈ expression, c ≠ '\x00') :
    ((∃ e, tokenise expression = .fail e) ↔
      ((∃ c ∈ expression, allowedChar c = false) ∨ twoDotLiteral expression)) ∧
    (¬((∃ c ∈ expression, allowedChar c = false) ∨ twoDotLiteral expression) →
      ∃ tokens, tokenise expression = .ok tokens) ∧
    tokenise "2 $ 3".toList = .fail (.unexpectedChar '$') := by
  obtain ⟨h1, h2⟩ :=
    tokeniseLoop_fail_iff expression expression.length 0 expression (le_refl _) hnul
  rw [badInput_iff] at h2
  have hfail : (∃ e, tokenise expression = .fail e) ↔
      ∃ e, tokeniseLoop expression expression.length 0 expression = .fail e := by
    unfold tokenise tokeniseLexemes
    cases tokeniseLoop expression expression.length 0 expression <;> simp
  refine ⟨hfail.trans h2, fun hgood => ?_, by decide⟩
  have hnf : ¬∃ e, tokeniseLoop expression expression.length 0 expression = .fail e :=
    fun hf => hgood (h2.1 hf)
  unfold tokenise tokeniseLexemes
  cases hr : tokeniseLoop expression expression.length 0 expression with
  | ok lexemes => exact ⟨_, rfl⟩
  | fail e => exact absurd ⟨e, hr⟩ hnf
  | outOfFuel => exact absurd hr h1

/-- C1 at the input `2 $ 3`, a string with no NUL inside. -/
theorem tokenise_fails_iff_witness :
    (∀ c ∈ "2 $ 3".toList, c ≠ '\x00') ∧
    (((∃ e, tokenise "2 $ 3".toList = .fail e) ↔
      ((∃ c ∈ "2 $ 3".toList, allowedChar c = false) ∨ twoDotLiteral "2 $ 3".toList)) ∧
    (¬((∃ c ∈ "2 $ 3".toList, allowedChar c = false) ∨ twoDotLiteral "2 $ 3".toList) →
      ∃ tokens, tokenise "2 $ 3".toList = .ok tokens) ∧
    tokenise "2 $ 3".toList = .fail (.unexpectedChar '$')) :=
  ⟨by decide, tokenise_fails_iff "2 $ 3".toList (by decide)⟩

/-- C2: in a C string that tokenises, a `-` at index `i` is the first character
of a token of the number branch exactly when `i = 0` or the character at
`i - 1` is `(` or one of `+ - * / ^`; everywhere else it is emitted as the
one-character operator token `-`.  So `3-2` gives `3`, `-`, `2` and `3*-2`
gives `3`, `*`, `-2`. -/
theorem tokenise_minus_fusion (expression : List Char) (hnul : ∀ c ∈ expression, c ≠ '\x00')
    (lexemes : List Lexeme) (h : tokeniseLexemes expression = .ok lexemes)
    (i : Nat) (hi : expression[i]? = some '-') :
    ((∃ digits, Lexeme.mk .number i ('-' :: digits) ∈ lexemes) ↔ fusingPosition expression i) ∧
    (¬fusingPosition expression i → Lexeme.mk .operator i ['-'] ∈ lexemes) ∧
    tokenise "3-2".toList = .ok (toks ["3", "-", "2"]) ∧
    tokenise "3*-2".toList = .ok (toks ["3", "*", "-2"]) := by
  obtain ⟨h1, h2⟩ := tokeniseLoop_minus expression expression.length 0 expression lexemes
    (by simp) hnul h
  obtain ⟨h1a, h1b⟩ := h1 i (Nat.zero_le _) hi
  have hiff := startsNumber_minus_iff expression i hnul hi
  refine ⟨⟨?_, fun hp => h1a (hiff.2 hp)⟩, fun hnp => h1b ?_, by decide, by decide⟩
  · rintro ⟨digits, hmem⟩
    exact hiff.1 (h2 _ hmem rfl rfl)
  · cases hs : startsNumber expression i '-' with
    | false => rfl
    | true => exact absurd (hiff.1 hs) hnp

/-- C2 at the `-` of `3*-2` (index 2, right after `*`). -/
theorem tokenise_minus_fusion_witness :
    (∀ c ∈ "3*-2".toList, c ≠ '\x00') ∧
    tokeniseLexemes "3*-2".toList =
      .ok [⟨.number, 0, ['3']⟩, ⟨.operator, 1, ['*']⟩, ⟨.number, 2, ['-', '2']⟩] ∧
    "3*-2".toList[2]? = some '-' ∧
    (((∃ digits, Lexeme.mk .number 2 ('-' :: digits) ∈
        [Lexeme.mk .number 0 ['3'], ⟨.operator, 1, ['*']⟩, ⟨.number, 2, ['-', '2']⟩]) ↔
      fusingPosition "3*-2".toList 2) ∧
    (¬fusingPosition "3*-2".toList 2 → Lexeme.mk .operator 2 ['-'] ∈
        [Lexeme.mk .number 0 ['3'], ⟨.operator, 1, ['*']⟩, ⟨.number, 2, ['-', '2']⟩]) ∧
    tokenise "3-2".toList = .ok (toks ["3", "-", "2"]) ∧
    tokenise "3*-2".toList = .ok (toks ["3", "*", "-2"])) :=
  ⟨by decide, by decide, by decide,
    tokenise_minus_fusion "3*-2".toList (by decide) _ (by decide) 2 (by decide)⟩

/-! ## Claims on the parser -/

/-- C3 fails on the code: `implicitMultiplication` tests `isdigit(prev[0])` and
`isdigit(curr[0])`, so a number token that starts with `-` or `.` is no operand
of an implicit multiplication.  The tokens of `-2(3)` parse to the leaf `-2`
alone (cursor 1 of 4), those of `-2*(3)` to `*(-2, 3)`; the tokens of `2 .5`
parse to the leaf `2` alone, those of `2*.5` to `*(2, .5)`. -/
theorem implicitMultiplication_misses_nondigit_numbers :
    tokenise "-2(3)".toList = .ok (toks ["-2", "(", "3", ")"]) ∧
    parse (toks ["-2", "(", "3", ")"]) = .ok (leaf "-2".toList, 1) ∧
    parse (toks ["-2", "*", "(", "3", ")"]) =
      .ok (createNode "*".toList (leaf "-2".toList) (leaf "3".toList), 5) ∧
    tokenise "2 .5".toList = .ok (toks ["2", ".5"]) ∧
    parse (toks ["2", ".5"]) = .ok (leaf "2".toList, 1) ∧
    parse (toks ["2", "*", ".5"]) =
      .ok (createNode "*".toList (leaf "2".toList) (leaf ".5".toList), 3) := by
  refine ⟨?_, ?_, ?_, ?_, ?_, ?_⟩ <;> decide


/-- C4: three precedence levels, `+ - * /` grouping to the left: for number tokens
`a`, `b`, `c` that start with a digit, `a+b*c` parses to `+(a, *(b,c))`, `a*b^c`
to `*(a, ^(b,c))`, `a-b+c` to `+(-(a,b), c)` and `a/b*c` to `*(/(a,b), c)`. -/
theorem parse_precedence (a b c : Token) (ha : digitLeading a) (hb : digitLeading b)
    (hc : digitLeading c) :
    parse [a, "+".toList, b, "*".toList, c] =
      .ok (createNode "+".toList (leaf a) (createNode "*".toList (leaf b) (leaf c)), 5) ∧
    parse [a, "*".toList, b, "^".toList, c] =
      .ok (createNode "*".toList (leaf a) (createNode "^".toList (leaf b) (leaf c)), 5) ∧
    parse [a, "-".toList, b, "+".toList, c] =
      .ok (createNode "+".toList (createNode "-".toList (leaf a) (leaf b)) (leaf c), 5) ∧
    parse [a, "/".toList, b, "*".toList, c] =
      .ok (createNode "*".toList (createNode "/".toList (leaf a) (leaf b)) (leaf c), 5) := by
  obtain ⟨a1, a2, a3, a4, a5, a6, a7, a8, a9⟩ := digitLeading_ne ha
  obtain ⟨b1, b2, b3, b4, b5, b6, b7, b8, b9⟩ := digitLeading_ne hb
  obtain ⟨c1, c2, c3, c4, c5, c6, c7, c8, c9⟩ := digitLeading_ne hc
  have ha' := ha
  have hb' := hb
  have hc' := hc
  simp only [digitLeading, List.headD_eq_head?_getD] at ha' hb' hc'
  refine ⟨?_, ?_, ?_, ?_⟩ <;>
  simp +decide [parse, parseFuel, parseExpression_unfold, parseTerm_unfold,
    parseExponentiation_unfold, parseFactor_leaf_at, parseTermLoop_mul, parseTermLoop_div,
    parseExpressionLoop_plus, parseExpressionLoop_minus, parseExponentiationLoop_pow,
    parseExponentiationLoop_stop, parseTermLoop_stop, parseExpressionLoop_stop,
    implicitMultiplication, previous, *]

/-- C4 at the number tokens `1`, `2`, `3`. -/
theorem parse_precedence_witness :
    digitLeading "1".toList ∧ digitLeading "2".toList ∧ digitLeading "3".toList ∧
    (parse [ "1".toList, "+".toList, "2".toList, "*".toList, "3".toList] =
      .ok (createNode "+".toList (leaf "1".toList)
        (createNode "*".toList (leaf "2".toList) (leaf "3".toList)), 5) ∧
    parse [ "1".toList, "*".toList, "2".toList, "^".toList, "3".toList] =
      .ok (createNode "*".toList (leaf "1".toList)
        (createNode "^".toList (leaf "2".toList) (leaf "3".toList)), 5) ∧
    parse [ "1".toList, "-".toList, "2".toList, "+".toList, "3".toList] =
      .ok (createNode "+".toList (createNode "-".toList (leaf "1".toList) (leaf "2".toList))
        (leaf "3".toList), 5) ∧
    parse [ "1".toList, "/".toList, "2".toList, "*".toList, "3".toList] =
      .ok (createNode "*".toList (createNode "/".toList (leaf "1".toList) (leaf "2".toList))
        (leaf "3".toList), 5)) :=
  ⟨by decide, by decide, by decide,
    parse_precedence "1".toList "2".toList "3".toList (by decide) (by decide) (by decide)⟩

/-- C5: `^` groups to the left: for number tokens `a`, `b`, `c` that start with a
digit, the tokens `a ^ b ^ c` parse to `^(^(a,b), c)`, which is not the
right-grouped tree `^(a, ^(b,c))`. -/
theorem parse_exponentiation_left_assoc (a b c : Token) (ha : digitLeading a)
    (hb : digitLeading b) (hc : digitLeading c) :
    parse [a, "^".toList, b, "^".toList, c] =
      .ok (createNode "^".toList (createNode "^".toList (leaf a) (leaf b)) (leaf c), 5) ∧
    parse [a, "^".toList, b, "^".toList, c] ≠
      .ok (createNode "^".toList (leaf a) (createNode "^".toList (leaf b) (leaf c)), 5) := by
  obtain ⟨a1, a2, a3, a4, a5, a6, a7, a8, a9⟩ := digitLeading_ne ha
  obtain ⟨b1, b2, b3, b4, b5, b6, b7, b8, b9⟩ := digitLeading_ne hb
  obtain ⟨c1, c2, c3, c4, c5, c6, c7, c8, c9⟩ := digitLeading_ne hc
  have ha' := ha
  have hb' := hb
  have hc' := hc
  simp only [digitLeading, List.headD_eq_head?_getD] at ha' hb' hc'
  have hparse : parse [a, "^".toList, b, "^".toList, c] =
      .ok (createNode "^".toList (createNode "^".toList (leaf a) (leaf b)) (leaf c), 5) := by
    simp +decide [parse, parseFuel, parseExpression_unfold, parseTerm_unfold,
      parseExponentiation_unfold, parseFactor_leaf_at, parseTermLoop_mul, parseTermLoop_div,
      parseExpressionLoop_plus, parseExpressionLoop_minus, parseExponentiationLoop_pow,
      parseExponentiationLoop_stop, parseTermLoop_stop, parseExpressionLoop_stop,
      implicitMultiplication, previous, *]
  refine ⟨hparse, ?_⟩
  rw [hparse]
  simp [createNode, leaf]

/-- C5 at the number tokens `2`, `3`, `2`. -/
theorem parse_exponentiation_left_assoc_witness :
    digitLeading "2".toList ∧ digitLeading "3".toList ∧
    (parse [ "2".toList, "^".toList, "3".toList, "^".toList, "2".toList] =
      .ok (createNode "^".toList (createNode "^".toList (leaf "2".toList) (leaf "3".toList))
        (leaf "2".toList), 5) ∧
    parse [ "2".toList, "^".toList, "3".toList, "^".toList, "2".toList] ≠
      .ok (createNode "^".toList (leaf "2".toList)
        (createNode "^".toList (leaf "3".toList) (leaf "2".toList)), 5)) :=
  ⟨by decide, by decide,
    parse_exponentiation_left_assoc "2".toList "3".toList "2".toList
      (by decide) (by decide) (by decide)⟩

/-- C6: function calls are parsed with the arity of their name.  For a function
identifier `f` and token sequences `args`, `args2` that `parse` reads to their
end as `e`, `e2`: a one-argument `f` makes `f ( args )` the node `f` with the
single child `e`, a comma after `args` or the end of input after `args` is a
syntax error expecting `)`; `pow` and `log_base` make `f ( args , args2 )` the
node `f` with children `e`, `e2` in this order, `)` in place of the comma is a
syntax error expecting `,`, and the end of input after `args2` is a syntax error
expecting `)`; and any `f` not followed by `(` is a syntax error expecting `(`. -/
theorem parse_function_call (f : Token) (hf : functionNames.contains f = true)
    (args args2 : List Token) (e e2 : ASTNode)
    (h1 : parse args = .ok (e, args.length)) (h2 : parse args2 = .ok (e2, args2.length)) :
    (¬twoArgument f →
      parse ([f, "(".toList] ++ args ++ [")".toList]) =
        .ok (createNode f e .null, args.length + 3) ∧
      (∀ rest, parse ([f, "(".toList] ++ args ++ ",".toList :: rest) =
        .fail (.syntaxError ")".toList (some ",".toList))) ∧
      parse ([f, "(".toList] ++ args) = .fail (.syntaxError ")".toList none)) ∧
    (twoArgument f →
      parse ([f, "(".toList] ++ args ++ (",".toList :: args2 ++ [")".toList])) =
        .ok (createNode f e e2, args.length + args2.length + 4) ∧
      parse ([f, "(".toList] ++ args ++ [")".toList]) =
        .fail (.syntaxError ",".toList (some ")".toList)) ∧
      parse ([f, "(".toList] ++ args ++ (",".toList :: args2)) =
        .fail (.syntaxError ")".toList none)) ∧
    (∀ rest, rest.head? ≠ some "(".toList →
      parse (f :: rest) = .fail (.syntaxError "(".toList rest.head?)) := by
  have hsc : ∀ (l : List Token) (d : Token), (")".toList :: l).head? = some d → stopsParse d := by
    intro l d hd
    simp only [List.head?_cons, Option.some.injEq] at hd
    subst hd
    exact stopsParse_close
  have hsm : ∀ (l : List Token) (d : Token), (",".toList :: l).head? = some d → stopsParse d := by
    intro l d hd
    simp only [List.head?_cons, Option.some.injEq] at hd
    subst hd
    exact stopsParse_comma
  refine ⟨fun h1f => ⟨?_, fun rest => ?_, ?_⟩, fun h2f => ⟨?_, ?_, ?_⟩, fun rest hrest => ?_⟩
  · -- one argument, closed
    have hB := parseFactor_call_one f hf h1f args [")".toList] e (hsc []) h1
    rw [consume_ok _ _ _ (by rw [call_get_end]; rfl)] at hB
    simp only [Run.bind_ok] at hB
    have hC := parseExpression_of_factor_ok _ _ _ _ _ hB
      (List.getElem?_eq_none (by simp; omega))
    have hD := parse_of_le _ _ _ hC (by simp) (by simp [parseFuel]; omega)
    rw [hD]
    congr 2
    omega
  · -- one argument, a comma after it
    have hB := parseFactor_call_one f hf h1f args (",".toList :: rest) e (hsm rest) h1
    have hget := call_get_end f args (",".toList :: rest)
    rw [consume_of_ne _ _ _ (by rw [hget]; simp), hget] at hB
    simp only [Run.bind_fail, List.head?_cons] at hB
    have hC := parseExpression_of_factor_fail _ _ _ _ hB
    exact parse_of_le _ _ _ hC (by simp) (by simp [parseFuel]; omega)
  · -- one argument, end of input after it
    have hB := parseFactor_call_one f hf h1f args [] e (by simp) h1
    have hget := call_get_end f args []
    rw [consume_of_ne _ _ _ (by rw [hget]; simp), hget] at hB
    simp only [Run.bind_fail, List.head?_nil, List.append_nil] at hB
    have hC := parseExpression_of_factor_fail _ _ _ _ hB
    exact parse_of_le _ _ _ hC (by simp) (by simp [parseFuel]; omega)
  · -- two arguments, closed
    have hm1 : parseFuel args.length ≤ parseFuel (args.length + args2.length) := by
      simp [parseFuel]
    have hm2 : parseFuel args2.length ≤ parseFuel (args.length + args2.length) := by
      simp [parseFuel]
    have hB := parseFactor_call_two f hf h2f args (",".toList :: args2 ++ [")".toList]) e
      (parseFuel (args.length + args2.length)) hm1 (hsm _) h1
    have hT : [f, "(".toList] ++ args ++ (",".toList :: args2 ++ [")".toList]) =
        ([f, "(".toList] ++ args ++ [",".toList]) ++ args2 ++ [")".toList] := by simp
    have hlen : ([f, "(".toList] ++ args ++ [",".toList]).length = 2 + args.length + 1 := by
      simp; omega
    have hA2 := parse_inside ([f, "(".toList] ++ args ++ [",".toList]) args2 [")".toList] e2
      (hsc []) h2 (parseFuel (args.length + args2.length)) hm2
    have hclose := frame_get_end ([f, "(".toList] ++ args ++ [",".toList]) args2 [")".toList]
    rw [← hT, hlen] at hA2 hclose
    rw [consume_ok _ _ _ (by rw [call_get_end]; rfl)] at hB
    simp only [Run.bind_ok, hA2] at hB
    rw [consume_ok _ _ _ (by rw [hclose]; rfl)] at hB
    simp only [Run.bind_ok] at hB
    have hC := parseExpression_of_factor_ok _ _ _ _ _ hB
      (List.getElem?_eq_none (by simp; omega))
    have hD := parse_of_le _ _ _ hC (by simp) (by simp [parseFuel]; omega)
    rw [hD]
    congr 2
    omega
  · -- two arguments, `)` in place of the comma
    have hB := parseFactor_call_two f hf h2f args [")".toList] e (parseFuel args.length)
      (le_refl _) (hsc []) h1
    have hget := call_get_end f args [")".toList]
    rw [consume_of_ne _ _ _ (by rw [hget]; simp), hget] at hB
    simp only [Run.bind_fail, List.head?_cons] at hB
    have hC := parseExpression_of_factor_fail _ _ _ _ hB
    exact parse_of_le _ _ _ hC (by simp) (by simp [parseFuel]; omega)
  · -- two arguments, end of input after the second
    have hm1 : parseFuel args.length ≤ parseFuel (args.length + args2.length) := by
      simp [parseFuel]
    have hm2 : parseFuel args2.length ≤ parseFuel (args.length + args2.length) := by
      simp [parseFuel]
    have hB := parseFactor_call_two f hf h2f args (",".toList :: args2) e
      (parseFuel (args.length + args2.length)) hm1 (hsm _) h1
    have hT : [f, "(".toList] ++ args ++ (",".toList :: args2) =
        ([f, "(".toList] ++ args ++ [",".toList]) ++ args2 ++ [] := by simp
    have hlen : ([f, "(".toList] ++ args ++ [",".toList]).length = 2 + args.length + 1 := by
      simp; omega
    have hA2 := parse_inside ([f, "(".toList] ++ args ++ [",".toList]) args2 [] e2
      (by simp) h2 (parseFuel (args.length + args2.length)) hm2
    have hend := frame_get_end ([f, "(".toList] ++ args ++ [",".toList]) args2 []
    rw [← hT, hlen] at hA2 hend
    rw [consume_ok _ _ _ (by rw [call_get_end]; rfl)] at hB
    simp only [Run.bind_ok, hA2] at hB
    rw [consume_of_ne _ _ _ (by rw [hend]; simp), hend] at hB
    simp only [Run.bind_fail, List.head?_nil] at hB
    have hC := parseExpression_of_factor_fail _ _ _ _ hB
    exact parse_of_le _ _ _ hC (by simp) (by simp [parseFuel]; omega)
  · -- no `(` after the identifier
    have hB : parseFactor (0 + 1) (f :: rest) 0 = .fail (.syntaxError "(".toList rest.head?) := by
      rw [parseFactor_call _ _ _ _ (by simp) hf]
      have hget : (f :: rest)[0 + 1]? = rest.head? := by
        simp [List.head?_eq_getElem?]
      rw [consume_of_ne _ _ _ (by rw [hget]; exact hrest), hget]
      rfl
    have hC := parseExpression_of_factor_fail _ _ _ _ hB
    exact parse_of_le _ _ _ hC (by simp) (by simp [parseFuel])

/-- C6 at `pow ( 2 , 3 )`. -/
theorem parse_function_call_witness :
    functionNames.contains "pow".toList = true ∧
    parse (toks ["2"]) = .ok (leaf "2".toList, (toks ["2"]).length) ∧
    parse (toks ["3"]) = .ok (leaf "3".toList, (toks ["3"]).length) ∧
    parse (toks ["pow", "(", "2", ",", "3", ")"]) =
      .ok (createNode "pow".toList (leaf "2".toList) (leaf "3".toList), 6) ∧
    parse (toks ["pow", "(", "2", ")"]) =
      .fail (.syntaxError ",".toList (some ")".toList)) ∧
    parse (toks ["pow", "(", "2", ",", "3"]) = .fail (.syntaxError ")".toList none) ∧
    parse (toks ["pow", "2"]) = .fail (.syntaxError "(".toList (some "2".toList)) := by
  have h := parse_function_call "pow".toList (by decide) (toks ["2"]) (toks ["3"])
    (leaf "2".toList) (leaf "3".toList) (by decide) (by decide)
  exact ⟨by decide, by decide, by decide, (h.2.1 (by decide)).1, (h.2.1 (by decide)).2.1,
    (h.2.1 (by decide)).2.2, h.2.2 (toks ["2"]) (by decide)⟩

/-- C7 fails on the code: with the cursor at the end of the array `parseFactor`
falls through to `consumeNumber`, which reads `tokens[numTokens]` without a
bounds check; no syntax error is raised.  On the empty sequence the read is at
index 0, on the tokens of `2 + (` at index 3. -/
theorem consumeNumber_reads_past_the_end :
    parse [] = .fail (.outOfBounds 0) ∧
    tokenise "2 + (".toList = .ok (toks ["2", "+", "("]) ∧
    parse (toks ["2", "+", "("]) = .fail (.outOfBounds 3) ∧
    parse (toks ["2", "+"]) = .fail (.outOfBounds 2) := by
  refine ⟨?_, ?_, ?_, ?_⟩ <;> decide

/-- C8: parentheses are transparent and must be closed: if `parse` reads the
whole of `t` and returns the tree `e`, then `(` `t` `)` parses to the same tree
`e`, and `(` `t` without the closing parenthesis ends in the syntax error that
expects `)`. -/
theorem parse_parentheses (t : List Token) (e : ASTNode) (h : parse t = .ok (e, t.length)) :
    parse ("(".toList :: t ++ [")".toList]) = .ok (e, t.length + 2) ∧
    parse ("(".toList :: t) = .fail (.syntaxError ")".toList none) := by
  constructor
  · have hA := parse_inside ["(".toList] t [")".toList] e
      (by intro d hd; simp only [List.head?_cons, Option.some.injEq] at hd; subst hd
          exact stopsParse_close) h (parseFuel t.length) (le_refl _)
    have hT : ["(".toList] ++ t ++ [")".toList] = "(".toList :: t ++ [")".toList] := rfl
    rw [hT] at hA
    have hclose : ("(".toList :: t ++ [")".toList])[[ "(".toList].length + t.length]? =
        some ")".toList := by
      rw [← hT, frame_get_end]; rfl
    have hB : parseFactor (parseFuel t.length + 1) ("(".toList :: t ++ [")".toList]) 0 =
        .ok (e, [ "(".toList].length + t.length + 1) := by
      rw [parseFactor_paren _ _ _ (by simp)]
      rw [show 0 + 1 = [ "(".toList].length from rfl, hA]
      simp only [Run.bind_ok]
      rw [consume_ok _ _ _ hclose]
      rfl
    have hC := parseExpression_of_factor_ok _ _ _ _ _ hB
      (List.getElem?_eq_none (by simp; omega))
    have hD := parse_of_le _ _ _ hC (by simp) (by simp [parseFuel]; omega)
    rw [hD]
    simp only [List.length_singleton]
    congr 2
    omega
  · have hA := parse_inside ["(".toList] t [] e (by simp) h (parseFuel t.length) (le_refl _)
    have hT : ["(".toList] ++ t ++ [] = "(".toList :: t := by simp
    rw [hT] at hA
    have hend : ("(".toList :: t)[[ "(".toList].length + t.length]? = none :=
      List.getElem?_eq_none (by simp; omega)
    have hB : parseFactor (parseFuel t.length + 1) ("(".toList :: t) 0 =
        .fail (.syntaxError ")".toList none) := by
      rw [parseFactor_paren _ _ _ (by simp)]
      rw [show 0 + 1 = [ "(".toList].length from rfl, hA]
      simp only [Run.bind_ok]
      rw [consume_of_ne _ _ _ (by rw [hend]; simp), hend]
      rfl
    have hC := parseExpression_of_factor_fail _ _ _ _ hB
    exact parse_of_le _ _ _ hC (by simp) (by simp [parseFuel]; omega)

/-- C8 at the tokens of `1+2`. -/
theorem parse_parentheses_witness :
    parse (toks ["1", "+", "2"]) =
      .ok (createNode "+".toList (leaf "1".toList) (leaf "2".toList), (toks ["1", "+", "2"]).length) ∧
    (parse ("(".toList :: toks ["1", "+", "2"] ++ [")".toList]) =
      .ok (createNode "+".toList (leaf "1".toList) (leaf "2".toList),
        (toks ["1", "+", "2"]).length + 2) ∧
    parse ("(".toList :: toks ["1", "+", "2"]) = .fail (.syntaxError ")".toList none)) :=
  ⟨by decide, parse_parentheses (toks ["1", "+", "2"]) _ (by decide)⟩

/-! ## Claims on the whole pipeline -/

set_option maxRecDepth 100000 in
/-- C9: end to end, `2(3+4)` and `2*(3+4)` evaluate to the same double, and this
double is 14 (whatever the functions of the math library compute: none is
called). -/
theorem calculate_implicit_multiplication (M : MathLib) :
    calculate M "2(3+4)".toList = .result (F64.ofInt 14) ∧
    calculate M "2*(3+4)".toList = .result (F64.ofInt 14) ∧
    calculate M "2(3+4)".toList = calculate M "2*(3+4)".toList ∧
    F64.ofInt 14 = .fin false (14 * 2 ^ 49) (-49) :=
  ⟨rfl, rfl, rfl, rfl⟩

set_option maxRecDepth 100000 in
/-- C10: end to end, `3-2` evaluates to 1, its `-` being the binary operator
(tokens `3`, `-`, `2`, tree `-(3, 2)`), and `3*-2` evaluates to -6, its `-` being
fused into the literal (tokens `3`, `*`, `-2`, tree `*(3, -2)`). -/
theorem calculate_minus (M : MathLib) :
    calculate M "3-2".toList = .result (F64.ofInt 1) ∧
    calculate M "3*-2".toList = .result (F64.ofInt (-6)) ∧
    tokenise "3-2".toList = .ok (toks ["3", "-", "2"]) ∧
    parse (toks ["3", "-", "2"]) =
      .ok (createNode "-".toList (leaf "3".toList) (leaf "2".toList), 3) ∧
    tokenise "3*-2".toList = .ok (toks ["3", "*", "-2"]) ∧
    parse (toks ["3", "*", "-2"]) =
      .ok (createNode "*".toList (leaf "3".toList) (leaf "-2".toList), 3) ∧
    F64.ofInt 1 = .fin false (2 ^ 52) (-52) ∧
    F64.ofInt (-6) = .fin true (6 * 2 ^ 50) (-50) :=
  ⟨rfl, rfl, rfl, rfl, rfl, rfl, rfl, rfl⟩


/-! ## Claims on the evaluator and the math library -/

/-- C11: `evaluate` returns no negative zero from an operator node: whatever the
math library computes and whatever the children are, the value of a node tagged
`+`, `-`, `*`, `/` or `^` fails the test `result == 0.0 && signbit(result)`.  End
to end, `0 * -1` gives `0.0` (its tokens are `0`, `*`, `-`, `1`: the `-` after a
blank is not fused, the tree is `*(0, -)` and `atof("-")` is `0.0`), and so does
`0*-1`, whose product `-0.0` is replaced. -/
theorem evaluate_operator_no_negative_zero (M : MathLib) :
    (∀ (value : Token) (left right : ASTNode) (x : F64), isOperatorToken value →
      evaluate M (.node value left right) = some x → negativeZero x = false) ∧
    calculate M "0 * -1".toList = .result F64.zero ∧
    calculate M "0*-1".toList = .result F64.zero ∧
    F64.mul (atof "0".toList) (atof "-1".toList) = .fin true 0 (-1074) ∧
    F64.zero = .fin false 0 (-1074) := by
  refine ⟨?_, rfl, rfl, rfl, rfl⟩
  intro value left right x hop h
  by_cases hleaf : left = .null ∧ right = .null
  · obtain ⟨rfl, rfl⟩ := hleaf
    rw [evaluate_leaf, atof_operator hop] at h
    simp only [Option.some.injEq] at h
    subst h
    rfl
  · rw [evaluate_operator M value left right hop hleaf] at h
    cases hl : evaluate M left with
    | none => rw [hl] at h; simp at h
    | some l =>
      cases hr : evaluate M right with
      | none => rw [hl, hr] at h; simp at h
      | some r =>
        rw [hl, hr] at h
        simp only [Option.bind, Option.some.injEq] at h
        subst h
        exact applyOperator_not_negativeZero M value l r

/-- C11 at the tree `*(0, -1)`, whose product is `-0.0`. -/
theorem evaluate_operator_no_negative_zero_witness :
    isOperatorToken "*".toList ∧
    evaluate (mathFunctions ⟨fun _ => 0⟩)
      (.node "*".toList (leaf "0".toList) (leaf "-1".toList)) = some F64.zero ∧
    negativeZero F64.zero = false :=
  ⟨Or.inr (Or.inr (Or.inl rfl)), rfl,
    (evaluate_operator_no_negative_zero (mathFunctions ⟨fun _ => 0⟩)).1 "*".toList
      (leaf "0".toList) (leaf "-1".toList) F64.zero (Or.inr (Or.inr (Or.inl rfl))) rfl⟩

set_option maxRecDepth 100000 in
set_option exponentiation.threshold 2000 in
/-- C12: a domain error gives a NaN: `customASIN(x)` for `|x| > 1`,
`customACOSH(x)` for `x < 1` and `customATANH(x)` for `|x| >= 1` (the infinities
included), and the program computes a NaN for `asin(2)`, `acosh(0)` and
`atanh(1)`. -/
theorem domain_errors_give_nan (P : Platform) :
    (∀ x, F64.lt (F64.ofInt 1) (F64.fabs x) = true → customASIN x = .nan) ∧
    (∀ x, F64.lt x (F64.ofInt 1) = true → customACOSH x = .nan) ∧
    (∀ x, F64.le (F64.ofInt 1) (F64.fabs x) = true → customATANH x = .nan) ∧
    calculate (mathFunctions P) "asin(2)".toList = .result .nan ∧
    calculate (mathFunctions P) "acosh(0)".toList = .result .nan ∧
    calculate (mathFunctions P) "atanh(1)".toList = .result .nan :=
  ⟨fun _ h => customASIN_domain (F64.one_lt_fabs h), fun _ h => customACOSH_domain h,
    fun _ h => customATANH_domain (F64.one_le_fabs h), rfl, rfl, rfl⟩

set_option maxRecDepth 100000 in
set_option exponentiation.threshold 2000 in
/-- C12 at `-2`, `0` and `-1`. -/
theorem domain_errors_give_nan_witness :
    customASIN (F64.ofInt (-2)) = .nan ∧ customACOSH (F64.ofInt 0) = .nan ∧
    customATANH (F64.ofInt (-1)) = .nan :=
  ⟨(domain_errors_give_nan ⟨fun _ => 0⟩).1 (F64.ofInt (-2)) rfl,
    (domain_errors_give_nan ⟨fun _ => 0⟩).2.1 (F64.ofInt 0) rfl,
    (domain_errors_give_nan ⟨fun _ => 0⟩).2.2.1 (F64.ofInt (-1)) rfl⟩

set_option maxRecDepth 100000 in
set_option exponentiation.threshold 2000 in
/-- C13: for every base `a < 0` and every exponent `b`, `customPOW(a, b)` is a
NaN, and so is the value of a node `^` or `pow` whose left child has a negative
value; the program computes a NaN for `(-2)^2` and for `pow(-2,2)`.  With an
exponent that is an integer the NaN comes from `customLN(a)`: `customEXP` then
converts a NaN to `int`, which C leaves undefined; the result is a NaN whatever
`int` the platform `P` gives there. -/
theorem customPOW_negative_base (P : Platform) :
    (∀ a b, F64.lt a (F64.ofInt 0) = true →
      customPOW P a b = .nan ∧ applyOperator (mathFunctions P) "^".toList a b = .nan) ∧
    (∀ (l r : ASTNode) (a b : F64), evaluate (mathFunctions P) l = some a →
      evaluate (mathFunctions P) r = some b → F64.lt a (F64.ofInt 0) = true →
      evaluate (mathFunctions P) (.node "^".toList l r) = some .nan ∧
      evaluate (mathFunctions P) (.node "pow".toList l r) = some .nan) ∧
    calculate (mathFunctions P) "(-2)^2".toList = .result .nan ∧
    calculate (mathFunctions P) "pow(-2,2)".toList = .result .nan := by
  have key : ∀ a b, F64.lt a (F64.ofInt 0) = true → customPOW P a b = .nan :=
    fun a b h => customPOW_negative P a b h
  have hop : ∀ a b, customPOW P a b = .nan →
      applyOperator (mathFunctions P) "^".toList a b = .nan := by
    intro a b h
    have h1 : applyOperator (mathFunctions P) "^".toList a b =
        (if F64.eq (customPOW P a b) F64.zero && F64.signbit (customPOW P a b) then F64.zero
          else customPOW P a b) := rfl
    rw [h1, h]
    rfl
  have hneg : F64.lt (atof "-2".toList) (F64.ofInt 0) = true := rfl
  refine ⟨fun a b h => ⟨key a b h, hop a b (key a b h)⟩, ?_, ?_, ?_⟩
  · intro l r a b hl hr h
    have hne : ¬(l = .null ∧ r = .null) := by
      rintro ⟨rfl, -⟩
      simp [evaluate] at hl
    constructor
    · rw [evaluate_operator _ _ _ _ (Or.inr (Or.inr (Or.inr (Or.inr rfl)))) hne, hl, hr]
      simp only [Option.bind]
      rw [hop a b (key a b h)]
    · rw [evaluate_node _ _ _ _ hne, hl, hr]
      have h2 : (mathFunctions P).customPOW a b = .nan := key a b h
      simp only [Option.bind]
      rw [← h2]
      rfl
  · refine calculate_of _ _ (toks ["(", "-2", ")", "^", "2"])
      (createNode "^".toList (leaf "-2".toList) (leaf "2".toList)) 5 _ rfl rfl ?_
    rw [createNode, evaluate_operator _ _ _ _ (Or.inr (Or.inr (Or.inr (Or.inr rfl))))
      (by simp [leaf, createNode]), leaf, leaf, createNode, createNode, evaluate_leaf,
      evaluate_leaf]
    simp only [Option.bind]
    rw [hop _ _ (key _ _ hneg)]
  · refine calculate_of _ _ (toks ["pow", "(", "-2", ",", "2", ")"])
      (createNode "pow".toList (leaf "-2".toList) (leaf "2".toList)) 6 _ rfl rfl ?_
    rw [createNode, evaluate_node _ _ _ _ (by simp [leaf, createNode]), leaf, leaf, createNode,
      createNode, evaluate_leaf, evaluate_leaf]
    have h2 : (mathFunctions P).customPOW (atof "-2".toList) (atof "2".toList) = .nan :=
      key _ _ hneg
    simp only [Option.bind]
    rw [← h2]
    rfl

set_option maxRecDepth 100000 in
set_option exponentiation.threshold 2000 in
/-- C13 at `(-2)^2` and `(-2)^0.5`. -/
theorem customPOW_negative_base_witness :
    customPOW ⟨fun _ => 0⟩ (F64.ofInt (-2)) (F64.ofInt 2) = .nan ∧
    customPOW ⟨fun _ => 0⟩ (F64.ofInt (-2)) (lit "0.5") = .nan :=
  ⟨((customPOW_negative_base ⟨fun _ => 0⟩).1 (F64.ofInt (-2)) (F64.ofInt 2) (by rfl)).1,
    ((customPOW_negative_base ⟨fun _ => 0⟩).1 (F64.ofInt (-2)) (lit "0.5") (by rfl)).1⟩

/-- C14: `customLogBase(a, b)` is a NaN when `a <= 0`, `b <= 0` or `b == 1`, and
`customLN(b) / customLN(a)` otherwise: the first argument is the base.  The node
`log_base` passes the value of its left child as `a` and of its right child as
`b`. -/
theorem customLogBase_spec (a b : F64) :
    ((F64.le a (F64.ofInt 0) = true ∨ F64.le b (F64.ofInt 0) = true ∨
        F64.eq b (F64.ofInt 1) = true) → customLogBase a b = .nan) ∧
    (¬(F64.le a (F64.ofInt 0) = true ∨ F64.le b (F64.ofInt 0) = true ∨
        F64.eq b (F64.ofInt 1) = true) →
      customLogBase a b = F64.div (customLN b) (customLN a)) ∧
    (∀ (P : Platform) (l r : ASTNode), evaluate (mathFunctions P) l = some a →
      evaluate (mathFunctions P) r = some b →
      evaluate (mathFunctions P) (.node "log_base".toList l r) = some (customLogBase a b)) := by
  have h0 : lit "0.0" = F64.ofInt 0 := rfl
  have h1 : lit "1.0" = F64.ofInt 1 := rfl
  refine ⟨?_, ?_, ?_⟩
  · intro h
    have h' : (F64.le a (F64.ofInt 0) || F64.le b (F64.ofInt 0) || F64.eq b (F64.ofInt 1)) =
        true := by
      simpa [or_assoc] using h
    rw [customLogBase, h0, h1, if_pos h']
  · intro h
    have h' : ¬(F64.le a (F64.ofInt 0) || F64.le b (F64.ofInt 0) || F64.eq b (F64.ofInt 1)) =
        true := by
      simpa [or_assoc] using h
    rw [customLogBase, h0, h1, if_neg h']
  · intro P l r hl hr
    have hne : ¬(l = .null ∧ r = .null) := by
      rintro ⟨rfl, -⟩
      simp [evaluate] at hl
    rw [evaluate_node _ _ _ _ hne, hl, hr]
    rfl

set_option maxRecDepth 100000 in
set_option exponentiation.threshold 2000 in
/-- C14 at base 2 and argument 8. -/
theorem customLogBase_spec_witness :
    customLogBase (F64.ofInt 0) (F64.ofInt 8) = .nan ∧
    customLogBase (F64.ofInt 2) (F64.ofInt 8) =
      F64.div (customLN (F64.ofInt 8)) (customLN (F64.ofInt 2)) :=
  ⟨(customLogBase_spec (F64.ofInt 0) (F64.ofInt 8)).1 (Or.inl rfl),
    (customLogBase_spec (F64.ofInt 2) (F64.ofInt 8)).2.1 (by decide)⟩

/-- C15: at the sample points the math library is within `1e-6` of the true
value: `customSIN(0)` of 0, `customCOS(0)` of 1, `customLN(1)` of 0,
`customEXP(0)` of 1, `customPOW(2, 10)` of 1024 and `customLogBase(2, 8)` of 3
(all six are exact). -/
theorem sample_points (P : Platform) :
    closeTo (customSIN P (F64.ofInt 0)) 0 (1 / 10 ^ 6) ∧
    closeTo (customCOS P (F64.ofInt 0)) 1 (1 / 10 ^ 6) ∧
    closeTo (customLN (F64.ofInt 1)) 0 (1 / 10 ^ 6) ∧
    closeTo (customEXP P (F64.ofInt 0)) 1 (1 / 10 ^ 6) ∧
    closeTo (customPOW P (F64.ofInt 2) (F64.ofInt 10)) 1024 (1 / 10 ^ 6) ∧
    closeTo (customLogBase (F64.ofInt 2) (F64.ofInt 8)) 3 (1 / 10 ^ 6) := by
  rw [customSIN_zero, customCOS_zero, customLN_one, customEXP_zero, customPOW_two_ten,
    customLogBase_two_eight]
  refine ⟨?_, ?_, ?_, ?_, ?_, ?_⟩ <;> apply closeTo_fin <;> norm_num

/-! ## Claims on the trees of the parser -/

/-- C16: every tree that `parseExpression` returns (from any cursor) is well
formed: each node is a leaf whose text is no function identifier, a one-argument
function with a left child only, or `pow`, `log_base` or an operator with both
children; and `evaluate` computes a value on it without reading a missing
child, whatever the math library. -/
theorem parseExpression_wellFormed (fuel : Nat) (tokens : List Token) (pos : Nat) (e : ASTNode)
    (q : Nat) (h : parseExpression fuel tokens pos = .ok (e, q)) :
    wellFormed e ∧ ∀ M : MathLib, ∃ x, evaluate M e = some x :=
  ⟨(parse_wellFormed fuel).1 _ _ _ _ h,
    fun M => evaluate_wellFormed M e ((parse_wellFormed fuel).1 _ _ _ _ h)⟩

/-- C16 at the tokens of `sin(1)+pow(2,3)4`. -/
theorem parseExpression_wellFormed_witness :
    parse (toks ["sin", "(", "1", ")", "+", "pow", "(", "2", ",", "3", ")", "4"]) =
      .ok (createNode "+".toList (createNode "sin".toList (leaf "1".toList) .null)
        (createNode "*".toList (createNode "pow".toList (leaf "2".toList) (leaf "3".toList))
          (leaf "4".toList)), 12) ∧
    (wellFormed (createNode "+".toList (createNode "sin".toList (leaf "1".toList) .null)
        (createNode "*".toList (createNode "pow".toList (leaf "2".toList) (leaf "3".toList))
          (leaf "4".toList))) ∧
      ∀ M : MathLib, ∃ x, evaluate M (createNode "+".toList
        (createNode "sin".toList (leaf "1".toList) .null)
        (createNode "*".toList (createNode "pow".toList (leaf "2".toList) (leaf "3".toList))
          (leaf "4".toList))) = some x) :=
  ⟨by decide, parseExpression_wellFormed (parseFuel 12)
    (toks ["sin", "(", "1", ")", "+", "pow", "(", "2", ",", "3", ")", "4"]) 0 _ 12 (by decide)⟩

/-- C17: the depth of the tree that `parseExpression` returns is at most the
number of tokens it read, hence at most the number of tokens of the sequence,
implicit multiplications included. -/
theorem parseExpression_depth (fuel : Nat) (tokens : List Token) (pos : Nat) (e : ASTNode)
    (q : Nat) (h : parseExpression fuel tokens pos = .ok (e, q)) :
    depth e ≤ q - pos ∧ depth e ≤ tokens.length := by
  have h1 := (parse_depth fuel).1 _ _ _ _ h
  have h2 := ((parse_bounds fuel).1 _ _ _ _ h).2
  exact ⟨h1, by omega⟩

/-- C17 at the tokens of `2(3)(4)`, two implicit multiplications. -/
theorem parseExpression_depth_witness :
    parse (toks ["2", "(", "3", ")", "(", "4", ")"]) =
      .ok (createNode "*".toList (createNode "*".toList (leaf "2".toList) (leaf "3".toList))
        (leaf "4".toList), 7) ∧
    (depth (createNode "*".toList (createNode "*".toList (leaf "2".toList) (leaf "3".toList))
        (leaf "4".toList)) ≤ 7 - 0 ∧
      depth (createNode "*".toList (createNode "*".toList (leaf "2".toList) (leaf "3".toList))
        (leaf "4".toList)) ≤ (toks ["2", "(", "3", ")", "(", "4", ")"]).length) :=
  ⟨by decide, parseExpression_depth (parseFuel 7) (toks ["2", "(", "3", ")", "(", "4", ")"]) 0 _ 7
    (by decide)⟩

/-! ## Claims on `reduceAngle` and on the tokens -/

/-- C18 fails on the code: for `x = 1.0` the function `reduceAngle` gives the
quadrant 0 and the reduced angle 1.0, which is above π/4 (the comment of the
function says "Reduce x to [-π/4, π/4]"; the code reduces to [-π/2, π/2]). -/
theorem reduceAngle_exceeds_quarter_pi (P : Platform) :
    reduceAngle P (F64.ofInt 1) = (F64.ofInt 1, 0) ∧
    F64.toRat (reduceAngle P (F64.ofInt 1)).1 = 1 ∧
    Real.pi / 4 < ((F64.toRat (reduceAngle P (F64.ofInt 1)).1 : ℚ) : ℝ) := by
  rw [reduceAngle_one]
  refine ⟨rfl, by norm_num [F64.toRat], ?_⟩
  have := Real.pi_lt_d2
  simp only [F64.toRat]
  norm_num
  linarith

/-- C19: when `tokenise` returns, on a string without NUL, every token is
non-empty and the tokens in order, put together, are the string without its
whitespace. -/
theorem tokenise_covers_input (expression : List Char) (tokens : List Token)
    (hnul : ∀ c ∈ expression, c ≠ '\x00') (h : tokenise expression = .ok tokens) :
    (∀ t ∈ tokens, t ≠ []) ∧ tokens.flatten = expression.filter (fun c => !isspace c) := by
  obtain ⟨lexemes, h1, rfl⟩ := (tokenise_eq_ok expression tokens).1 h
  obtain ⟨h2, h3⟩ := tokeniseLoop_texts expression _ 0 expression lexemes hnul h1
  refine ⟨?_, h3⟩
  intro t ht
  obtain ⟨l, hl, rfl⟩ := List.mem_map.1 ht
  exact h2 l hl

/-- C19 at ` 2 * sin( -1.5)`. -/
theorem tokenise_covers_input_witness :
    tokenise " 2 * sin( -1.5)".toList = .ok (toks ["2", "*", "sin", "(", "-", "1.5", ")"]) ∧
    ((∀ t ∈ toks ["2", "*", "sin", "(", "-", "1.5", ")"], t ≠ []) ∧
      (toks ["2", "*", "sin", "(", "-", "1.5", ")"]).flatten =
        " 2 * sin( -1.5)".toList.filter (fun c => !isspace c)) :=
  ⟨by decide, tokenise_covers_input _ _ (by decide) (by decide)⟩

/-- C20 fails on the code: on `-(3)` the leading `-` is a number token of its
own, without a digit (the inner loop of the number branch reads no character
after it), and the program computes `0.0`: the tree is the leaf `-`, the tokens
`(`, `3`, `)` are not read.  A lone `.` is such a token as well. -/
theorem tokenise_number_without_digit (M : MathLib) :
    tokeniseLexemes "-(3)".toList = .ok [⟨.number, 0, "-".toList⟩, ⟨.operator, 1, "(".toList⟩,
      ⟨.number, 2, "3".toList⟩, ⟨.operator, 3, ")".toList⟩] ∧
    hasDigit "-".toList = false ∧
    parse (toks ["-", "(", "3", ")"]) = .ok (leaf "-".toList, 1) ∧
    calculate M "-(3)".toList = .result F64.zero ∧
    tokeniseLexemes ".".toList = .ok [⟨.number, 0, ".".toList⟩] ∧
    hasDigit ".".toList = false :=
  ⟨by decide, by decide, by decide, rfl, by decide, by decide⟩

/-! ## Claims on the cursor and on the tree that `parseExpression` returns -/

set_option maxRecDepth 100000 in
/-- C21 fails on the code: `parseExpression` returns a tree with tokens left
unread, and `main` does not compare the cursor with `numTokens`.  On `2)` the
cursor stops at 1 of 2 tokens and the program prints 2; on `3 * -2` (tokens `3`,
`*`, `-`, `2`) the tree is `*(3, -)`, the cursor stops at 3 of 4 tokens and the
program prints 0.  Every sequence that parses to its end is accepted with the
same tree when a `)` follows it.  What holds is that the cursor is at most
`numTokens`. -/
theorem parse_ignores_trailing_tokens (M : MathLib) :
    tokenise "2)".toList = .ok (toks ["2", ")"]) ∧
    parse (toks ["2", ")"]) = .ok (leaf "2".toList, 1) ∧
    calculate M "2)".toList = .result (F64.ofInt 2) ∧
    tokenise "3 * -2".toList = .ok (toks ["3", "*", "-", "2"]) ∧
    parse (toks ["3", "*", "-", "2"]) =
      .ok (createNode "*".toList (leaf "3".toList) (leaf "-".toList), 3) ∧
    calculate M "3 * -2".toList = .result F64.zero ∧
    (∀ t e, parse t = .ok (e, t.length) →
      parse (t ++ [")".toList]) = .ok (e, t.length) ∧ t.length < (t ++ [")".toList]).length) ∧
    (∀ tokens e q, parse tokens = .ok (e, q) → q ≤ tokens.length) := by
  refine ⟨by decide, by decide, rfl, by decide, by decide, rfl, ?_,
    fun tokens _ _ h => ((parse_bounds (parseFuel tokens.length)).1 _ _ _ _ h).2⟩
  intro t e h
  have hs : ∀ d, [")".toList].head? = some d → stopsParse d := by
    intro d hd
    simp only [List.head?_cons, Option.some.injEq] at hd
    subst hd
    exact stopsParse_close
  have h1 := parse_inside [] t [")".toList] e hs h (parseFuel (t ++ [")".toList]).length)
    (by simp [parseFuel])
  refine ⟨?_, by simp⟩
  simpa [parse] using h1

/-- C21 at the tokens of `1+2`: followed by `)` they give the tree of `1+2`. -/
theorem parse_ignores_trailing_tokens_witness :
    parse (toks ["1", "+", "2"]) =
      .ok (createNode "+".toList (leaf "1".toList) (leaf "2".toList), 3) ∧
    (parse (toks ["1", "+", "2"] ++ [")".toList]) =
      .ok (createNode "+".toList (leaf "1".toList) (leaf "2".toList),
        (toks ["1", "+", "2"]).length) ∧
      (toks ["1", "+", "2"]).length < (toks ["1", "+", "2"] ++ [")".toList]).length) :=
  ⟨by decide, (parse_ignores_trailing_tokens (mathFunctions ⟨fun _ => 0⟩)).2.2.2.2.2.2.1
    (toks ["1", "+", "2"]) _ (by decide)⟩

end Calc
